import Mathlib

/-!
QuickQanava table group item: topology, layout and cell assignment.

A shallow embedding of `src/src/qanTableGroupItem.cpp` (class `qan::TableGroupItem`).

Modelling conventions.

* `qreal` (a C++ `double`) is modelled by `ℚ`: the layout formulas are stated and proved as
  exact arithmetic, rounding is not modelled.
* C++ `int` is a 32-bit machine integer.  A value of type `int` is modelled by an `Int`, and
  every `int` expression of `initialize` whose exact value can leave the range of `int`
  (`rows * cols`, `cols - 1`, `rows - 1` and the cell indices `(r * cols) + c - 1`,
  `(r * cols) + c`, `((r-1) * cols) + c`) is computed with `wrapInt`, the two's-complement
  wrap-around of the compiled program, one `wrapInt` per operator.  Loop counters are
  incremented below their bound and are not wrapped.  Theorems about `initialize` state the
  range of their `int` arguments (`R ≤ INT_MAX`, `C ≤ INT_MAX`, or `R * C ≤ INT_MAX`) as
  hypotheses.
* `_cells`, `_verticalBorders` and `_horizontalBorders` are `std::vector`s of pointers.  Every
  `push_back` of the source is guarded by `!= nullptr` and follows a fresh instantiation, so a
  vector is modelled as the list of the objects it points to, each object carrying its
  address (`ref`).  A pointer to a cell or border stored elsewhere is the `ref` of that object;
  `nullptr` is `none`.
* An out-of-range `_cells[i]` is undefined behaviour in C++: the functions that index `_cells`
  return `Option`, and `none` stands for such an access.
* Setters of Qt items and of the `qan` classes defined outside the file (`setX`,
  `setParentItem`, `setVisible`, `setOrientation`, `setPrevBorder`, `setDraggable`, ...) assign
  the field they name.
* Signal connections, logging (`qWarning`) and `deleteLater` on temporaries have no effect on
  the modelled state, with one exception: a border that `layoutTable` updates lays out its
  adjacent cells (`TableBorder::layoutCells()`, defined outside the file).  `layoutTable`
  holds the statements of the source, which set border geometry only;
  `layoutTableWithCells` adds that reaction, modelled from the spec, and is the definition to
  use for the geometry of the cells.
-/

namespace qan

abbrev qreal := ℚ

/-- Qt::Orientation. -/
inductive Orientation where
  | Horizontal
  | Vertical
  deriving DecidableEq, Repr

/-- The `qan::TableGroup` configuration object read by the item (`getRows()`, `getCols()`,
`getCellSpacing()`, `getTablePadding()`); its class is declared outside the embedded file. -/
structure TableGroup where
  rows : Int
  cols : Int
  cellSpacing : qreal
  tablePadding : qreal
  deriving DecidableEq, Repr

/-- The part of `qan::Graph` the item reads: `getContainerItem()`. -/
structure Graph where
  containerItem : Option Nat
  deriving DecidableEq, Repr

/-- A `qan::TableCell` visual item: address, geometry (`position()` and the size of
`boundingRect()`), parent item, visibility and the attached item set by `setItem()`. -/
structure TableCell where
  ref : Nat
  x : qreal := 0
  y : qreal := 0
  width : qreal := 0
  height : qreal := 0
  parentItem : Option Nat := none
  visible : Bool := false
  item : Option Nat := none
  deriving DecidableEq, Repr

/-- A `qan::TableBorder` visual item: address, orientation, geometry, parent item, visibility,
the adjacent cells (addresses, in insertion order) and the neighbouring borders. -/
structure TableBorder where
  ref : Nat
  orientation : Orientation := Orientation.Vertical
  x : qreal := 0
  y : qreal := 0
  width : qreal := 0
  height : qreal := 0
  parentItem : Option Nat := none
  visible : Bool := false
  prevCells : List Nat := []
  nextCells : List Nat := []
  prevBorder : Option Nat := none
  nextBorder : Option Nat := none
  deriving DecidableEq, Repr

/-- A `qan::NodeItem` together with the cell back-reference of its `qan::Node`
(`getNode()->getCell()`). -/
structure NodeItem where
  x : qreal := 0
  y : qreal := 0
  z : qreal := 0
  parentItem : Option Nat := none
  draggable : Bool := true
  droppable : Bool := true
  selectable : Bool := true
  cell : Option Nat := none
  deriving DecidableEq, Repr

/-- A `QQmlComponent` as seen by `createFromComponent`: `isReady()` and, for the instantiation
attempt numbered `n`, whether `beginCreate`/`completeCreate`/`qobject_cast` yield an item. -/
structure QQmlComponent where
  isReady : Bool
  instantiate : Nat → Bool

/-- The QML environment of the item: `qmlEngine(this) != nullptr`, `qmlContext(this) != nullptr`
and the two components loaded from `TableCell.qml` and `TableBorder.qml`. -/
structure QmlEnv where
  engine : Bool
  context : Bool
  cellComponent : QQmlComponent
  borderComponent : QQmlComponent

/-- State of a `qan::TableGroupItem`: its own address and geometry, `getContainer()`,
`getTableGroup()`, `getGraph()`, the three vectors, and the count of instantiation attempts
made so far (the next fresh address). -/
structure TableGroupItem where
  self : Nat := 0
  z : qreal := 0
  width : qreal := 0
  height : qreal := 0
  container : Option Nat := none
  tableGroup : Option TableGroup := none
  graph : Option Graph := none
  cells : List TableCell := []
  verticalBorders : List TableBorder := []
  horizontalBorders : List TableBorder := []
  fresh : Nat := 0
  deriving DecidableEq, Repr

/-! ## Borders and cells management -/

/-- Method `TableGroupItem::clearLayout()`: every border and cell is scheduled for deletion and the
three vectors are cleared. -/
def clearLayout (s : TableGroupItem) : TableGroupItem :=
  { s with verticalBorders := [], horizontalBorders := [], cells := [] }

/-- Method `TableGroupItem::createFromComponent()`: `none` when the component is not ready, when there
is no QML context, or when the instantiation fails; otherwise the address of the new item.
The second component is the updated count of instantiation attempts. -/
def createFromComponent (env : QmlEnv) (component : QQmlComponent) (fresh : Nat) :
    Option Nat × Nat :=
  if !component.isReady then (none, fresh)
  else if !env.context then (none, fresh)
  else if component.instantiate fresh then (some fresh, fresh + 1)
  else (none, fresh + 1)

/-- The expression `getContainer() != nullptr ? getContainer() : this`. -/
def TableGroupItem.parentForChildren (s : TableGroupItem) : Nat :=
  match s.container with
  | some c => c
  | none => s.self

/-- The cell pushed by `createCells` for the item at address `ref`, after
`setParentItem` and `setVisible(true)`. -/
def newCell (ref parent : Nat) : TableCell :=
  { ref := ref, parentItem := some parent, visible := true }

/-- The loop of `createCells`: `n` instantiation attempts, each non-null cell is pushed to
`_cells`, parented and made visible. -/
def createCellsLoop (env : QmlEnv) : Nat → TableGroupItem → TableGroupItem
  | 0, s => s
  | n + 1, s =>
    match createFromComponent env env.cellComponent s.fresh with
    | (some ref, fresh) =>
      createCellsLoop env n
        { s with
          fresh := fresh
          cells := s.cells ++ [newCell ref s.parentForChildren] }
    | (none, fresh) => createCellsLoop env n { s with fresh := fresh }

/-- Method `TableGroupItem::createCells(int cellsCount)`. -/
def createCells (env : QmlEnv) (cellsCount : Int) (s : TableGroupItem) : TableGroupItem :=
  if cellsCount ≤ 0 then s
  else if cellsCount = (s.cells.length : Int) then s
  else if !env.engine then s
  else createCellsLoop env cellsCount.toNat s

/-- The setter `TableBorder::setNextBorder()` called through the pointer `prev`: the border living at
address `prev` gets `next` as its next border. -/
def setNextBorderAt (prev next : Nat) (borders : List TableBorder) : List TableBorder :=
  borders.map fun b => if b.ref = prev then { b with nextBorder := some next } else b

/-- The border pushed by `createBorders` for the item at address `ref`, after
`setOrientation`, `setParentItem`, `setVisible(true)` and `setPrevBorder(prevBorder)`. -/
def newBorder (ref : Nat) (orientation : Orientation) (parent : Nat)
    (prevBorder : Option Nat) : TableBorder :=
  { ref := ref, orientation := orientation, parentItem := some parent, visible := true,
    prevBorder := prevBorder }

/-- One of the two creation loops of `createBorders` (they differ by the orientation and by
the vector they push to): `n` instantiation attempts; each non-null border gets its
orientation, parent, visibility and `prevBorder`, is pushed to the vector, and becomes the
`nextBorder` of the previously created border.  The state is the vector, the attempt counter
being threaded along. -/
def createBordersLoop (env : QmlEnv) (orientation : Orientation) (parent : Nat) :
    Nat → Option Nat → List TableBorder × Nat → List TableBorder × Nat
  | 0, _, acc => acc
  | n + 1, prevBorder, (borders, fresh) =>
    match createFromComponent env env.borderComponent fresh with
    | (some ref, fresh1) =>
      let pushed := borders ++ [newBorder ref orientation parent prevBorder]
      let linked :=
        match prevBorder with
        | some p => setNextBorderAt p ref pushed
        | none => pushed
      createBordersLoop env orientation parent n (some ref) (linked, fresh1)
    | (none, fresh1) => createBordersLoop env orientation parent n prevBorder (borders, fresh1)

/-- Method `TableGroupItem::createBorders(int verticalBordersCount, int horizontalBordersCount)`. -/
def createBorders (env : QmlEnv) (verticalBordersCount horizontalBordersCount : Int)
    (s : TableGroupItem) : TableGroupItem :=
  if verticalBordersCount < 0 ∨ horizontalBordersCount < 0 then s
  else if !env.engine then s
  else
    let s1 :=
      if verticalBordersCount ≠ (s.verticalBorders.length : Int) then
        let r := createBordersLoop env Orientation.Vertical s.parentForChildren
          verticalBordersCount.toNat none (s.verticalBorders, s.fresh)
        { s with verticalBorders := r.1, fresh := r.2 }
      else s
    if horizontalBordersCount ≠ (s1.horizontalBorders.length : Int) then
      let r := createBordersLoop env Orientation.Horizontal s1.parentForChildren
        horizontalBordersCount.toNat none (s1.horizontalBorders, s1.fresh)
      { s1 with horizontalBorders := r.1, fresh := r.2 }
    else s1

/-- The constant `INT_MAX` of a 32-bit `int`, `2^31 - 1`. -/
def INT_MAX : Int := 2147483647

/-- The value of an `int` expression whose exact result is `x`: the result is reduced modulo
`2^32` into the range `-2^31 .. 2^31 - 1`, as the compiled program does on overflow. -/
def wrapInt (x : Int) : Int := (x + 2147483648) % 4294967296 - 2147483648

/-- The access `_cells[i]` for an `int` index: the address stored at position `i`, `none` when `i` is out
of range (a negative `i` converts to a `size_t` beyond every vector size). -/
def cellAt (cells : List TableCell) (i : Int) : Option Nat :=
  if 0 ≤ i then (cells[i.toNat]?).map TableCell.ref else none

/-- Modelled from the spec: `TableBorder::addPrevCell()`, whose definition is in
`qanTableBorder.cpp`, outside the embedded file; the border's `prevCells` lists the cells
immediately before it, so the call appends the cell to `prevCells`. -/
def addPrevCell (b : TableBorder) (cell : Nat) : TableBorder :=
  { b with prevCells := b.prevCells ++ [cell] }

/-- Modelled from the spec: `TableBorder::addNextCell()`, whose definition is in
`qanTableBorder.cpp`, outside the embedded file; the call appends the cell to `nextCells`. -/
def addNextCell (b : TableBorder) (cell : Nat) : TableBorder :=
  { b with nextCells := b.nextCells ++ [cell] }

/-- Inner loop of the vertical wiring, `for (int r = 0; r < rows; r++)`, written with the
number `n` of remaining iterations and the current `r`:
`addPrevCell(_cells[(r * cols) + c - 1]); addNextCell(_cells[(r * cols) + c]);`.
The two indices are `int` expressions: each operator wraps around. -/
def wireVerticalBorder (cells : List TableCell) (cols c : Int) :
    Nat → Int → TableBorder → Option TableBorder
  | 0, _, b => some b
  | n + 1, r, b =>
    match cellAt cells (wrapInt (wrapInt (wrapInt (r * cols) + c) - 1)),
      cellAt cells (wrapInt (wrapInt (r * cols) + c)) with
    | some p, some q => wireVerticalBorder cells cols c n (r + 1) (addNextCell (addPrevCell b p) q)
    | _, _ => none

/-- Outer loop of the vertical wiring: `for (auto verticalBorder: _verticalBorders)` with the
counter `c`, incremented after each border. -/
def wireVerticalBorders (cells : List TableCell) (rows cols : Int) :
    Int → List TableBorder → Option (List TableBorder)
  | _, [] => some []
  | c, b :: bs =>
    match wireVerticalBorder cells cols c rows.toNat 0 b with
    | some b1 =>
      match wireVerticalBorders cells rows cols (c + 1) bs with
      | some bs1 => some (b1 :: bs1)
      | none => none
    | none => none

/-- Inner loop of the horizontal wiring, `for (int c = 0; c < cols; c++)`:
`addPrevCell(_cells[((r-1) * cols) + c]); addNextCell(_cells[(r * cols) + c]);`.
The two indices are `int` expressions: each operator wraps around. -/
def wireHorizontalBorder (cells : List TableCell) (cols r : Int) :
    Nat → Int → TableBorder → Option TableBorder
  | 0, _, b => some b
  | n + 1, c, b =>
    match cellAt cells (wrapInt (wrapInt (wrapInt (r - 1) * cols) + c)),
      cellAt cells (wrapInt (wrapInt (r * cols) + c)) with
    | some p, some q =>
      wireHorizontalBorder cells cols r n (c + 1) (addNextCell (addPrevCell b p) q)
    | _, _ => none

/-- Outer loop of the horizontal wiring: `for (auto horizontalBorder: _horizontalBorders)`.
The source declares `int r = 1` before the loop and never increments it, so the same `r` is
used for every border. -/
def wireHorizontalBorders (cells : List TableCell) (cols : Int) (r : Int) :
    List TableBorder → Option (List TableBorder)
  | [] => some []
  | b :: bs =>
    match wireHorizontalBorder cells cols r cols.toNat 0 b with
    | some b1 =>
      match wireHorizontalBorders cells cols r bs with
      | some bs1 => some (b1 :: bs1)
      | none => none
    | none => none

/-- The method `TableGroupItem::initialize(int rows, int cols)`; its name is a reserved word
here, hence `initializeTable`.  The arguments `rows * cols`, `cols - 1` and `rows - 1` of
`createCells` and `createBorders` are `int` expressions and wrap around; `none` stands for an
out-of-range access to `_cells` in the wiring. -/
def initializeTable (env : QmlEnv) (rows cols : Int) (s : TableGroupItem) : Option TableGroupItem :=
  if rows ≤ 0 ∨ cols ≤ 0 then some s
  else if !env.engine then some s
  else
    let s1 := clearLayout s
    let s2 := createCells env (wrapInt (rows * cols)) s1
    let s3 := createBorders env (wrapInt (cols - 1)) (wrapInt (rows - 1)) s2
    match wireVerticalBorders s3.cells rows cols 1 s3.verticalBorders with
    | none => none
    | some vs =>
      match wireHorizontalBorders s3.cells cols 1 s3.horizontalBorders with
      | none => none
      | some hs => some { s3 with verticalBorders := vs, horizontalBorders := hs }

/-! ## Layout -/

/-- The access `borders[i]->...`: the setters `f` applied to the border stored at position `i` of a
borders vector (the vector is left as it is when `i` is out of range). -/
def modifyAt (f : TableBorder → TableBorder) (i : Nat) (bs : List TableBorder) :
    List TableBorder :=
  match bs[i]? with
  | some b => bs.set i (f b)
  | none => bs

/-- The loop shape shared by the two layout passes of `layoutTable`,
`for (auto i = start; ...; i++) { auto* border = borders[i - 1]; ... }`, written with the
number `n` of remaining iterations and the current counter `i`; `body i` is the sequence of
setters applied to `border`. -/
def forEachBorder (body : Int → TableBorder → TableBorder) :
    Nat → Int → List TableBorder → List TableBorder
  | 0, _, bs => bs
  | n + 1, i, bs => forEachBorder body n (i + 1) (modifyAt (body i) (i - 1).toNat bs)

/-- The local constant `cellWidth` of `layoutTable`. -/
def cellWidth (width padding spacing : qreal) (cols : Int) : qreal :=
  if width > 0 then (width - 2 * padding - ((cols - 1 : Int) : qreal) * spacing) / (cols : qreal)
  else 0

/-- The local constant `cellHeight` of `layoutTable`; as in the source it subtracts
`(cols - 1) * spacing`. -/
def cellHeight (height padding spacing : qreal) (cols rows : Int) : qreal :=
  if height > 0 then
    (height - 2 * padding - ((cols - 1 : Int) : qreal) * spacing) / (rows : qreal)
  else 0

/-- Body of the vertical pass of `layoutTable` for the counter `c`: `setX(x - borderWidth2)`,
`setY(0.)`, `setWidth(borderWidth)`, `setHeight(height())`. -/
def layoutVerticalBorder (padding spacing cellWidth height : qreal) (c : Int)
    (verticalBorder : TableBorder) : TableBorder :=
  let borderWidth : qreal := 3
  let borderWidth2 : qreal := borderWidth / 2
  let x : qreal :=
    padding + ((c - 1 : Int) : qreal) * spacing + (c : qreal) * cellWidth + spacing / 2
  { verticalBorder with x := x - borderWidth2, y := 0, width := borderWidth, height := height }

/-- Body of the horizontal pass of `layoutTable` for the counter `r`: `setX(0.)`,
`setY(y - borderHeight2)`, `setWidth(width())`, `setHeight(borderHeight)`. -/
def layoutHorizontalBorder (padding spacing cellHeight width : qreal) (r : Int)
    (horizontalBorder : TableBorder) : TableBorder :=
  let borderHeight : qreal := 3
  let borderHeight2 : qreal := borderHeight / 2
  let y : qreal :=
    padding + ((r - 1 : Int) : qreal) * spacing + (r : qreal) * cellHeight + spacing / 2
  { horizontalBorder with x := 0, y := y - borderHeight2, width := width, height := borderHeight }

/-- Method `TableGroupItem::layoutTable()`: the statements of the source, which set border
geometry only.  The reaction of a border to its update (`layoutCells()`, defined with
`qan::TableBorder`, outside the embedded file) changes no border, so it is left out here;
`layoutTableWithCells` is the same method with that reaction, and the borders it computes
are the borders computed here. -/
def layoutTable (s : TableGroupItem) : TableGroupItem :=
  match s.tableGroup with
  | none => s
  | some tableGroup =>
    let cols := tableGroup.cols
    let rows := tableGroup.rows
    let spacing := tableGroup.cellSpacing
    let padding := tableGroup.tablePadding
    if cols ≤ 0 ∨ rows ≤ 0 then s
    else if spacing < 0 ∨ padding < 0 then s
    else
      let cw := cellWidth s.width padding spacing cols
      let ch := cellHeight s.height padding spacing cols rows
      if cw < 0 ∨ ch < 0 then s
      else
        let s1 :=
          if (s.verticalBorders.length : Int) = cols - 1 then
            { s with
              verticalBorders :=
                forEachBorder (layoutVerticalBorder padding spacing cw s.height)
                  (cols - 1).toNat 1 s.verticalBorders }
          else s
        if (s1.horizontalBorders.length : Int) = rows - 1 then
          { s1 with
            horizontalBorders :=
              forEachBorder (layoutHorizontalBorder padding spacing ch s1.width)
                (rows - 1).toNat 1 s1.horizontalBorders }
        else s1

/-! ## Drag and drop management -/

/-- Qt's `QPointF`. -/
structure QPointF where
  x : qreal
  y : qreal
  deriving DecidableEq, Repr

/-- The table group item together with the node items of the scene, addressed by their
pointers. -/
structure Scene where
  table : TableGroupItem
  nodeItems : Nat → NodeItem

/-- Qt's `QRectF`. -/
structure QRectF where
  x : qreal
  y : qreal
  width : qreal
  height : qreal
  deriving DecidableEq, Repr

/-- Left edge used by `QRectF::contains`: `l = xp; if (w < 0) l += w;`. -/
def QRectF.l (rect : QRectF) : qreal :=
  if rect.width < 0 then rect.x + rect.width else rect.x

/-- Right edge used by `QRectF::contains`: `r = xp; if (w < 0) ... else r += w;`. -/
def QRectF.r (rect : QRectF) : qreal :=
  if rect.width < 0 then rect.x else rect.x + rect.width

/-- Top edge used by `QRectF::contains`: `t = yp; if (h < 0) t += h;`. -/
def QRectF.t (rect : QRectF) : qreal :=
  if rect.height < 0 then rect.y + rect.height else rect.y

/-- Bottom edge used by `QRectF::contains`: `b = yp; if (h < 0) ... else b += h;`. -/
def QRectF.b (rect : QRectF) : qreal :=
  if rect.height < 0 then rect.y else rect.y + rect.height

/-- Qt's `QRectF::contains(const QPointF&)`: a rectangle of zero width or height contains no
point, edges are inclusive. -/
def QRectF.contains (rect : QRectF) (p : QPointF) : Bool :=
  if rect.l = rect.r then false
  else if p.x < rect.l ∨ p.x > rect.r then false
  else if rect.t = rect.b then false
  else if p.y < rect.t ∨ p.y > rect.b then false
  else true

/-- The rectangle `cell->boundingRect().translated(cell->position())`: the bounding rectangle of a
`QQuickItem` is `(0, 0, width, height)`. -/
def TableCell.cellBr (cell : TableCell) : QRectF :=
  { x := 0 + cell.x, y := 0 + cell.y, width := cell.width, height := cell.height }

/-- Modelled from the spec: `TableCell::setItem()`, whose definition is in `qanTableCell.cpp`,
outside the embedded file; it sets the cell's attached-node reference. -/
def TableCell.setItem (cell : TableCell) (item : Option Nat) : TableCell :=
  { cell with item := item }

/-- Modelled from the spec: `Node::setCell()` reached through `nodeItem->getNode()`, whose
definition is in `qanNode.cpp`, outside the embedded file; it sets the node's back-reference
to its cell. -/
def setCell (nodeItems : Nat → NodeItem) (nodeItem : Nat) (cell : Option Nat) :
    Nat → NodeItem :=
  fun k => if k = nodeItem then { nodeItems k with cell := cell } else nodeItems k

/-- The scan of `groupNodeItem`, `for (const auto& cell: _cells)`: the first cell whose
translated bounding rectangle contains `groupPos` gets the node item (`setItem`), the node gets
that cell (`setCell`), and the scan stops (`break`). -/
def groupNodeItemLoop (nodeItem : Nat) (groupPos : QPointF) :
    List TableCell → (Nat → NodeItem) → List TableCell × (Nat → NodeItem)
  | [], nodeItems => ([], nodeItems)
  | cell :: rest, nodeItems =>
    if cell.cellBr.contains groupPos then
      (cell.setItem (some nodeItem) :: rest, setCell nodeItems nodeItem (some cell.ref))
    else
      let r := groupNodeItemLoop nodeItem groupPos rest nodeItems
      (cell :: r.1, r.2)

/-- Method `TableGroupItem::groupNodeItem(qan::NodeItem* nodeItem, bool transform)`.  `groupPos` is
the value of `getContainer()->mapFromGlobal(nodeItem->mapToGlobal(QPointF{0., 0.}))`, computed
by Qt from the scene.  The calls `groupMoved()` and `endProposeNodeDrop()` of the base class
act on edges and on the drop preview, outside the modelled state. -/
def groupNodeItem (nodeItem : Option Nat) (transform : Bool) (groupPos : QPointF)
    (sc : Scene) : Scene :=
  match nodeItem with
  | none => sc
  | some n =>
    if sc.table.container = none then sc
    else if transform then
      let r := groupNodeItemLoop n groupPos sc.table.cells sc.nodeItems
      { table := { sc.table with cells := r.1 }, nodeItems := r.2 }
    else sc

/-- Method `TableGroupItem::ungroupNodeItem(qan::NodeItem* nodeItem, bool transform)`.
`nodeGlobalPos` is the value of
`nodeItem->mapToItem(getGraph()->getContainerItem(), QPointF{0., 0.})`, computed by Qt from
the scene. -/
def ungroupNodeItem (nodeItem : Option Nat) (transform : Bool) (nodeGlobalPos : QPointF)
    (sc : Scene) : Scene :=
  match nodeItem with
  | none => sc
  | some n =>
    match sc.table.graph with
    | none => sc
    | some graph =>
      match graph.containerItem with
      | none => sc
      | some containerItem =>
        let item0 := sc.nodeItems n
        let item1 := { item0 with parentItem := some containerItem }
        let item2 :=
          if transform then { item1 with x := nodeGlobalPos.x + 10, y := nodeGlobalPos.y + 10 }
          else item1
        let item3 := { item2 with z := sc.table.z + 1 }
        let item4 := { item3 with draggable := true, droppable := true, selectable := true }
        let item5 := { item4 with cell := none }
        { sc with nodeItems := fun k => if k = n then item5 else sc.nodeItems k }

/-- Every dependency of the rebuild is available: QML engine and context present, both
components ready, and every instantiation attempt yields an item. -/
def QmlEnv.allSucceed (env : QmlEnv) : Prop :=
  env.engine = true ∧ env.context = true ∧
  env.cellComponent.isReady = true ∧ env.borderComponent.isReady = true ∧
  (∀ n, env.cellComponent.instantiate n = true) ∧
  (∀ n, env.borderComponent.instantiate n = true)

/-- An environment in which every instantiation succeeds. -/
def readyEnv : QmlEnv :=
  { engine := true, context := true,
    cellComponent := { isReady := true, instantiate := fun _ => true },
    borderComponent := { isReady := true, instantiate := fun _ => true } }

/-- A table holding a 1 x 2 topology built earlier: two cells and one vertical border. -/
def priorTable : TableGroupItem :=
  { self := 100, width := 300, height := 200, container := some 101,
    cells := [newCell 0 101, newCell 1 101],
    verticalBorders := [{ newBorder 2 Orientation.Vertical 101 none with
      x := 147, width := 3, height := 200, prevCells := [0], nextCells := [1] }],
    fresh := 3 }

/-- A 2 x 3 table laid out in a 300 x 200 container with padding 2 and spacing 5: six cells,
two vertical borders and one horizontal border, as created by `initialize(2, 3)`. -/
def sampleTable : TableGroupItem :=
  { self := 100, width := 300, height := 200,
    tableGroup := some { rows := 2, cols := 3, cellSpacing := 5, tablePadding := 2 },
    cells := [newCell 0 100, newCell 1 100, newCell 2 100, newCell 3 100, newCell 4 100,
      newCell 5 100],
    verticalBorders :=
      [{ newBorder 6 Orientation.Vertical 100 none with
          prevCells := [0, 3], nextCells := [1, 4], nextBorder := some 7 },
        { newBorder 7 Orientation.Vertical 100 (some 6) with
          prevCells := [1, 4], nextCells := [2, 5] }],
    horizontalBorders :=
      [{ newBorder 8 Orientation.Horizontal 100 none with
          prevCells := [0, 1, 2], nextCells := [3, 4, 5] }],
    fresh := 9 }

/-- An environment without QML engine. -/
def noEngineEnv : QmlEnv :=
  { readyEnv with engine := false }

/-- An environment without QML context: no item can be instantiated. -/
def noContextEnv : QmlEnv :=
  { readyEnv with context := false }

/-- An environment whose border component is not ready, cells being instantiated normally. -/
def noBorderEnv : QmlEnv :=
  { readyEnv with borderComponent := { isReady := false, instantiate := fun _ => true } }

/-- No cell has been wired to any border of the list yet. -/
def Unwired (bs : List TableBorder) : Prop :=
  ∀ b ∈ bs, b.prevCells = [] ∧ b.nextCells = []

/-- The cell of address 0 with the rectangle `(0, 0, 150, 200)`. -/
def dropCell0 : TableCell :=
  { newCell 0 101 with width := 150, height := 200 }

/-- The cell of address 1 with the rectangle `(150, 0, 150, 200)`. -/
def dropCell1 : TableCell :=
  { newCell 1 101 with x := 150, width := 150, height := 200 }

/-- A scene with a 1 x 2 table in a 300 x 200 container, laid out so that cell 0 is the
rectangle `(0, 0, 150, 200)` and cell 1 the rectangle `(150, 0, 150, 200)`; the graph has a
top-level container item, and no node item is draggable, droppable or selectable. -/
def dropScene : Scene :=
  { table :=
      { self := 100, z := 1, width := 300, height := 200, container := some 101,
        tableGroup := some { rows := 1, cols := 2, cellSpacing := 0, tablePadding := 0 },
        graph := some { containerItem := some 200 },
        cells := [dropCell0, dropCell1],
        verticalBorders := [{ newBorder 2 Orientation.Vertical 101 none with
          x := 297 / 2, width := 3, height := 200, prevCells := [0], nextCells := [1] }],
        fresh := 3 },
    nodeItems := fun _ =>
      { parentItem := some 101, draggable := false, droppable := false, selectable := false } }

/-- A border with its geometry erased: what is left is everything `layoutTable` must not
touch. -/
def TableBorder.forgetGeometry (b : TableBorder) : TableBorder :=
  { b with x := 0, y := 0, width := 0, height := 0 }

/-- The two layout passes of `layoutTable`, applied to the border vectors of `s` for the
table group `tg`. -/
def laidOut (s : TableGroupItem) (tg : TableGroup) : TableGroupItem :=
  { s with
    verticalBorders :=
      if (s.verticalBorders.length : Int) = tg.cols - 1 then
        forEachBorder (layoutVerticalBorder tg.tablePadding tg.cellSpacing
          (cellWidth s.width tg.tablePadding tg.cellSpacing tg.cols) s.height)
          (tg.cols - 1).toNat 1 s.verticalBorders
      else s.verticalBorders
    horizontalBorders :=
      if (s.horizontalBorders.length : Int) = tg.rows - 1 then
        forEachBorder (layoutHorizontalBorder tg.tablePadding tg.cellSpacing
          (cellHeight s.height tg.tablePadding tg.cellSpacing tg.cols tg.rows) s.width)
          (tg.rows - 1).toNat 1 s.horizontalBorders
      else s.horizontalBorders }

/-- Whether `layoutTable` returns early for the table group `tg`. -/
def returnsEarly (s : TableGroupItem) (tg : TableGroup) : Prop :=
  (tg.cols ≤ 0 ∨ tg.rows ≤ 0) ∨ (tg.cellSpacing < 0 ∨ tg.tablePadding < 0) ∨
    (cellWidth s.width tg.tablePadding tg.cellSpacing tg.cols < 0 ∨
      cellHeight s.height tg.tablePadding tg.cellSpacing tg.cols tg.rows < 0)

/-- The scene of `dropScene` for a table that has no graph. -/
def noGraphScene : Scene :=
  { dropScene with table := { dropScene.table with graph := none } }

/-- The scene of `dropScene` for a table whose graph has no top-level container item. -/
def noContainerItemScene : Scene :=
  { dropScene with table := { dropScene.table with graph := some { containerItem := none } } }

/-- Closed form of the vertical wiring of one border: the cells of column `c - 1` are appended
to `prevCells` and the cells of column `c` to `nextCells`, rows `r, r + 1, ..., r + n - 1`. -/
def wiredVertical (cells : List TableCell) (cols c : Int) (n : Nat) (r : Int)
    (b : TableBorder) : TableBorder :=
  { b with
    prevCells := b.prevCells ++
      (List.range n).map fun (i : Nat) => (cellAt cells ((r + i) * cols + c - 1)).getD 0
    nextCells := b.nextCells ++
      (List.range n).map fun (i : Nat) => (cellAt cells ((r + i) * cols + c)).getD 0 }

/-- Closed form of the horizontal wiring of one border with row counter `r`: the cells of row
`r - 1` are appended to `prevCells` and the cells of row `r` to `nextCells`, columns
`c, c + 1, ..., c + n - 1`. -/
def wiredHorizontal (cells : List TableCell) (cols r : Int) (n : Nat) (c : Int)
    (b : TableBorder) : TableBorder :=
  { b with
    prevCells := b.prevCells ++
      (List.range n).map fun (i : Nat) => (cellAt cells ((r - 1) * cols + (c + i))).getD 0
    nextCells := b.nextCells ++
      (List.range n).map fun (i : Nat) => (cellAt cells (r * cols + (c + i))).getD 0 }

/-- The `prevBorder` local of `createBorders` after `k` borders have been created from the
address `f` on: null before the first one, then the border created last. -/
def prevOf (f k : Nat) : Option Nat :=
  if k = 0 then none else some (f + k - 1)

/-- Closed form of the border created at position `i` by a creation loop of `createBorders`
that makes `n` borders from the address `f` on: its `prevBorder` is the border created before
it, its `nextBorder` the border created after it. -/
def chainBorder (o : Orientation) (parent f n i : Nat) : TableBorder :=
  { newBorder (f + i) o parent (prevOf f i) with
    nextBorder := if i + 1 < n then some (f + i + 1) else none }

/-- Closed form of the vector filled by a creation loop of `createBorders`. -/
def borderChain (o : Orientation) (parent f n : Nat) : List TableBorder :=
  (List.range n).map (chainBorder o parent f n)

/-- Closed form of the vertical wiring of a whole vector, the counter `c` being incremented
after each border. -/
def wiredVerticalAll (cells : List TableCell) (rows cols : Int) :
    Int → List TableBorder → List TableBorder
  | _, [] => []
  | c, b :: bs =>
    wiredVertical cells cols c rows.toNat 0 b :: wiredVerticalAll cells rows cols (c + 1) bs

/-- Closed form of the horizontal wiring of a whole vector, the counter `r` being the same
for each border. -/
def wiredHorizontalAll (cells : List TableCell) (cols r : Int) (bs : List TableBorder) :
    List TableBorder :=
  bs.map (wiredHorizontal cells cols r cols.toNat 0)

/-- The cells created by `createCells(n)` from the address `f` on. -/
def builtCells (f parent n : Nat) : List TableCell :=
  (List.range n).map fun i => newCell (f + i) parent

/-- Closed form of the state left by a successful `initialize(R, C)` run from the state `s`:
`R * C` cells, then `C - 1` vertical borders, then `R - 1` horizontal borders, at consecutive
addresses from `s.fresh` on, wired as the wiring loops do. -/
def builtTable (s : TableGroupItem) (R C : Int) : TableGroupItem :=
  { s with
    fresh := s.fresh + (R * C).toNat + (C - 1).toNat + (R - 1).toNat
    cells := builtCells s.fresh s.parentForChildren (R * C).toNat
    verticalBorders :=
      wiredVerticalAll (builtCells s.fresh s.parentForChildren (R * C).toNat) R C 1
        (borderChain Orientation.Vertical s.parentForChildren (s.fresh + (R * C).toNat)
          (C - 1).toNat)
    horizontalBorders :=
      wiredHorizontalAll (builtCells s.fresh s.parentForChildren (R * C).toNat) C 1
        (borderChain Orientation.Horizontal s.parentForChildren
          (s.fresh + (R * C).toNat + (C - 1).toNat) (R - 1).toNat) }

/-- The pointers that identify and chain a border: its address, `prevBorder`, `nextBorder`. -/
def TableBorder.links (b : TableBorder) : Nat × Option Nat × Option Nat :=
  (b.ref, b.prevBorder, b.nextBorder)

/-- The links of a chain of `n` borders at consecutive addresses from `f` on, each border
pointing to its predecessor and to its successor in the chain. -/
def chainLinks (f n : Nat) : List (Nat × Option Nat × Option Nat) :=
  (List.range n).map fun i => (f + i, prevOf f i, if i + 1 < n then some (f + i + 1) else none)

/-- The table of `sampleTable` with its second vertical border missing: one vertical border
where `cols - 1 = 2` are expected, the horizontal border being in place. -/
def missingVerticalTable : TableGroupItem :=
  { sampleTable with
    verticalBorders :=
      [{ newBorder 6 Orientation.Vertical 100 none with
          x := 40, y := 7, width := 9, height := 11, prevCells := [0, 3], nextCells := [1, 4] }] }

/-- The table of `sampleTable` with its horizontal border missing: no horizontal border where
`rows - 1 = 1` is expected, the two vertical borders being in place. -/
def missingHorizontalTable : TableGroupItem :=
  { sampleTable with horizontalBorders := [] }

/-- An empty table item of width 4 and height 200 whose table group asks for 1 row and
3 columns with padding 2 and no spacing: the computed cell width `(4 - 4 - 0) / 3` is zero. -/
def flatTable : TableGroupItem :=
  { self := 100, width := 4, height := 200,
    tableGroup := some { rows := 1, cols := 3, cellSpacing := 0, tablePadding := 2 } }

/-- An empty table item of width 300 and height 200 whose table group asks for 1 row and
1 column with padding 2 and spacing 5. -/
def singleTable : TableGroupItem :=
  { self := 100, width := 300, height := 200,
    tableGroup := some { rows := 1, cols := 1, cellSpacing := 5, tablePadding := 2 } }

/-- An environment whose cell component is not ready, borders being instantiated normally. -/
def noCellEnv : QmlEnv :=
  { readyEnv with cellComponent := { isReady := false, instantiate := fun _ => true } }

/-- An environment in which the instantiation attempt numbered 2 fails and every other one
succeeds. -/
def thirdFailsEnv : QmlEnv :=
  { readyEnv with cellComponent := { isReady := true, instantiate := fun n => n != 2 } }

/-- Adjacency of one border with addresses replaced by positions: the positions in `_cells`
of its previous and next cells, and the positions in its own border vector of its previous
and next border. -/
structure BorderAdjacency where
  prevCells : List Nat
  nextCells : List Nat
  prevBorder : Option Nat
  nextBorder : Option Nat
  deriving DecidableEq, Repr

/-- What two topologies are compared on: cell count, and for each orientation the borders in
vector order (hence their count) with their adjacency. -/
structure Topology where
  cellCount : Nat
  vertical : List BorderAdjacency
  horizontal : List BorderAdjacency
  deriving DecidableEq, Repr

/-- The adjacency of the border `b`, given the addresses of the cells in `_cells` order and
of the borders of its orientation in vector order. -/
def borderAdjacency (cellRefs borderRefs : List Nat) (b : TableBorder) : BorderAdjacency :=
  { prevCells := b.prevCells.map fun ref => cellRefs.indexOf ref
    nextCells := b.nextCells.map fun ref => cellRefs.indexOf ref
    prevBorder := b.prevBorder.map fun ref => borderRefs.indexOf ref
    nextBorder := b.nextBorder.map fun ref => borderRefs.indexOf ref }

/-- The topology of a table item, addresses being replaced by positions. -/
def topologyOf (t : TableGroupItem) : Topology :=
  { cellCount := t.cells.length
    vertical := t.verticalBorders.map
      (borderAdjacency (t.cells.map TableCell.ref) (t.verticalBorders.map TableBorder.ref))
    horizontal := t.horizontalBorders.map
      (borderAdjacency (t.cells.map TableCell.ref) (t.horizontalBorders.map TableBorder.ref)) }

/-- The topology that `initialize(R, C)` builds, written with positions only: vertical border
`j` (from 0) lies between the cells `r * C + j` and `r * C + j + 1` of every row `r`; every
horizontal border lies between the cells `c` and `C + c` of every column `c` (the row counter
of the horizontal wiring stays at 1); the borders of an orientation are chained in order. -/
def gridTopology (R C : Int) : Topology :=
  { cellCount := (R * C).toNat
    vertical := (List.range (C - 1).toNat).map fun j =>
      { prevCells := (List.range R.toNat).map fun r => r * C.toNat + j
        nextCells := (List.range R.toNat).map fun r => r * C.toNat + j + 1
        prevBorder := if j = 0 then none else some (j - 1)
        nextBorder := if j + 1 < (C - 1).toNat then some (j + 1) else none }
    horizontal := (List.range (R - 1).toNat).map fun j =>
      { prevCells := (List.range C.toNat).map fun c => c
        nextCells := (List.range C.toNat).map fun c => C.toNat + c
        prevBorder := if j = 0 then none else some (j - 1)
        nextBorder := if j + 1 < (R - 1).toNat then some (j + 1) else none } }

/-- A 3 x 1 table in a 300 x 200 container with no padding and a spacing of 100: three cells
and two horizontal borders, as created by `initialize(3, 1)`. -/
def tallTable : TableGroupItem :=
  { self := 100, width := 300, height := 200,
    tableGroup := some { rows := 3, cols := 1, cellSpacing := 100, tablePadding := 0 },
    cells := [newCell 0 100, newCell 1 100, newCell 2 100],
    horizontalBorders :=
      [{ newBorder 3 Orientation.Horizontal 100 none with
          prevCells := [0], nextCells := [1], nextBorder := some 4 },
        { newBorder 4 Orientation.Horizontal 100 (some 3) with
          prevCells := [0], nextCells := [1] }],
    fresh := 5 }

/-- A run of `groupNodeItem(node, transform = true)` calls, each given by the node item and by
its container-space point. -/
def groupAll : List (Nat × QPointF) → Scene → Scene
  | [], sc => sc
  | (n, p) :: rest, sc => groupAll rest (groupNodeItem (some n) true p sc)

/-- Cell and node references are mutually consistent: the cells have distinct addresses, and
a cell holds node `n` as its attached item if and only if the cell back-reference of `n` is
that cell. -/
def Consistent (sc : Scene) : Prop :=
  (sc.table.cells.map TableCell.ref).Nodup ∧
  ∀ c ∈ sc.table.cells, ∀ n : Nat, c.item = some n ↔ (sc.nodeItems n).cell = some c.ref

/-- A drop attaches a fresh node to a free cell: either the point hits no cell, or the first
cell it hits holds no attached item and the node has no cell back-reference. -/
def freshDrop (sc : Scene) (n : Nat) (p : QPointF) : Prop :=
  match sc.table.cells.find? (fun c => c.cellBr.contains p) with
  | none => True
  | some c => c.item = none ∧ (sc.nodeItems n).cell = none

/-- Every call of a run is a `freshDrop` in the scene it is made in. -/
def freshDrops : List (Nat × QPointF) → Scene → Prop
  | [], _ => True
  | (n, p) :: rest, sc => freshDrop sc n p ∧ freshDrops rest (groupNodeItem (some n) true p sc)

/-! ## Layout of the cells by their borders -/

/-- A cell with its geometry erased. -/
def TableCell.forgetGeometry (c : TableCell) : TableCell :=
  { c with x := 0, y := 0, width := 0, height := 0 }

theorem createFromComponent_ok (env : QmlEnv) (component : QQmlComponent) (fresh : Nat)
    (hctx : env.context = true) (hready : component.isReady = true)
    (hinst : ∀ n, component.instantiate n = true) :
    createFromComponent env component fresh = (some fresh, fresh + 1) := by
  simp [createFromComponent, hctx, hready, hinst]

theorem range_succ_map_shift {α : Type} (g : Nat → α) (n : Nat) :
    (List.range (n + 1)).map g = g 0 :: (List.range n).map fun i => g (i + 1) := by
  rw [List.range_succ_eq_map]
  simp [List.map_map, Function.comp_def]

theorem createCellsLoop_ok (env : QmlEnv) (hctx : env.context = true)
    (hready : env.cellComponent.isReady = true)
    (hinst : ∀ n, env.cellComponent.instantiate n = true) :
    ∀ (n : Nat) (s : TableGroupItem),
      createCellsLoop env n s =
        { s with
          fresh := s.fresh + n
          cells := s.cells ++
            (List.range n).map fun i => newCell (s.fresh + i) s.parentForChildren } := by
  intro n
  induction n with
  | zero => intro s; simp [createCellsLoop]
  | succ n ih =>
    intro s
    rw [createCellsLoop, createFromComponent_ok env _ _ hctx hready hinst]
    simp only []
    rw [ih, range_succ_map_shift]
    simp [TableGroupItem.parentForChildren, newCell, Nat.add_assoc, Nat.add_comm 1]

theorem setNextBorderAt_length (p q : Nat) (bs : List TableBorder) :
    (setNextBorderAt p q bs).length = bs.length := by
  simp [setNextBorderAt]

theorem setNextBorderAt_unwired (p q : Nat) (bs : List TableBorder) (h : Unwired bs) :
    Unwired (setNextBorderAt p q bs) := by
  intro b hb
  simp only [setNextBorderAt, List.mem_map] at hb
  obtain ⟨a, ha, rfl⟩ := hb
  by_cases hp : a.ref = p
  · simpa [hp] using h a ha
  · simpa [hp] using h a ha

theorem createBordersLoop_ok (env : QmlEnv) (o : Orientation) (parent : Nat)
    (hctx : env.context = true) (hready : env.borderComponent.isReady = true)
    (hinst : ∀ n, env.borderComponent.instantiate n = true) :
    ∀ (n : Nat) (prev : Option Nat) (bs : List TableBorder) (fresh : Nat), Unwired bs →
      (createBordersLoop env o parent n prev (bs, fresh)).1.length = bs.length + n ∧
      (createBordersLoop env o parent n prev (bs, fresh)).2 = fresh + n ∧
      Unwired (createBordersLoop env o parent n prev (bs, fresh)).1 := by
  intro n
  induction n with
  | zero => intro prev bs fresh h; simpa [createBordersLoop] using h
  | succ n ih =>
    intro prev bs fresh h
    rw [createBordersLoop, createFromComponent_ok env _ _ hctx hready hinst]
    simp only []
    have hpushed : Unwired (bs ++ [newBorder fresh o parent prev]) := by
      intro b hb
      rcases List.mem_append.1 hb with hb | hb
      · exact h b hb
      · simp only [List.mem_singleton] at hb
        subst hb
        exact ⟨rfl, rfl⟩
    cases prev with
    | none =>
      obtain ⟨h1, h2, h3⟩ := ih (some fresh) _ (fresh + 1) hpushed
      refine ⟨?_, ?_, h3⟩
      · rw [h1]; simp; omega
      · rw [h2]; omega
    | some p =>
      obtain ⟨h1, h2, h3⟩ := ih (some fresh) _ (fresh + 1)
        (setNextBorderAt_unwired p fresh _ hpushed)
      refine ⟨?_, ?_, h3⟩
      · rw [h1, setNextBorderAt_length]; simp; omega
      · rw [h2]; omega

theorem unwired_nil : Unwired [] := by
  intro b hb; simp at hb

theorem createBorders_ok (env : QmlEnv) (henv : env.allSucceed) (v h : Int) (hv : 0 ≤ v)
    (hh : 0 ≤ h) (s : TableGroupItem) (hsv : s.verticalBorders = [])
    (hsh : s.horizontalBorders = []) :
    (createBorders env v h s).cells = s.cells ∧
    (createBorders env v h s).verticalBorders.length = v.toNat ∧
    (createBorders env v h s).horizontalBorders.length = h.toNat ∧
    Unwired (createBorders env v h s).verticalBorders ∧
    Unwired (createBorders env v h s).horizontalBorders := by
  obtain ⟨heng, hctx, _, hready, _, hinst⟩ := henv
  have hV := fun p f => createBordersLoop_ok env Orientation.Vertical p hctx hready hinst
    v.toNat none [] f unwired_nil
  have hH := fun p f => createBordersLoop_ok env Orientation.Horizontal p hctx hready hinst
    h.toNat none [] f unwired_nil
  simp only [List.length_nil, Nat.zero_add] at hV hH
  have hneg : ¬ (v < 0 ∨ h < 0) := by omega
  unfold createBorders
  rw [if_neg hneg]
  simp only [heng, Bool.not_true, Bool.false_eq_true, if_false, hsv, hsh, List.length_nil,
    Nat.cast_zero, ne_eq]
  by_cases hv0 : v = 0 <;> by_cases hh0 : h = 0
  · subst hv0 hh0
    simp [hsv, hsh, unwired_nil]
  · subst hv0
    simp only [hh0, hsv, hsh, List.length_nil, Nat.cast_zero, not_true_eq_false, if_false,
      not_false_eq_true, if_true]
    exact ⟨trivial, rfl, (hH _ _).1, unwired_nil, (hH _ _).2.2⟩
  · subst hh0
    simp only [hv0, hsv, hsh, List.length_nil, Nat.cast_zero, not_true_eq_false, if_false,
      not_false_eq_true, if_true]
    exact ⟨trivial, (hV _ _).1, rfl, (hV _ _).2.2, unwired_nil⟩
  · simp only [hv0, hh0, hsv, hsh, List.length_nil, Nat.cast_zero, not_false_eq_true, if_true]
    exact ⟨trivial, (hV _ _).1, (hH _ _).1, (hV _ _).2.2, (hH _ _).2.2⟩

/-! ## Lemmas on the wiring loops -/

theorem cellAt_getD (cells : List TableCell) (i : Int) (h0 : 0 ≤ i)
    (h1 : i < (cells.length : Int)) :
    cellAt cells i = some ((cellAt cells i).getD 0) := by
  have hlt : i.toNat < cells.length := by omega
  simp [cellAt, h0, List.getElem?_eq_getElem hlt]

theorem range_succ_map_int {α : Type} (g : Int → α) (r : Int) (n : Nat) :
    (List.range (n + 1)).map (fun i : Nat => g (r + i)) =
      g r :: (List.range n).map fun i : Nat => g (r + 1 + i) := by
  rw [range_succ_map_shift]
  have e : ∀ i : Nat, r + ((i + 1 : Nat) : Int) = r + 1 + i := by
    intro i; push_cast; ring
  simp only [e, Nat.cast_zero, add_zero]

/-- An `int` expression whose exact value is in the range of `int` has that value. -/
theorem wrapInt_eq (x : Int) (h0 : -2147483648 ≤ x) (h1 : x ≤ 2147483647) : wrapInt x = x := by
  unfold wrapInt
  omega

/-- The value of an `int` expression is in the range of `int`. -/
theorem wrapInt_range (x : Int) : -2147483648 ≤ wrapInt x ∧ wrapInt x ≤ INT_MAX := by
  unfold wrapInt INT_MAX
  omega

theorem wireVerticalBorder_zero (cells : List TableCell) (cols c r : Int) (b : TableBorder) :
    wireVerticalBorder cells cols c 0 r b = some b := rfl

theorem wireVerticalBorder_succ (cells : List TableCell) (cols c r : Int) (n : Nat)
    (b : TableBorder) :
    wireVerticalBorder cells cols c (n + 1) r b =
      match cellAt cells (wrapInt (wrapInt (wrapInt (r * cols) + c) - 1)),
        cellAt cells (wrapInt (wrapInt (r * cols) + c)) with
      | some p, some q =>
        wireVerticalBorder cells cols c n (r + 1) (addNextCell (addPrevCell b p) q)
      | _, _ => none := rfl

theorem wireHorizontalBorder_zero (cells : List TableCell) (cols r c : Int) (b : TableBorder) :
    wireHorizontalBorder cells cols r 0 c b = some b := rfl

theorem wireHorizontalBorder_succ (cells : List TableCell) (cols r c : Int) (n : Nat)
    (b : TableBorder) :
    wireHorizontalBorder cells cols r (n + 1) c b =
      match cellAt cells (wrapInt (wrapInt (wrapInt (r - 1) * cols) + c)),
        cellAt cells (wrapInt (wrapInt (r * cols) + c)) with
      | some p, some q =>
        wireHorizontalBorder cells cols r n (c + 1) (addNextCell (addPrevCell b p) q)
      | _, _ => none := rfl

theorem wireVerticalBorder_ok (cells : List TableCell) (cols c : Int)
    (hlen : (cells.length : Int) ≤ 2147483648) (hc : 1 ≤ c) :
    ∀ (n : Nat) (r : Int) (b : TableBorder),
      (∀ i : Nat, i < n →
        0 ≤ (r + i) * cols ∧ (r + i) * cols + c < (cells.length : Int)) →
      wireVerticalBorder cells cols c n r b = some (wiredVertical cells cols c n r b) := by
  intro n
  induction n with
  | zero => intro r b _; simp [wireVerticalBorder_zero, wiredVertical]
  | succ n ih =>
    intro r b h
    have h0 := h 0 (Nat.succ_pos n)
    simp only [Nat.cast_zero, add_zero] at h0
    have hp := cellAt_getD cells (r * cols + c - 1) (by omega) (by omega)
    have hq := cellAt_getD cells (r * cols + c) (by omega) h0.2
    have e1 : wrapInt (r * cols) = r * cols := wrapInt_eq _ (by omega) (by omega)
    have e2 : wrapInt (r * cols + c) = r * cols + c := wrapInt_eq _ (by omega) (by omega)
    have e3 : wrapInt (r * cols + c - 1) = r * cols + c - 1 :=
      wrapInt_eq _ (by omega) (by omega)
    rw [wireVerticalBorder_succ]
    simp only [e1, e2, e3]
    rw [hp, hq]
    simp only []
    rw [ih]
    · simp only [wiredVertical, addNextCell, addPrevCell]
      rw [range_succ_map_int (fun j => (cellAt cells (j * cols + c - 1)).getD 0),
        range_succ_map_int (fun j => (cellAt cells (j * cols + c)).getD 0)]
      simp only [List.append_assoc, List.singleton_append]
    · intro i hi
      have := h (i + 1) (by omega)
      push_cast at this
      rw [add_assoc, add_comm (1 : Int)]
      exact this

theorem wireHorizontalBorder_ok (cells : List TableCell) (cols r : Int)
    (hlen : (cells.length : Int) ≤ 2147483648) (hr : 1 ≤ r) (hr2 : r ≤ 2147483648) :
    ∀ (n : Nat) (c : Int) (b : TableBorder),
      (∀ i : Nat, i < n →
        0 ≤ (r - 1) * cols ∧ 0 ≤ r * cols ∧ 0 ≤ c + i ∧
        r * cols + (c + i) < (cells.length : Int) ∧
        (r - 1) * cols + (c + i) < (cells.length : Int)) →
      wireHorizontalBorder cells cols r n c b = some (wiredHorizontal cells cols r n c b) := by
  intro n
  induction n with
  | zero => intro c b _; simp [wireHorizontalBorder_zero, wiredHorizontal]
  | succ n ih =>
    intro c b h
    have h0 := h 0 (Nat.succ_pos n)
    simp only [Nat.cast_zero, add_zero] at h0
    obtain ⟨ha, hb, hc, hd, he⟩ := h0
    have hp := cellAt_getD cells ((r - 1) * cols + c) (by omega) he
    have hq := cellAt_getD cells (r * cols + c) (by omega) hd
    have e0 : wrapInt (r - 1) = r - 1 := wrapInt_eq _ (by omega) (by omega)
    have e1 : wrapInt ((r - 1) * cols) = (r - 1) * cols := wrapInt_eq _ (by omega) (by omega)
    have e2 : wrapInt ((r - 1) * cols + c) = (r - 1) * cols + c :=
      wrapInt_eq _ (by omega) (by omega)
    have e3 : wrapInt (r * cols) = r * cols := wrapInt_eq _ (by omega) (by omega)
    have e4 : wrapInt (r * cols + c) = r * cols + c := wrapInt_eq _ (by omega) (by omega)
    rw [wireHorizontalBorder_succ]
    simp only [e0, e1, e2, e3, e4]
    rw [hp, hq]
    simp only []
    rw [ih]
    · simp only [wiredHorizontal, addNextCell, addPrevCell]
      rw [range_succ_map_int (fun j => (cellAt cells ((r - 1) * cols + j)).getD 0),
        range_succ_map_int (fun j => (cellAt cells (r * cols + j)).getD 0)]
      simp only [List.append_assoc, List.singleton_append]
    · intro i hi
      have := h (i + 1) (by omega)
      have e : c + ((i + 1 : Nat) : Int) = c + 1 + i := by push_cast; ring
      rw [e] at this
      exact this

theorem wireVerticalBorders_ok (cells : List TableCell) (rows cols : Int)
    (hlen : (cells.length : Int) ≤ 2147483648) :
    ∀ (bs : List TableBorder) (c : Int), 1 ≤ c →
      (∀ j : Nat, j < bs.length → ∀ i : Nat, i < rows.toNat →
        0 ≤ (0 + i) * cols ∧ (0 + i) * cols + (c + j) < (cells.length : Int)) →
      ∃ vs, wireVerticalBorders cells rows cols c bs = some vs ∧ vs.length = bs.length ∧
        ∀ (j : Nat) (b : TableBorder), bs[j]? = some b →
          vs[j]? = some (wiredVertical cells cols (c + j) rows.toNat 0 b) := by
  intro bs
  induction bs with
  | nil => intro c _ _; exact ⟨[], rfl, rfl, by simp⟩
  | cons b bs ih =>
    intro c hc h
    have hb := wireVerticalBorder_ok cells cols c hlen hc rows.toNat 0 b (by
      intro i hi
      simpa using h 0 (by simp) i hi)
    obtain ⟨vs, hvs, hlen, hget⟩ := ih (c + 1) (by omega) (by
      intro j hj i hi
      have := h (j + 1) (by simpa using hj) i hi
      push_cast at this
      rw [add_assoc, add_comm (1 : Int)]
      exact this)
    refine ⟨wiredVertical cells cols c rows.toNat 0 b :: vs, ?_, by simp [hlen], ?_⟩
    · rw [wireVerticalBorders, hb]
      simp only [hvs]
    · intro j b1 hj
      cases j with
      | zero =>
        simp only [List.getElem?_cons_zero, Option.some.injEq] at hj
        subst hj
        simp
      | succ j =>
        simp only [List.getElem?_cons_succ] at hj ⊢
        rw [hget j b1 hj]
        push_cast
        rw [add_assoc, add_comm (1 : Int)]

theorem wireHorizontalBorders_ok (cells : List TableCell) (cols r : Int)
    (hlen : (cells.length : Int) ≤ 2147483648) (hr : 1 ≤ r) (hr2 : r ≤ 2147483648) :
    ∀ (bs : List TableBorder),
      (bs ≠ [] → ∀ i : Nat, i < cols.toNat →
        0 ≤ (r - 1) * cols ∧ 0 ≤ r * cols ∧ (0 : Int) ≤ 0 + i ∧
        r * cols + (0 + i) < (cells.length : Int) ∧
        (r - 1) * cols + (0 + i) < (cells.length : Int)) →
      ∃ hs, wireHorizontalBorders cells cols r bs = some hs ∧ hs.length = bs.length ∧
        ∀ (j : Nat) (b : TableBorder), bs[j]? = some b →
          hs[j]? = some (wiredHorizontal cells cols r cols.toNat 0 b) := by
  intro bs
  induction bs with
  | nil => intro _; exact ⟨[], rfl, rfl, by simp⟩
  | cons b bs ih =>
    intro h
    have h1 := h (by simp)
    have hb := wireHorizontalBorder_ok cells cols r hlen hr hr2 cols.toNat 0 b h1
    obtain ⟨hs, hhs, hlen, hget⟩ := ih (fun _ => h1)
    refine ⟨wiredHorizontal cells cols r cols.toNat 0 b :: hs, ?_, by simp [hlen], ?_⟩
    · rw [wireHorizontalBorders, hb]
      simp only [hhs]
    · intro j b1 hj
      cases j with
      | zero =>
        simp only [List.getElem?_cons_zero, Option.some.injEq] at hj
        subst hj
        simp
      | succ j =>
        simp only [List.getElem?_cons_succ] at hj ⊢
        exact hget j b1 hj

/-! ## Lemmas on the layout loops -/

theorem modifyAt_getElem? (f : TableBorder → TableBorder) (i k : Nat)
    (bs : List TableBorder) :
    (modifyAt f i bs)[k]? = if k = i then (bs[k]?).map f else bs[k]? := by
  unfold modifyAt
  by_cases hk : k = i
  · subst hk
    cases h : bs[k]? with
    | none => simp [h]
    | some b =>
      have hlt : k < bs.length := by
        by_contra hcon
        rw [List.getElem?_eq_none (by omega)] at h
        cases h
      simp [List.getElem?_set, hlt]
  · cases h : bs[i]? with
    | none => simp [hk]
    | some b =>
      simp only [hk, if_false]
      exact List.getElem?_set_ne (fun e => hk e.symm)

theorem modifyAt_length (f : TableBorder → TableBorder) (i : Nat) (bs : List TableBorder) :
    (modifyAt f i bs).length = bs.length := by
  unfold modifyAt
  cases bs[i]? <;> simp

theorem forEachBorder_length (body : Int → TableBorder → TableBorder) :
    ∀ (n : Nat) (i : Int) (bs : List TableBorder),
      (forEachBorder body n i bs).length = bs.length := by
  intro n
  induction n with
  | zero => intro i bs; rfl
  | succ n ih => intro i bs; rw [forEachBorder, ih, modifyAt_length]

theorem forEachBorder_getElem? (body : Int → TableBorder → TableBorder) :
    ∀ (n : Nat) (i : Int) (bs : List TableBorder) (k : Nat), 1 ≤ i →
      (forEachBorder body n i bs)[k]? =
        if (i - 1).toNat ≤ k ∧ k < (i - 1).toNat + n then (bs[k]?).map (body ((k : Int) + 1))
        else bs[k]? := by
  intro n
  induction n with
  | zero =>
    intro i bs k _
    have h : ¬ ((i - 1).toNat ≤ k ∧ k < (i - 1).toNat + 0) := by omega
    rw [forEachBorder, if_neg h]
  | succ n ih =>
    intro i bs k hi
    rw [forEachBorder, ih (i + 1) _ k (by omega), modifyAt_getElem?]
    have e : (i + 1 - 1).toNat = (i - 1).toNat + 1 := by omega
    rw [e]
    by_cases hk : k = (i - 1).toNat
    · have hki : (k : Int) + 1 = i := by omega
      have h1 : ¬ ((i - 1).toNat + 1 ≤ k ∧ k < (i - 1).toNat + 1 + n) := by omega
      have h2 : (i - 1).toNat ≤ k ∧ k < (i - 1).toNat + (n + 1) := by omega
      rw [if_neg h1, if_pos hk, if_pos h2, hki]
    · by_cases hin : (i - 1).toNat + 1 ≤ k ∧ k < (i - 1).toNat + 1 + n
      · have h2 : (i - 1).toNat ≤ k ∧ k < (i - 1).toNat + (n + 1) := by omega
        rw [if_pos hin, if_neg hk, if_pos h2]
      · have h2 : ¬ ((i - 1).toNat ≤ k ∧ k < (i - 1).toNat + (n + 1)) := by omega
        rw [if_neg hin, if_neg hk, if_neg h2]

/-! ## The layout pass on valid inputs -/

theorem layoutTable_valid (s : TableGroupItem) (tg : TableGroup) (hg : s.tableGroup = some tg)
    (hC : 0 < tg.cols) (hR : 0 < tg.rows) (hS : 0 ≤ tg.cellSpacing) (hP : 0 ≤ tg.tablePadding)
    (hcw : 0 ≤ cellWidth s.width tg.tablePadding tg.cellSpacing tg.cols)
    (hch : 0 ≤ cellHeight s.height tg.tablePadding tg.cellSpacing tg.cols tg.rows) :
    (layoutTable s).verticalBorders =
      (if (s.verticalBorders.length : Int) = tg.cols - 1 then
        forEachBorder (layoutVerticalBorder tg.tablePadding tg.cellSpacing
          (cellWidth s.width tg.tablePadding tg.cellSpacing tg.cols) s.height)
          (tg.cols - 1).toNat 1 s.verticalBorders
      else s.verticalBorders) ∧
    (layoutTable s).horizontalBorders =
      (if (s.horizontalBorders.length : Int) = tg.rows - 1 then
        forEachBorder (layoutHorizontalBorder tg.tablePadding tg.cellSpacing
          (cellHeight s.height tg.tablePadding tg.cellSpacing tg.cols tg.rows) s.width)
          (tg.rows - 1).toNat 1 s.horizontalBorders
      else s.horizontalBorders) := by
  have h1 : ¬ (tg.cols ≤ 0 ∨ tg.rows ≤ 0) := by omega
  have h2 : ¬ (tg.cellSpacing < 0 ∨ tg.tablePadding < 0) := by
    rintro (h | h)
    · exact absurd hS (not_le.2 h)
    · exact absurd hP (not_le.2 h)
  have h3 : ¬ (cellWidth s.width tg.tablePadding tg.cellSpacing tg.cols < 0 ∨
      cellHeight s.height tg.tablePadding tg.cellSpacing tg.cols tg.rows < 0) := by
    rintro (h | h)
    · exact absurd hcw (not_le.2 h)
    · exact absurd hch (not_le.2 h)
  unfold layoutTable
  rw [hg]
  simp only [if_neg h1, if_neg h2, if_neg h3]
  by_cases hv : (s.verticalBorders.length : Int) = tg.cols - 1 <;>
    by_cases hh : (s.horizontalBorders.length : Int) = tg.rows - 1 <;>
    simp [hv, hh]

/-! ## The layout pass on degenerate inputs -/

theorem groupNodeItemLoop_hit (n : Nat) (groupPos : QPointF) (nodeItems : Nat → NodeItem) :
    ∀ (cells : List TableCell) (k : Nat) (cell : TableCell), cells[k]? = some cell →
      cell.cellBr.contains groupPos = true →
      (∀ (j : Nat) (c : TableCell), j < k → cells[j]? = some c →
        c.cellBr.contains groupPos = false) →
      groupNodeItemLoop n groupPos cells nodeItems =
        (cells.set k (cell.setItem (some n)), setCell nodeItems n (some cell.ref)) := by
  intro cells
  induction cells with
  | nil => intro k cell hk; simp at hk
  | cons c rest ih =>
    intro k cell hk hin hfirst
    cases k with
    | zero =>
      simp only [List.getElem?_cons_zero, Option.some.injEq] at hk
      subst hk
      simp [groupNodeItemLoop, hin]
    | succ k =>
      simp only [List.getElem?_cons_succ] at hk
      have hc : c.cellBr.contains groupPos = false := hfirst 0 c (Nat.succ_pos k) (by simp)
      have hrest := ih k cell hk hin (fun j c1 hj hc1 =>
        hfirst (j + 1) c1 (Nat.succ_lt_succ hj) (by simpa using hc1))
      simp [groupNodeItemLoop, hc, hrest]

theorem groupNodeItemLoop_miss (n : Nat) (groupPos : QPointF) (nodeItems : Nat → NodeItem) :
    ∀ (cells : List TableCell),
      (∀ c ∈ cells, c.cellBr.contains groupPos = false) →
      groupNodeItemLoop n groupPos cells nodeItems = (cells, nodeItems) := by
  intro cells
  induction cells with
  | nil => intro _; rfl
  | cons c rest ih =>
    intro h
    have hc : c.cellBr.contains groupPos = false := h c (List.mem_cons_self c rest)
    have hrest := ih (fun c1 hc1 => h c1 (List.mem_cons_of_mem c hc1))
    simp [groupNodeItemLoop, hc, hrest]

/-! ## The rebuild when every dependency is available -/

theorem createCells_ok (env : QmlEnv) (heng : env.engine = true) (hctx : env.context = true)
    (hready : env.cellComponent.isReady = true)
    (hinst : ∀ n, env.cellComponent.instantiate n = true) (n : Int) (hn : 0 < n)
    (s : TableGroupItem) (hs : s.cells = []) :
    createCells env n s =
      { s with
        fresh := s.fresh + n.toNat
        cells := (List.range n.toNat).map fun i => newCell (s.fresh + i) s.parentForChildren } := by
  have h1 : ¬ n ≤ 0 := by omega
  have h2 : ¬ n = ((s.cells.length : Nat) : Int) := by rw [hs]; simp; omega
  rw [createCells, if_neg h1, if_neg h2]
  simp only [heng, Bool.not_true, Bool.false_eq_true, if_false]
  rw [createCellsLoop_ok env hctx hready hinst, hs, List.nil_append]

theorem getElem?_of_length_eq {α β : Type} (xs : List α) (ys : List β)
    (h : xs.length = ys.length) (j : Nat) (x : α) (hx : xs[j]? = some x) :
    ∃ y, ys[j]? = some y := by
  have hj : j < xs.length := by
    by_contra hcon
    rw [List.getElem?_eq_none (by omega)] at hx
    cases hx
  have hj2 : j < ys.length := by omega
  exact ⟨ys[j], List.getElem?_eq_getElem hj2⟩

/-- The product of two positive `int`s that fits an `int`: neither factor exceeds `INT_MAX`. -/
theorem le_INT_MAX_of_mul (R C : Int) (hR : 0 < R) (hC : 0 < C) (hRC : R * C ≤ INT_MAX) :
    R ≤ INT_MAX ∧ C ≤ INT_MAX := by
  constructor <;> nlinarith

theorem initializeTable_ok (env : QmlEnv) (henv : env.allSucceed) (R C : Int) (hR : 0 < R)
    (hC : 0 < C) (hRC : R * C ≤ INT_MAX) (s : TableGroupItem) :
    ∃ t, initializeTable env R C s = some t ∧
      t.cells = ((List.range (R * C).toNat).map fun i =>
        newCell (s.fresh + i) s.parentForChildren) ∧
      t.verticalBorders.length = (C - 1).toNat ∧
      t.horizontalBorders.length = (R - 1).toNat ∧
      (∀ (j : Nat) (b1 : TableBorder), t.verticalBorders[j]? = some b1 →
        ∃ b, b.prevCells = [] ∧ b.nextCells = [] ∧
          b1 = wiredVertical t.cells C (1 + j) R.toNat 0 b) ∧
      (∀ (j : Nat) (b1 : TableBorder), t.horizontalBorders[j]? = some b1 →
        ∃ b, b.prevCells = [] ∧ b.nextCells = [] ∧
          b1 = wiredHorizontal t.cells C 1 C.toNat 0 b) := by
  have hpos : 0 < R * C := mul_pos hR hC
  have hmax := le_INT_MAX_of_mul R C hR hC hRC
  unfold INT_MAX at hRC hmax
  have hw1 : wrapInt (R * C) = R * C := wrapInt_eq _ (by omega) hRC
  have hw2 : wrapInt (C - 1) = C - 1 := wrapInt_eq _ (by omega) (by omega)
  have hw3 : wrapInt (R - 1) = R - 1 := wrapInt_eq _ (by omega) (by omega)
  have hcells := createCells_ok env henv.1 henv.2.1 henv.2.2.1 henv.2.2.2.2.1 (R * C) hpos
    (clearLayout s) rfl
  obtain ⟨hb1, hb2, hb3, hb4, hb5⟩ := createBorders_ok env henv (C - 1) (R - 1) (by omega)
    (by omega) (createCells env (R * C) (clearLayout s)) (by rw [hcells]; rfl)
    (by rw [hcells]; rfl)
  have hlen : ((createBorders env (C - 1) (R - 1)
      (createCells env (R * C) (clearLayout s))).cells.length : Int) = R * C := by
    rw [hb1, hcells]
    simp only [List.length_map, List.length_range]
    omega
  obtain ⟨vs, hvs, hvlen, hvget⟩ := wireVerticalBorders_ok
    (createBorders env (C - 1) (R - 1) (createCells env (R * C) (clearLayout s))).cells R C
    (by rw [hlen]; omega)
    (createBorders env (C - 1) (R - 1) (createCells env (R * C) (clearLayout s))).verticalBorders
    1 (le_refl 1) (by
      intro j hj i hi
      rw [hb2] at hj
      rw [hlen]
      have hj1 : (j : Int) + 1 < C := by omega
      have hi1 : (i : Int) + 1 ≤ R := by omega
      have hi0 : (0 : Int) ≤ i := Int.ofNat_nonneg i
      have hj0 : (0 : Int) ≤ j := Int.ofNat_nonneg j
      constructor
      · nlinarith
      · nlinarith)
  obtain ⟨hs, hhs, hhlen, hhget⟩ := wireHorizontalBorders_ok
    (createBorders env (C - 1) (R - 1) (createCells env (R * C) (clearLayout s))).cells C 1
    (by rw [hlen]; omega) (le_refl 1) (by norm_num)
    (createBorders env (C - 1) (R - 1)
      (createCells env (R * C) (clearLayout s))).horizontalBorders (by
      intro hne i hi
      have hpos2 : 0 < (createBorders env (C - 1) (R - 1)
          (createCells env (R * C) (clearLayout s))).horizontalBorders.length :=
        List.length_pos.2 hne
      rw [hb3] at hpos2
      rw [hlen]
      have hR2 : 2 ≤ R := by omega
      have hi1 : (i : Int) < C := by omega
      have hi0 : (0 : Int) ≤ i := Int.ofNat_nonneg i
      refine ⟨by nlinarith, by nlinarith, by omega, by nlinarith, by nlinarith⟩)
  have hguard : ¬ (R ≤ 0 ∨ C ≤ 0) := by omega
  refine ⟨{ createBorders env (C - 1) (R - 1) (createCells env (R * C) (clearLayout s)) with
    verticalBorders := vs, horizontalBorders := hs }, ?_, ?_, ?_, ?_, ?_, ?_⟩
  · rw [initializeTable, if_neg hguard]
    simp only [henv.1, Bool.not_true, Bool.false_eq_true, if_false, hw1, hw2, hw3, hvs, hhs]
  · show (createBorders env (C - 1) (R - 1) (createCells env (R * C) (clearLayout s))).cells = _
    rw [hb1, hcells]
    rfl
  · exact hvlen.trans hb2
  · exact hhlen.trans hb3
  · intro j b1 hj
    obtain ⟨b, hb⟩ := getElem?_of_length_eq _ _ hvlen j b1 hj
    refine ⟨b, (hb4 b (List.getElem?_mem hb)).1, (hb4 b (List.getElem?_mem hb)).2, ?_⟩
    have := hvget j b hb
    rw [hj] at this
    exact Option.some.inj this
  · intro j b1 hj
    obtain ⟨b, hb⟩ := getElem?_of_length_eq _ _ hhlen j b1 hj
    refine ⟨b, (hb5 b (List.getElem?_mem hb)).1, (hb5 b (List.getElem?_mem hb)).2, ?_⟩
    have := hhget j b hb
    rw [hj] at this
    exact Option.some.inj this

/-! ## The rebuild when a dependency is missing -/

theorem createFromComponent_unavailable (env : QmlEnv) (component : QQmlComponent)
    (fresh : Nat) (h : component.isReady = false ∨ env.context = false) :
    createFromComponent env component fresh = (none, fresh) := by
  unfold createFromComponent
  rcases h with h | h
  · simp [h]
  · simp [h]

theorem createCellsLoop_unavailable (env : QmlEnv)
    (h : env.cellComponent.isReady = false ∨ env.context = false) :
    ∀ (n : Nat) (s : TableGroupItem), createCellsLoop env n s = s := by
  intro n
  induction n with
  | zero => intro s; rfl
  | succ n ih =>
    intro s
    rw [createCellsLoop, createFromComponent_unavailable env _ _ h]
    simp only []
    exact ih s

theorem createBordersLoop_unavailable (env : QmlEnv) (o : Orientation) (parent : Nat)
    (h : env.borderComponent.isReady = false ∨ env.context = false) :
    ∀ (n : Nat) (prev : Option Nat) (acc : List TableBorder × Nat),
      createBordersLoop env o parent n prev acc = acc := by
  intro n
  induction n with
  | zero => intro prev acc; rfl
  | succ n ih =>
    intro prev acc
    obtain ⟨bs, fresh⟩ := acc
    rw [createBordersLoop, createFromComponent_unavailable env _ _ h]
    simp only []
    exact ih prev (bs, fresh)

theorem createCells_unavailable (env : QmlEnv)
    (h : env.cellComponent.isReady = false ∨ env.context = false) (n : Int)
    (s : TableGroupItem) : createCells env n s = s := by
  unfold createCells
  split
  · rfl
  · split
    · rfl
    · split
      · rfl
      · exact createCellsLoop_unavailable env h _ s

theorem createBorders_unavailable (env : QmlEnv)
    (h : env.borderComponent.isReady = false ∨ env.context = false) (v w : Int)
    (s : TableGroupItem) : createBorders env v w s = s := by
  unfold createBorders
  simp only [createBordersLoop_unavailable env _ _ h]
  split
  · rfl
  · split
    · rfl
    · split <;> split <;> rfl

/-! ## Facts about the sample scene -/

theorem dropCell0_misses_200_50 : dropCell0.cellBr.contains ⟨200, 50⟩ = false := by
  norm_num [dropCell0, newCell, TableCell.cellBr, QRectF.contains, QRectF.l, QRectF.r,
    QRectF.t, QRectF.b]

theorem dropCell1_contains_200_50 : dropCell1.cellBr.contains ⟨200, 50⟩ = true := by
  norm_num [dropCell1, newCell, TableCell.cellBr, QRectF.contains, QRectF.l, QRectF.r,
    QRectF.t, QRectF.b]

theorem dropScene_misses_400_50 :
    ∀ c ∈ dropScene.table.cells, c.cellBr.contains ⟨400, 50⟩ = false := by
  intro c hc
  simp only [dropScene, List.mem_cons, List.mem_singleton, List.not_mem_nil, or_false] at hc
  rcases hc with rfl | rfl <;>
    norm_num [dropCell0, dropCell1, newCell, TableCell.cellBr, QRectF.contains, QRectF.l,
      QRectF.r, QRectF.t, QRectF.b]

theorem dropScene_first_hit_200_50 :
    ∀ (j : Nat) (c : TableCell), j < 1 → dropScene.table.cells[j]? = some c →
      c.cellBr.contains ⟨200, 50⟩ = false := by
  intro j c hj hc
  have hj0 : j = 0 := by omega
  subst hj0
  have hc0 : c = dropCell0 := by
    simp only [dropScene, List.getElem?_cons_zero, Option.some.injEq] at hc
    exact hc.symm
  rw [hc0]
  exact dropCell0_misses_200_50

/-! ## Range of the cell indices used by the wiring -/

theorem cellAt_lt (cells : List TableCell) (i : Int) (p : Nat) (h : cellAt cells i = some p) :
    0 ≤ i ∧ i < (cells.length : Int) := by
  unfold cellAt at h
  by_cases h0 : 0 ≤ i
  · rw [if_pos h0] at h
    refine ⟨h0, ?_⟩
    by_contra hcon
    have hge : cells.length ≤ i.toNat := by omega
    rw [List.getElem?_eq_none hge] at h
    cases h
  · rw [if_neg h0] at h
    cases h

theorem wireVerticalBorder_some (cells : List TableCell) (cols c : Int) :
    ∀ (n : Nat) (r : Int) (b b1 : TableBorder),
      wireVerticalBorder cells cols c n r b = some b1 →
      ∀ i : Nat, i < n →
        0 ≤ wrapInt (wrapInt ((r + i) * cols) + c) ∧
        wrapInt (wrapInt ((r + i) * cols) + c) < (cells.length : Int) := by
  intro n
  induction n with
  | zero => intro r b b1 _ i hi; omega
  | succ n ih =>
    intro r b b1 h i hi
    rw [wireVerticalBorder_succ] at h
    cases hp : cellAt cells (wrapInt (wrapInt (wrapInt (r * cols) + c) - 1)) with
    | none => simp only [hp] at h; cases h
    | some p =>
      cases hq : cellAt cells (wrapInt (wrapInt (r * cols) + c)) with
      | none => simp only [hp, hq] at h; cases h
      | some q =>
        simp only [hp, hq] at h
        cases i with
        | zero =>
          simpa using cellAt_lt cells _ q hq
        | succ i =>
          have := ih (r + 1) _ b1 h i (by omega)
          have e : r + ((i + 1 : Nat) : Int) = r + 1 + i := by push_cast; ring
          rw [e]
          exact this

theorem wireVerticalBorders_some (cells : List TableCell) (rows cols : Int) :
    ∀ (bs : List TableBorder) (c : Int) (vs : List TableBorder),
      wireVerticalBorders cells rows cols c bs = some vs →
      ∀ j : Nat, j < bs.length → ∀ i : Nat, i < rows.toNat →
        0 ≤ wrapInt (wrapInt ((0 + i) * cols) + (c + j)) ∧
        wrapInt (wrapInt ((0 + i) * cols) + (c + j)) < (cells.length : Int) := by
  intro bs
  induction bs with
  | nil => intro c vs _ j hj; simp at hj
  | cons b bs ih =>
    intro c vs h j hj i hi
    rw [wireVerticalBorders] at h
    cases hb : wireVerticalBorder cells cols c rows.toNat 0 b with
    | none => rw [hb] at h; cases h
    | some b1 =>
      rw [hb] at h
      simp only at h
      cases hrest : wireVerticalBorders cells rows cols (c + 1) bs with
      | none => rw [hrest] at h; cases h
      | some bs1 =>
        cases j with
        | zero =>
          simpa using wireVerticalBorder_some cells cols c rows.toNat 0 b b1 hb i hi
        | succ j =>
          have := ih (c + 1) bs1 hrest j (by simpa using hj) i hi
          have e : c + ((j + 1 : Nat) : Int) = c + 1 + j := by push_cast; ring
          rw [e]
          exact this

theorem createCellsLoop_length_le (env : QmlEnv) :
    ∀ (n : Nat) (s : TableGroupItem),
      (createCellsLoop env n s).cells.length ≤ s.cells.length + n := by
  intro n
  induction n with
  | zero => intro s; exact Nat.le_refl _
  | succ n ih =>
    intro s
    rw [createCellsLoop]
    cases h : createFromComponent env env.cellComponent s.fresh with
    | mk item fresh =>
      cases item with
      | none =>
        simp only []
        have := ih { s with fresh := fresh }
        simp only at this
        omega
      | some ref =>
        simp only []
        have := ih { s with
          fresh := fresh
          cells := s.cells ++ [newCell ref s.parentForChildren] }
        simp only [List.length_append, List.length_singleton] at this
        omega

theorem createCells_length_le (env : QmlEnv) (n : Int) (s : TableGroupItem)
    (hs : s.cells = []) : ((createCells env n s).cells.length : Int) ≤ max n 0 := by
  unfold createCells
  split
  · rw [hs]; simp
  · split
    · rw [hs]; simp
    · split
      · rw [hs]; simp
      · have := createCellsLoop_length_le env n.toNat s
        rw [hs] at this
        simp only [List.length_nil, Nat.zero_add] at this
        omega

theorem createCells_borders (env : QmlEnv) (n : Int) (s : TableGroupItem) :
    (createCells env n s).verticalBorders = s.verticalBorders ∧
    (createCells env n s).horizontalBorders = s.horizontalBorders := by
  have hloop : ∀ (k : Nat) (t : TableGroupItem),
      (createCellsLoop env k t).verticalBorders = t.verticalBorders ∧
      (createCellsLoop env k t).horizontalBorders = t.horizontalBorders := by
    intro k
    induction k with
    | zero => intro t; exact ⟨rfl, rfl⟩
    | succ k ih =>
      intro t
      rw [createCellsLoop]
      cases h : createFromComponent env env.cellComponent t.fresh with
      | mk item fresh =>
        cases item with
        | none => exact ih _
        | some ref => exact ih _
  unfold createCells
  split
  · exact ⟨rfl, rfl⟩
  · split
    · exact ⟨rfl, rfl⟩
    · split
      · exact ⟨rfl, rfl⟩
      · exact hloop _ s

theorem createBorders_vertical_count (env : QmlEnv) (heng : env.engine = true)
    (hctx : env.context = true) (hready : env.borderComponent.isReady = true)
    (hinst : ∀ n, env.borderComponent.instantiate n = true) (v h : Int) (hv : 0 ≤ v)
    (hh : 0 ≤ h) (s : TableGroupItem) (hsv : s.verticalBorders = []) :
    (createBorders env v h s).cells = s.cells ∧
    (createBorders env v h s).verticalBorders.length = v.toNat := by
  have hV := fun p f => createBordersLoop_ok env Orientation.Vertical p hctx hready hinst
    v.toNat none [] f unwired_nil
  simp only [List.length_nil, Nat.zero_add] at hV
  have hneg : ¬ (v < 0 ∨ h < 0) := by omega
  unfold createBorders
  rw [if_neg hneg]
  simp only [heng, Bool.not_true, Bool.false_eq_true, if_false, hsv, List.length_nil,
    Nat.cast_zero, ne_eq]
  by_cases hv0 : v = 0
  · subst hv0
    simp only [not_true_eq_false, if_false, hsv]
    split <;> exact ⟨rfl, by simp [hsv]⟩
  · simp only [hv0, not_false_eq_true, if_true]
    split <;> exact ⟨rfl, (hV _ _).1⟩

/-- When the cell indices read for the last vertical border are all in the range of a vector
of at most `INT_MAX` cells, no index has wrapped around and the vector holds at least
`rows * cols` cells. -/
theorem mul_le_of_last_column (L R C : Int) (hL0 : 0 ≤ L) (hL : L ≤ 2147483647)
    (hC2 : 2 ≤ C) (hCmax : C ≤ 2147483647)
    (h : ∀ i : Nat, i < R.toNat →
      0 ≤ wrapInt (wrapInt ((0 + i) * C) + (1 + ((C - 2).toNat : Nat))) ∧
      wrapInt (wrapInt ((0 + i) * C) + (1 + ((C - 2).toNat : Nat))) < L) :
    ∀ i : Nat, i ≤ R.toNat → (i : Int) * C ≤ L := by
  intro i
  induction i with
  | zero => intro _; simpa using hL0
  | succ i ih =>
    intro hi
    have hx := ih (by omega)
    have hx0 : 0 ≤ (i : Int) * C := mul_nonneg (Int.ofNat_nonneg i) (by omega)
    obtain ⟨h1, h2⟩ := h i (by omega)
    have e0 : ((0 : Int) + i) * C = i * C := by ring
    have e1 : (1 : Int) + ((C - 2).toNat : Nat) = C - 1 := by omega
    have hw : wrapInt ((i : Int) * C) = i * C := wrapInt_eq _ (by omega) (by omega)
    simp only [e0, e1, hw] at h1 h2
    have e2 : ((i + 1 : Nat) : Int) * C = i * C + C := by push_cast; ring
    rw [e2]
    unfold wrapInt at h1 h2
    omega

/-- A call of `initialize(R, C)` with `C >= 2` whose border instantiations all succeed returns
only if the cell vector holds exactly `R * C` cells; the product then fits an `int`. -/
theorem initializeTable_some_cells (env : QmlEnv) (heng : env.engine = true)
    (hctx : env.context = true) (hready : env.borderComponent.isReady = true)
    (hinst : ∀ n, env.borderComponent.instantiate n = true) (R C : Int) (hR : 0 < R)
    (hC2 : 2 ≤ C) (hRmax : R ≤ INT_MAX) (hCmax : C ≤ INT_MAX) (s t : TableGroupItem)
    (ht : initializeTable env R C s = some t) :
    (t.cells.length : Int) = R * C ∧ R * C ≤ INT_MAX := by
  have hwr := wrapInt_range (R * C)
  unfold INT_MAX at *
  have hguard : ¬ (R ≤ 0 ∨ C ≤ 0) := by omega
  have hw2 : wrapInt (C - 1) = C - 1 := wrapInt_eq _ (by omega) (by omega)
  have hw3 : wrapInt (R - 1) = R - 1 := wrapInt_eq _ (by omega) (by omega)
  have hcb := createCells_borders env (wrapInt (R * C)) (clearLayout s)
  obtain ⟨hb1, hb2⟩ := createBorders_vertical_count env heng hctx hready hinst (C - 1) (R - 1)
    (by omega) (by omega) (createCells env (wrapInt (R * C)) (clearLayout s)) hcb.1
  have hle := createCells_length_le env (wrapInt (R * C)) (clearLayout s) rfl
  rw [initializeTable, if_neg hguard] at ht
  simp only [heng, Bool.not_true, Bool.false_eq_true, if_false, hw2, hw3] at ht
  cases hv : wireVerticalBorders
      (createBorders env (C - 1) (R - 1)
        (createCells env (wrapInt (R * C)) (clearLayout s))).cells R C 1
      (createBorders env (C - 1) (R - 1)
        (createCells env (wrapInt (R * C)) (clearLayout s))).verticalBorders with
  | none => rw [hv] at ht; cases ht
  | some vs =>
    rw [hv] at ht
    simp only at ht
    cases hh : wireHorizontalBorders
        (createBorders env (C - 1) (R - 1)
          (createCells env (wrapInt (R * C)) (clearLayout s))).cells C 1
        (createBorders env (C - 1) (R - 1)
          (createCells env (wrapInt (R * C)) (clearLayout s))).horizontalBorders with
    | none => rw [hh] at ht; cases ht
    | some hs =>
      rw [hh] at ht
      simp only [Option.some.injEq] at ht
      have hall := wireVerticalBorders_some _ R C _ 1 vs hv (C - 2).toNat
        (by rw [hb2]; omega)
      rw [hb1] at hall
      have hL : ((createCells env (wrapInt (R * C)) (clearLayout s)).cells.length : Int) ≤
          2147483647 := le_trans hle (max_le hwr.2 (by norm_num))
      have hfit := mul_le_of_last_column _ R C (Int.ofNat_nonneg _) hL hC2 hCmax hall R.toNat
        (le_refl _)
      have eR : ((R.toNat : Nat) : Int) = R := by omega
      rw [eR] at hfit
      have hw1 : wrapInt (R * C) = R * C :=
        wrapInt_eq _ (by have := mul_pos hR (by omega : (0 : Int) < C); omega) (by omega)
      have htc : t.cells = (createCells env (wrapInt (R * C)) (clearLayout s)).cells := by
        rw [← ht]
        exact hb1
      rw [hw1] at hle hfit hL
      rw [htc, hw1]
      have hmax : max (R * C) 0 = R * C :=
        max_eq_left (by have := mul_pos hR (by omega : (0 : Int) < C); omega)
      rw [hmax] at hle
      exact ⟨by omega, by omega⟩

/-- A call of `initialize(R, C)` whose instantiations all succeed returns only if `R * C`
fits an `int`. -/
theorem initializeTable_some_range (env : QmlEnv) (henv : env.allSucceed) (R C : Int)
    (hR : 0 < R) (hC : 0 < C) (hRmax : R ≤ INT_MAX) (hCmax : C ≤ INT_MAX)
    (s t : TableGroupItem) (ht : initializeTable env R C s = some t) : R * C ≤ INT_MAX := by
  by_cases hC2 : 2 ≤ C
  · exact (initializeTable_some_cells env henv.1 henv.2.1 henv.2.2.2.1 henv.2.2.2.2.2 R C hR
      hC2 hRmax hCmax s t ht).2
  · have hC1 : C = 1 := by omega
    subst hC1
    simpa using hRmax

/-- The rebuild returns exactly when `R * C` fits an `int`, every instantiation succeeding. -/
theorem initializeTable_returns_iff (env : QmlEnv) (henv : env.allSucceed) (R C : Int)
    (hR : 0 < R) (hC : 0 < C) (hRmax : R ≤ INT_MAX) (hCmax : C ≤ INT_MAX)
    (s : TableGroupItem) :
    (∃ t, initializeTable env R C s = some t) ↔ R * C ≤ INT_MAX := by
  constructor
  · rintro ⟨t, ht⟩
    exact initializeTable_some_range env henv R C hR hC hRmax hCmax s t ht
  · intro hRC
    obtain ⟨t, ht, _⟩ := initializeTable_ok env henv R C hR hC hRC s
    exact ⟨t, ht⟩

/-- At `initialize(65536, 65536)` the product `rows * cols` is `2^32`, which wraps around to 0:
no cell is created while 65535 vertical borders are, and the wiring reads `_cells[0]` of an
empty vector. -/
theorem initializeTable_65536 (env : QmlEnv) (henv : env.allSucceed) (s : TableGroupItem) :
    initializeTable env 65536 65536 s = none := by
  cases h : initializeTable env 65536 65536 s with
  | none => rfl
  | some t =>
    have := initializeTable_some_range env henv 65536 65536 (by decide) (by decide)
      (by decide) (by decide) s t h
    exact absurd this (by decide)

/-! ## The claims -/

theorem readyEnv_allSucceed : readyEnv.allSucceed :=
  ⟨rfl, rfl, rfl, rfl, fun _ => rfl, fun _ => rfl⟩

theorem cellAt_ref (cells : List TableCell) (i : Int) (h0 : 0 ≤ i)
    (h1 : i < (cells.length : Int)) :
    ∃ p, cells[i.toNat]? = some p ∧ (cellAt cells i).getD 0 = p.ref := by
  have hlt : i.toNat < cells.length := by omega
  refine ⟨cells[i.toNat], List.getElem?_eq_getElem hlt, ?_⟩
  simp [cellAt, h0, List.getElem?_eq_getElem hlt]

theorem getElem?_range_map {α : Type} (g : Nat → α) (n i : Nat) (h : i < n) :
    ((List.range n).map g)[i]? = some (g i) := by
  simp [List.getElem?_map, List.getElem?_range h]

/-- Claim C1, as the code has it.  For every `R > 0` and `C > 0` whose product fits an `int`
(`R * C ≤ INT_MAX`), when the QML engine is available and every cell and border instantiation
succeeds, `initialize(R, C)` run from any prior state returns and leaves exactly `R * C`
cells, `C - 1` vertical borders and `R - 1` horizontal borders. -/
theorem initialize_counts (env : QmlEnv) (henv : env.allSucceed) (R C : Int) (hR : 0 < R)
    (hC : 0 < C) (hRC : R * C ≤ INT_MAX) (s : TableGroupItem) :
    ∃ t, initializeTable env R C s = some t ∧
      (t.cells.length : Int) = R * C ∧
      (t.verticalBorders.length : Int) = C - 1 ∧
      (t.horizontalBorders.length : Int) = R - 1 := by
  obtain ⟨t, ht, hcells, hv, hh, _, _⟩ := initializeTable_ok env henv R C hR hC hRC s
  have hpos : 0 < R * C := mul_pos hR hC
  refine ⟨t, ht, ?_, ?_, ?_⟩
  · rw [hcells]
    simp only [List.length_map, List.length_range]
    omega
  · rw [hv]; omega
  · rw [hh]; omega

theorem initialize_counts_witness :
    ∃ t, initializeTable readyEnv 2 3 priorTable = some t ∧
      (t.cells.length : Int) = 2 * 3 ∧
      (t.verticalBorders.length : Int) = 3 - 1 ∧
      (t.horizontalBorders.length : Int) = 2 - 1 :=
  initialize_counts readyEnv readyEnv_allSucceed 2 3 (by decide) (by decide) (by decide)
    priorTable

/-- Claim C1, counterexample: `initialize(65536, 65536)` with every instantiation succeeding.
Both arguments are positive `int`s, but `rows * cols = 2^32` wraps around to 0: `createCells(0)`
creates no cell, `createBorders(65535, 65535)` creates the borders, and the vertical wiring
reads `_cells[0]` of the empty vector.  The call does not end with `65536 * 65536` cells. -/
theorem initialize_counts_counterexample :
    readyEnv.allSucceed ∧ (0 : Int) < 65536 ∧
    wrapInt (65536 * 65536) = 0 ∧
    (createCells readyEnv (wrapInt (65536 * 65536)) (clearLayout priorTable)).cells = [] ∧
    initializeTable readyEnv 65536 65536 priorTable = none :=
  ⟨readyEnv_allSucceed, by decide, by decide, by decide,
    initializeTable_65536 readyEnv readyEnv_allSucceed priorTable⟩

/-- Claim C2. After a successful `initialize(R, C)` with `R > 0` and `C >= 2`, for every vertical
border `c` in `1..C-1` (in creation order) and every row `r` in `0..R-1`, entry `r` of the
border's `prevCells` is the cell of row-major index `r * C + (c - 1)` and entry `r` of its
`nextCells` is the cell of row-major index `r * C + c`; both lists have exactly `R` entries.
A successful `initialize` is a call that returns, every instantiation succeeding: the second
part holds for every state `t` such a call returns, for all `int` arguments `R` and `C`; the
first part says that the call returns exactly when `R * C` fits an `int`. -/
theorem initialize_vertical_wiring (env : QmlEnv) (henv : env.allSucceed) (R C : Int)
    (hR : 0 < R) (hC : 2 ≤ C) (hRmax : R ≤ INT_MAX) (hCmax : C ≤ INT_MAX)
    (s : TableGroupItem) (c r : Int) (hc1 : 1 ≤ c) (hc2 : c ≤ C - 1)
    (hr0 : 0 ≤ r) (hr : r < R) :
    ((∃ t, initializeTable env R C s = some t) ↔ R * C ≤ INT_MAX) ∧
    ∀ t, initializeTable env R C s = some t →
      ∃ b p q,
        t.verticalBorders[(c - 1).toNat]? = some b ∧
        t.cells[(r * C + (c - 1)).toNat]? = some p ∧
        t.cells[(r * C + c).toNat]? = some q ∧
        b.prevCells[r.toNat]? = some p.ref ∧
        b.nextCells[r.toNat]? = some q.ref ∧
        (b.prevCells.length : Int) = R ∧ (b.nextCells.length : Int) = R := by
  refine ⟨initializeTable_returns_iff env henv R C hR (by omega) hRmax hCmax s, ?_⟩
  intro t1 ht1
  have hRC := initializeTable_some_range env henv R C hR (by omega) hRmax hCmax s t1 ht1
  obtain ⟨t, ht, hcells, hv, _, hvw, _⟩ := initializeTable_ok env henv R C hR (by omega) hRC s
  have htt : t = t1 := by
    rw [ht] at ht1
    exact Option.some.inj ht1
  subst htt
  have hpos : 0 < R * C := mul_pos hR (by omega)
  have hlen : (t.cells.length : Int) = R * C := by
    rw [hcells]
    simp only [List.length_map, List.length_range]
    omega
  have hj : (c - 1).toNat < t.verticalBorders.length := by rw [hv]; omega
  obtain ⟨b0, hb0p, hb0n, hb⟩ := hvw (c - 1).toNat _ (List.getElem?_eq_getElem hj)
  have hidx : (1 : Int) + ((c - 1).toNat : Nat) = c := by omega
  have hrr : (0 : Int) + (r.toNat : Nat) = r := by omega
  have hrC : r * C + C ≤ R * C := by nlinarith
  have hrC0 : 0 ≤ r * C := mul_nonneg hr0 (by omega)
  obtain ⟨p, hp, hpref⟩ := cellAt_ref t.cells (r * C + c - 1) (by omega) (by omega)
  obtain ⟨q, hq, hqref⟩ := cellAt_ref t.cells (r * C + c) (by omega) (by omega)
  have hrn : r.toNat < R.toNat := by omega
  refine ⟨_, p, q, List.getElem?_eq_getElem hj, ?_, hq, ?_, ?_, ?_, ?_⟩
  · rw [← hp]; congr 2; ring
  · rw [hb]
    simp only [wiredVertical, hb0p, List.nil_append]
    rw [getElem?_range_map _ _ _ hrn, hidx, hrr, hpref]
  · rw [hb]
    simp only [wiredVertical, hb0n, List.nil_append]
    rw [getElem?_range_map _ _ _ hrn, hidx, hrr, hqref]
  · rw [hb]
    simp only [wiredVertical, hb0p, List.nil_append, List.length_map, List.length_range]
    omega
  · rw [hb]
    simp only [wiredVertical, hb0n, List.nil_append, List.length_map, List.length_range]
    omega

theorem initialize_vertical_wiring_witness :
    ∃ t b p q, initializeTable readyEnv 2 3 priorTable = some t ∧
      t.verticalBorders[((2 : Int) - 1).toNat]? = some b ∧
      t.cells[((1 : Int) * 3 + (2 - 1)).toNat]? = some p ∧
      t.cells[((1 : Int) * 3 + 2).toNat]? = some q ∧
      b.prevCells[(1 : Int).toNat]? = some p.ref ∧
      b.nextCells[(1 : Int).toNat]? = some q.ref ∧
      (b.prevCells.length : Int) = 2 ∧ (b.nextCells.length : Int) = 2 := by
  have h := initialize_vertical_wiring readyEnv readyEnv_allSucceed 2 3 (by decide)
    (by decide) (by decide) (by decide) priorTable 2 1 (by decide) (by decide) (by decide)
    (by decide)
  obtain ⟨t, ht⟩ := h.1.2 (by decide)
  obtain ⟨b, p, q, hrest⟩ := h.2 t ht
  exact ⟨t, b, p, q, ht, hrest⟩

/-- Claim C4. For every valid input (`R > 0`, `C > 0`, `P >= 0`, `S >= 0`, `W > 0`, `H > 0`,
computed cell width and height non-negative, exactly `C - 1` vertical borders),
`layoutTable()` gives every vertical border `c` in `1..C-1` the width 3, centres it on
`x = P + (c-1)*S + c*cellWidth + S/2` with `cellWidth = (W - 2P - (C-1)*S)/C` (left edge
`x - 3/2`), and gives it top `y = 0` and height `H`. -/
theorem layoutTable_vertical_border (s : TableGroupItem) (R C : Int) (P S : qreal)
    (hg : s.tableGroup = some { rows := R, cols := C, cellSpacing := S, tablePadding := P })
    (hR : 0 < R) (hC : 0 < C) (hP : 0 ≤ P) (hS : 0 ≤ S) (hW : 0 < s.width) (hH : 0 < s.height)
    (hcw : 0 ≤ (s.width - 2 * P - ((C : qreal) - 1) * S) / (C : qreal))
    (hch : 0 ≤ (s.height - 2 * P - ((C : qreal) - 1) * S) / (R : qreal))
    (hn : (s.verticalBorders.length : Int) = C - 1)
    (c : Int) (hc1 : 1 ≤ c) (hc2 : c ≤ C - 1) :
    ∃ b, (layoutTable s).verticalBorders[(c - 1).toNat]? = some b ∧
      b.width = 3 ∧
      b.x + b.width / 2 = P + ((c : qreal) - 1) * S +
        (c : qreal) * ((s.width - 2 * P - ((C : qreal) - 1) * S) / (C : qreal)) + S / 2 ∧
      b.x = P + ((c : qreal) - 1) * S +
        (c : qreal) * ((s.width - 2 * P - ((C : qreal) - 1) * S) / (C : qreal)) + S / 2 - 3 / 2 ∧
      b.y = 0 ∧ b.height = s.height := by
  have ecw : cellWidth s.width P S C = (s.width - 2 * P - ((C : qreal) - 1) * S) / (C : qreal) := by
    simp [cellWidth, hW]
  have ech : cellHeight s.height P S C R =
      (s.height - 2 * P - ((C : qreal) - 1) * S) / (R : qreal) := by
    simp [cellHeight, hH]
  obtain ⟨hv, _⟩ := layoutTable_valid s _ hg hC hR hS hP (by rw [ecw]; exact hcw)
    (by rw [ech]; exact hch)
  simp only [] at hv
  rw [if_pos hn] at hv
  have hk : (c - 1).toNat < s.verticalBorders.length := by omega
  have hin : ((1 : Int) - 1).toNat ≤ (c - 1).toNat ∧
      (c - 1).toNat < ((1 : Int) - 1).toNat + (C - 1).toNat := by
    constructor <;> omega
  have hck : (((c - 1).toNat : Nat) : Int) + 1 = c := by omega
  refine ⟨layoutVerticalBorder P S (cellWidth s.width P S C) s.height c
    (s.verticalBorders[(c - 1).toNat]), ?_, ?_, ?_, ?_, ?_, ?_⟩
  · rw [hv, forEachBorder_getElem? _ _ _ _ _ (le_refl 1), if_pos hin,
      List.getElem?_eq_getElem hk, hck]
    rfl
  · rfl
  · simp only [layoutVerticalBorder, ecw]
    push_cast
    ring
  · simp only [layoutVerticalBorder, ecw]
    push_cast
    ring
  · rfl
  · rfl

theorem layoutTable_vertical_border_witness :
    ∃ b, (layoutTable sampleTable).verticalBorders[0]? = some b ∧
      b.width = 3 ∧ b.x + b.width / 2 = 599 / 6 ∧ b.x = 295 / 3 ∧ b.y = 0 ∧ b.height = 200 ∧
      ((300 : qreal) - 2 * 2 - (3 - 1) * 5) / 3 = 286 / 3 := by
  obtain ⟨b, h1, h2, h3, h4, h5, h6⟩ := layoutTable_vertical_border sampleTable 2 3 2 5 rfl
    (by decide) (by decide) (by norm_num) (by norm_num) (by norm_num [sampleTable])
    (by norm_num [sampleTable]) (by norm_num [sampleTable]) (by norm_num [sampleTable])
    (by decide) 1 (by decide) (by decide)
  refine ⟨b, h1, h2, ?_, ?_, h5, h6, by norm_num⟩
  · rw [h3]; norm_num [sampleTable]
  · rw [h4]; norm_num [sampleTable]

/-- Claim C5. For every valid input (`R > 0`, `C > 0`, `P >= 0`, `S >= 0`, `W > 0`, `H > 0`,
computed cell sizes non-negative, exactly `R - 1` horizontal borders), `layoutTable()` gives
every horizontal border `r` in `1..R-1` the height 3, centres it on
`y = P + (r-1)*S + r*cellHeight + S/2`, and gives it left `x = 0` and width `W`, where
`cellHeight = (H - 2P - (C-1)*S)/R`: the height formula subtracts `(cols-1)*spacing`. -/
theorem layoutTable_horizontal_border (s : TableGroupItem) (R C : Int) (P S : qreal)
    (hg : s.tableGroup = some { rows := R, cols := C, cellSpacing := S, tablePadding := P })
    (hR : 0 < R) (hC : 0 < C) (hP : 0 ≤ P) (hS : 0 ≤ S) (hW : 0 < s.width) (hH : 0 < s.height)
    (hcw : 0 ≤ (s.width - 2 * P - ((C : qreal) - 1) * S) / (C : qreal))
    (hch : 0 ≤ (s.height - 2 * P - ((C : qreal) - 1) * S) / (R : qreal))
    (hn : (s.horizontalBorders.length : Int) = R - 1)
    (r : Int) (hr1 : 1 ≤ r) (hr2 : r ≤ R - 1) :
    ∃ b, (layoutTable s).horizontalBorders[(r - 1).toNat]? = some b ∧
      b.height = 3 ∧
      b.y + b.height / 2 = P + ((r : qreal) - 1) * S +
        (r : qreal) * ((s.height - 2 * P - ((C : qreal) - 1) * S) / (R : qreal)) + S / 2 ∧
      b.x = 0 ∧ b.width = s.width := by
  have ecw : cellWidth s.width P S C = (s.width - 2 * P - ((C : qreal) - 1) * S) / (C : qreal) := by
    simp [cellWidth, hW]
  have ech : cellHeight s.height P S C R =
      (s.height - 2 * P - ((C : qreal) - 1) * S) / (R : qreal) := by
    simp [cellHeight, hH]
  obtain ⟨_, hh⟩ := layoutTable_valid s _ hg hC hR hS hP (by rw [ecw]; exact hcw)
    (by rw [ech]; exact hch)
  simp only [] at hh
  rw [if_pos hn] at hh
  have hk : (r - 1).toNat < s.horizontalBorders.length := by omega
  have hin : ((1 : Int) - 1).toNat ≤ (r - 1).toNat ∧
      (r - 1).toNat < ((1 : Int) - 1).toNat + (R - 1).toNat := by
    constructor <;> omega
  have hrk : (((r - 1).toNat : Nat) : Int) + 1 = r := by omega
  refine ⟨layoutHorizontalBorder P S (cellHeight s.height P S C R) s.width r
    (s.horizontalBorders[(r - 1).toNat]), ?_, ?_, ?_, ?_, ?_⟩
  · rw [hh, forEachBorder_getElem? _ _ _ _ _ (le_refl 1), if_pos hin,
      List.getElem?_eq_getElem hk, hrk]
    rfl
  · rfl
  · simp only [layoutHorizontalBorder, ech]
    push_cast
    ring
  · rfl
  · rfl

theorem layoutTable_horizontal_border_witness :
    ∃ b, (layoutTable sampleTable).horizontalBorders[0]? = some b ∧
      b.height = 3 ∧ b.y + b.height / 2 = 195 / 2 ∧ b.x = 0 ∧ b.width = 300 := by
  obtain ⟨b, h1, h2, h3, h4, h5⟩ := layoutTable_horizontal_border sampleTable 2 3 2 5 rfl
    (by decide) (by decide) (by norm_num) (by norm_num) (by norm_num [sampleTable])
    (by norm_num [sampleTable]) (by norm_num [sampleTable]) (by norm_num [sampleTable])
    (by decide) 1 (by decide) (by decide)
  refine ⟨b, h1, h2, ?_, h4, h5⟩
  rw [h3]; norm_num [sampleTable]

/-- What `initialize` does for the horizontal borders, for comparison with claim C3: after a
successful `initialize(R, C)` with `R >= 2`, `C > 0` and `R * C ≤ INT_MAX`, every horizontal
border, whatever its position `j` in creation order, has the cells of row 0 as `prevCells` and
the cells of row 1 as `nextCells`. -/
theorem initialize_horizontal_wiring_rows_0_1 (env : QmlEnv) (henv : env.allSucceed)
    (R C : Int) (hR : 2 ≤ R) (hC : 0 < C) (hRC : R * C ≤ INT_MAX) (s : TableGroupItem)
    (j : Nat)
    (hj : (j : Int) < R - 1) (c : Int) (hc0 : 0 ≤ c) (hc : c < C) :
    ∃ t b p q, initializeTable env R C s = some t ∧
      t.horizontalBorders[j]? = some b ∧
      t.cells[c.toNat]? = some p ∧
      t.cells[(C + c).toNat]? = some q ∧
      b.prevCells[c.toNat]? = some p.ref ∧
      b.nextCells[c.toNat]? = some q.ref := by
  obtain ⟨t, ht, hcells, _, hh, _, hhw⟩ := initializeTable_ok env henv R C (by omega) hC hRC s
  have hpos : 0 < R * C := mul_pos (by omega) hC
  have hlen : (t.cells.length : Int) = R * C := by
    rw [hcells]
    simp only [List.length_map, List.length_range]
    omega
  have hjl : j < t.horizontalBorders.length := by rw [hh]; omega
  obtain ⟨b0, hb0p, hb0n, hb⟩ := hhw j _ (List.getElem?_eq_getElem hjl)
  have h2C : 2 * C ≤ R * C := by nlinarith
  have hcc : (0 : Int) + (c.toNat : Nat) = c := by omega
  obtain ⟨p, hp, hpref⟩ := cellAt_ref t.cells ((1 - 1) * C + c) (by omega) (by omega)
  obtain ⟨q, hq, hqref⟩ := cellAt_ref t.cells (1 * C + c) (by omega) (by omega)
  have hcn : c.toNat < C.toNat := by omega
  refine ⟨t, _, p, q, ht, List.getElem?_eq_getElem hjl, ?_, ?_, ?_, ?_⟩
  · rw [← hp]; congr 2; ring
  · rw [← hq]; congr 2; ring
  · rw [hb]
    simp only [wiredHorizontal, hb0p, List.nil_append]
    rw [getElem?_range_map _ _ _ hcn, hcc, hpref]
  · rw [hb]
    simp only [wiredHorizontal, hb0n, List.nil_append]
    rw [getElem?_range_map _ _ _ hcn, hcc, hqref]

/-- Claim C3 at `initialize(3, 1)` on an empty table: the three cells get the addresses 0, 1, 2
and the two horizontal borders the addresses 3 and 4.  Border 2 should lie between the cells
of index 1 and 2; the code wires it, like border 1, to the cells of index 0 and 1. -/
theorem initialize_3x1_horizontal_wiring :
    (initializeTable readyEnv 3 1 {}).map (fun t =>
      (t.cells.map TableCell.ref,
        t.horizontalBorders.map fun b => (b.ref, b.prevCells, b.nextCells))) =
    some ([0, 1, 2], [(3, [0], [1]), (4, [0], [1])]) := by
  decide

/-- Claim C7. For every `rows`, `cols` with `rows <= 0` or `cols <= 0` and every prior state,
`initialize(rows, cols)` returns with the state (cells, borders and their adjacency)
exactly as it was before the call. -/
theorem initialize_invalid_unchanged (env : QmlEnv) (rows cols : Int)
    (h : rows ≤ 0 ∨ cols ≤ 0) (s : TableGroupItem) :
    initializeTable env rows cols s = some s := by
  rw [initializeTable, if_pos h]

theorem initialize_invalid_unchanged_witness :
    initializeTable readyEnv 0 3 sampleTable = some sampleTable ∧
    initializeTable readyEnv 3 (-1) sampleTable = some sampleTable :=
  ⟨initialize_invalid_unchanged readyEnv 0 3 (by decide) sampleTable,
    initialize_invalid_unchanged readyEnv 3 (-1) (by decide) sampleTable⟩

/-- Claim C8, as the code has it.  For every `R > 0`, `C > 0` and every prior state:
without QML engine `initialize(R, C)` returns before clearing and the prior topology stays in
place; with an engine but no QML context, or with neither component ready, nothing is
instantiated and the table ends with zero cells and zero borders; with an engine, a context
and working cell instantiation but a border component that is not ready, and with
`R * C ≤ INT_MAX`, the table ends with `R * C` cells and no border. -/
theorem initialize_missing_dependency (env : QmlEnv) (R C : Int) (hR : 0 < R) (hC : 0 < C)
    (s : TableGroupItem) :
    (env.engine = false → initializeTable env R C s = some s) ∧
    (env.engine = true →
      (env.context = false ∨
        (env.cellComponent.isReady = false ∧ env.borderComponent.isReady = false)) →
      ∃ t, initializeTable env R C s = some t ∧
        t.cells = [] ∧ t.verticalBorders = [] ∧ t.horizontalBorders = []) ∧
    (env.engine = true → env.context = true → env.cellComponent.isReady = true →
      (∀ n, env.cellComponent.instantiate n = true) → env.borderComponent.isReady = false →
      R * C ≤ INT_MAX →
      ∃ t, initializeTable env R C s = some t ∧
        (t.cells.length : Int) = R * C ∧ t.verticalBorders = [] ∧
        t.horizontalBorders = []) := by
  have hguard : ¬ (R ≤ 0 ∨ C ≤ 0) := by omega
  refine ⟨?_, ?_, ?_⟩
  · intro heng
    rw [initializeTable, if_neg hguard]
    simp [heng]
  · intro heng h
    have hc : env.cellComponent.isReady = false ∨ env.context = false := by
      rcases h with h | h
      · exact Or.inr h
      · exact Or.inl h.1
    have hb : env.borderComponent.isReady = false ∨ env.context = false := by
      rcases h with h | h
      · exact Or.inr h
      · exact Or.inl h.2
    refine ⟨clearLayout s, ?_, rfl, rfl, rfl⟩
    rw [initializeTable, if_neg hguard]
    simp only [heng, Bool.not_true, Bool.false_eq_true, if_false,
      createCells_unavailable env hc, createBorders_unavailable env hb]
    rfl
  · intro heng hctx hready hinst hborder hRC
    have hpos : 0 < R * C := mul_pos hR hC
    unfold INT_MAX at hRC
    have hw1 : wrapInt (R * C) = R * C := wrapInt_eq _ (by omega) hRC
    have hcells := createCells_ok env heng hctx hready hinst (R * C) hpos (clearLayout s) rfl
    refine ⟨createCells env (R * C) (clearLayout s), ?_, ?_, ?_, ?_⟩
    · rw [initializeTable, if_neg hguard]
      simp only [heng, Bool.not_true, Bool.false_eq_true, if_false, hw1,
        createBorders_unavailable env (Or.inl hborder)]
      rw [hcells]
      rfl
    · rw [hcells]
      simp only [List.length_map, List.length_range]
      omega
    · rw [hcells]; rfl
    · rw [hcells]; rfl

theorem initialize_missing_dependency_witness :
    initializeTable noEngineEnv 2 3 priorTable = some priorTable ∧
    (∃ t, initializeTable noContextEnv 2 3 priorTable = some t ∧
      t.cells = [] ∧ t.verticalBorders = [] ∧ t.horizontalBorders = []) ∧
    (∃ t, initializeTable noBorderEnv 2 3 priorTable = some t ∧
      (t.cells.length : Int) = 2 * 3 ∧ t.verticalBorders = [] ∧ t.horizontalBorders = []) :=
  ⟨(initialize_missing_dependency noEngineEnv 2 3 (by decide) (by decide) priorTable).1 rfl,
    (initialize_missing_dependency noContextEnv 2 3 (by decide) (by decide) priorTable).2.1
      rfl (Or.inl rfl),
    (initialize_missing_dependency noBorderEnv 2 3 (by decide) (by decide) priorTable).2.2
      rfl rfl rfl (fun _ => rfl) rfl (by decide)⟩

/-- Claim C8, counterexample: `initialize(2, 3)` on a table holding two cells and one vertical
border.  Without QML engine the call ends with the previous topology still in place (two
cells, one vertical border); with a border component that is not ready it ends with six cells
and no border.  Neither is the empty state. -/
theorem initialize_missing_dependency_counterexample :
    noEngineEnv.engine = false ∧
    (initializeTable noEngineEnv 2 3 priorTable).map (fun t =>
      (t.cells.length, t.verticalBorders.length, t.horizontalBorders.length)) =
      some (2, 1, 0) ∧
    noBorderEnv.borderComponent.isReady = false ∧
    (initializeTable noBorderEnv 2 3 priorTable).map (fun t =>
      (t.cells.length, t.verticalBorders.length, t.horizontalBorders.length)) =
      some (6, 0, 0) := by
  refine ⟨rfl, ?_, rfl, ?_⟩ <;> decide

/-- Claim C9. For every non-null node item and every table with a configured container,
`groupNodeItem(nodeItem, transform = true)` scans the cells in table order.  If the node's
container-space point lies inside the bounds of cell `k` and of no earlier cell, the attached
item of cell `k` becomes the node, the node's cell back-reference becomes cell `k`, and every
other cell and every other node item is unchanged.  If the point lies outside every cell, the
cells (their attached items included) and the node items (their cell back-references
included) are unchanged. -/
theorem groupNodeItem_hit_test (sc : Scene) (n : Nat) (groupPos : QPointF)
    (hc : sc.table.container ≠ none) :
    (∀ (k : Nat) (cell : TableCell), sc.table.cells[k]? = some cell →
      cell.cellBr.contains groupPos = true →
      (∀ (j : Nat) (c : TableCell), j < k → sc.table.cells[j]? = some c →
        c.cellBr.contains groupPos = false) →
      (groupNodeItem (some n) true groupPos sc).table.cells[k]? =
        some { cell with item := some n } ∧
      ((groupNodeItem (some n) true groupPos sc).nodeItems n).cell = some cell.ref ∧
      (∀ j : Nat, j ≠ k →
        (groupNodeItem (some n) true groupPos sc).table.cells[j]? = sc.table.cells[j]?) ∧
      (∀ m : Nat, m ≠ n →
        (groupNodeItem (some n) true groupPos sc).nodeItems m = sc.nodeItems m)) ∧
    ((∀ c ∈ sc.table.cells, c.cellBr.contains groupPos = false) →
      (groupNodeItem (some n) true groupPos sc).table.cells = sc.table.cells ∧
      (groupNodeItem (some n) true groupPos sc).nodeItems = sc.nodeItems) := by
  have hg : groupNodeItem (some n) true groupPos sc =
      { table := { sc.table with
          cells := (groupNodeItemLoop n groupPos sc.table.cells sc.nodeItems).1 },
        nodeItems := (groupNodeItemLoop n groupPos sc.table.cells sc.nodeItems).2 } := by
    simp [groupNodeItem, hc]
  constructor
  · intro k cell hk hin hfirst
    rw [hg, groupNodeItemLoop_hit n groupPos sc.nodeItems sc.table.cells k cell hk hin hfirst]
    have hlt : k < sc.table.cells.length := by
      by_contra hcon
      rw [List.getElem?_eq_none (by omega)] at hk
      cases hk
    refine ⟨?_, ?_, ?_, ?_⟩
    · simp [List.getElem?_set, hlt, TableCell.setItem]
    · simp [setCell]
    · intro j hj
      exact List.getElem?_set_ne (fun e => hj e.symm)
    · intro m hm
      simp [setCell, hm]
  · intro hmiss
    rw [hg, groupNodeItemLoop_miss n groupPos sc.nodeItems sc.table.cells hmiss]
    exact ⟨rfl, rfl⟩

theorem groupNodeItem_hit_test_witness :
    ((groupNodeItem (some 7) true ⟨200, 50⟩ dropScene).table.cells[1]? =
        some { dropCell1 with item := some 7 } ∧
      ((groupNodeItem (some 7) true ⟨200, 50⟩ dropScene).nodeItems 7).cell = some 1 ∧
      (groupNodeItem (some 7) true ⟨200, 50⟩ dropScene).table.cells[0]? = some dropCell0) ∧
    ((groupNodeItem (some 7) true ⟨400, 50⟩ dropScene).table.cells = [dropCell0, dropCell1] ∧
      ((groupNodeItem (some 7) true ⟨400, 50⟩ dropScene).nodeItems 7).cell = none) := by
  have hc : dropScene.table.container ≠ none := by decide
  obtain ⟨h1, h2, h3, _⟩ := (groupNodeItem_hit_test dropScene 7 ⟨200, 50⟩ hc).1 1 dropCell1 rfl
    dropCell1_contains_200_50 dropScene_first_hit_200_50
  obtain ⟨h4, h5⟩ := (groupNodeItem_hit_test dropScene 7 ⟨400, 50⟩ hc).2 dropScene_misses_400_50
  refine ⟨⟨h1, h2, ?_⟩, ?_, ?_⟩
  · rw [h3 0 (by decide)]; rfl
  · rw [h4]; rfl
  · rw [h5]; rfl

/-- Claim C10. For every node item (in particular one that was attached to a cell), both values
of `transform` and every table whose graph has a top-level container item,
`ungroupNodeItem(nodeItem, transform)` leaves the node with a null cell back-reference and
with `draggable = droppable = selectable = true`, whatever the flags were before. -/
theorem ungroupNodeItem_clears_cell_and_restores_flags (sc : Scene) (n : Nat)
    (transform : Bool) (nodeGlobalPos : QPointF) (graph : Graph) (containerItem : Nat)
    (hg : sc.table.graph = some graph) (hci : graph.containerItem = some containerItem) :
    ((ungroupNodeItem (some n) transform nodeGlobalPos sc).nodeItems n).cell = none ∧
    ((ungroupNodeItem (some n) transform nodeGlobalPos sc).nodeItems n).draggable = true ∧
    ((ungroupNodeItem (some n) transform nodeGlobalPos sc).nodeItems n).droppable = true ∧
    ((ungroupNodeItem (some n) transform nodeGlobalPos sc).nodeItems n).selectable = true := by
  simp [ungroupNodeItem, hg, hci]

theorem ungroupNodeItem_clears_cell_and_restores_flags_witness :
    ((groupNodeItem (some 7) true ⟨200, 50⟩ dropScene).nodeItems 7).cell = some 1 ∧
    ((groupNodeItem (some 7) true ⟨200, 50⟩ dropScene).nodeItems 7).draggable = false ∧
    (∀ transform : Bool,
      ((ungroupNodeItem (some 7) transform ⟨200, 50⟩
        (groupNodeItem (some 7) true ⟨200, 50⟩ dropScene)).nodeItems 7).cell = none ∧
      ((ungroupNodeItem (some 7) transform ⟨200, 50⟩
        (groupNodeItem (some 7) true ⟨200, 50⟩ dropScene)).nodeItems 7).draggable = true ∧
      ((ungroupNodeItem (some 7) transform ⟨200, 50⟩
        (groupNodeItem (some 7) true ⟨200, 50⟩ dropScene)).nodeItems 7).droppable = true ∧
      ((ungroupNodeItem (some 7) transform ⟨200, 50⟩
        (groupNodeItem (some 7) true ⟨200, 50⟩ dropScene)).nodeItems 7).selectable = true) := by
  have hc : dropScene.table.container ≠ none := by decide
  have hgrp : groupNodeItem (some 7) true ⟨200, 50⟩ dropScene =
      { table := { dropScene.table with cells := [dropCell0, dropCell1.setItem (some 7)] },
        nodeItems := setCell dropScene.nodeItems 7 (some 1) } := by
    simp only [groupNodeItem, if_neg hc, if_true]
    rw [groupNodeItemLoop_hit 7 ⟨200, 50⟩ dropScene.nodeItems dropScene.table.cells 1 dropCell1
      rfl dropCell1_contains_200_50 dropScene_first_hit_200_50]
    rfl
  refine ⟨by rw [hgrp]; rfl, by rw [hgrp]; rfl, fun transform =>
    ungroupNodeItem_clears_cell_and_restores_flags _ 7 transform ⟨200, 50⟩
      { containerItem := some 200 } 200 (by rw [hgrp]; rfl) rfl⟩

/-! ## Frame and idempotence of the layout pass -/

theorem modifyAt_map_forgetGeometry (f : TableBorder → TableBorder)
    (hf : ∀ b, (f b).forgetGeometry = b.forgetGeometry) (i : Nat) (bs : List TableBorder) :
    (modifyAt f i bs).map TableBorder.forgetGeometry = bs.map TableBorder.forgetGeometry := by
  apply List.ext_getElem?
  intro k
  simp only [List.getElem?_map, modifyAt_getElem?]
  split
  · cases bs[k]? with
    | none => rfl
    | some b => simp [hf]
  · rfl

theorem forEachBorder_map_forgetGeometry (body : Int → TableBorder → TableBorder)
    (hbody : ∀ i b, (body i b).forgetGeometry = b.forgetGeometry) :
    ∀ (n : Nat) (i : Int) (bs : List TableBorder),
      (forEachBorder body n i bs).map TableBorder.forgetGeometry =
        bs.map TableBorder.forgetGeometry := by
  intro n
  induction n with
  | zero => intro i bs; rfl
  | succ n ih =>
    intro i bs
    rw [forEachBorder, ih, modifyAt_map_forgetGeometry _ (hbody i)]

theorem forEachBorder_idem (body : Int → TableBorder → TableBorder)
    (hbody : ∀ i b, body i (body i b) = body i b) (n : Nat) (bs : List TableBorder) :
    forEachBorder body n 1 (forEachBorder body n 1 bs) = forEachBorder body n 1 bs := by
  apply List.ext_getElem?
  intro k
  rw [forEachBorder_getElem? body n 1 _ k (le_refl 1),
    forEachBorder_getElem? body n 1 bs k (le_refl 1)]
  split
  · cases bs[k]? with
    | none => rfl
    | some b => simp [hbody]
  · rfl

theorem layoutVerticalBorder_idem (P S cw H : qreal) (c : Int) (b : TableBorder) :
    layoutVerticalBorder P S cw H c (layoutVerticalBorder P S cw H c b) =
      layoutVerticalBorder P S cw H c b := rfl

theorem layoutHorizontalBorder_idem (P S ch W : qreal) (r : Int) (b : TableBorder) :
    layoutHorizontalBorder P S ch W r (layoutHorizontalBorder P S ch W r b) =
      layoutHorizontalBorder P S ch W r b := rfl

theorem layoutTable_cases (s : TableGroupItem) :
    layoutTable s = s ∨
      ∃ tg, s.tableGroup = some tg ∧ ¬ returnsEarly s tg ∧ layoutTable s = laidOut s tg := by
  obtain ⟨self, z, width, height, container, tableGroup, graph, cells, vb, hb, fresh⟩ := s
  cases tableGroup with
  | none => left; rfl
  | some tg =>
    by_cases h1 : tg.cols ≤ 0 ∨ tg.rows ≤ 0
    · left; simp only [layoutTable, if_pos h1]
    · by_cases h2 : tg.cellSpacing < 0 ∨ tg.tablePadding < 0
      · left; simp only [layoutTable, if_neg h1, if_pos h2]
      · by_cases h3 : cellWidth width tg.tablePadding tg.cellSpacing tg.cols < 0 ∨
            cellHeight height tg.tablePadding tg.cellSpacing tg.cols tg.rows < 0
        · left; simp only [layoutTable, if_neg h1, if_neg h2, if_pos h3]
        · right
          refine ⟨tg, rfl, ?_, ?_⟩
          · rintro (h | h | h)
            · exact h1 h
            · exact h2 h
            · exact h3 h
          · simp only [layoutTable, if_neg h1, if_neg h2, if_neg h3, laidOut]
            by_cases hv : (vb.length : Int) = tg.cols - 1 <;>
              by_cases hh : (hb.length : Int) = tg.rows - 1 <;>
              simp [hv, hh]

theorem laidOut_idem (s : TableGroupItem) (tg : TableGroup) :
    laidOut (laidOut s tg) tg = laidOut s tg := by
  obtain ⟨self, z, width, height, container, tableGroup, graph, cells, vb, hb, fresh⟩ := s
  simp only [laidOut]
  by_cases hv : (vb.length : Int) = tg.cols - 1 <;>
    by_cases hh : (hb.length : Int) = tg.rows - 1 <;>
    simp [hv, hh, forEachBorder_length,
      forEachBorder_idem _ (layoutVerticalBorder_idem _ _ _ _),
      forEachBorder_idem _ (layoutHorizontalBorder_idem _ _ _ _)]

/-- Claim C18. `layoutTable()` is idempotent: for every table state (whatever `W`, `H`, `P`,
`S`, `R`, `C` it holds, early returns included), a second call in a row leaves the state, and
so the `x`, `y`, width and height of every vertical and horizontal border, exactly as the
first call left it. -/
theorem layoutTable_idempotent (s : TableGroupItem) :
    layoutTable (layoutTable s) = layoutTable s := by
  rcases layoutTable_cases s with h | ⟨tg, hg, _, h⟩
  · rw [h, h]
  · rw [h]
    rcases layoutTable_cases (laidOut s tg) with h2 | ⟨tg2, hg2, _, h2⟩
    · exact h2
    · have htg : tg2 = tg := by
        have : (laidOut s tg).tableGroup = some tg := hg
        rw [this] at hg2
        exact (Option.some.inj hg2).symm
      rw [h2, htg, laidOut_idem]

/-- The statements of `layoutTable()` taken alone, without the reaction of the borders they
update: the cell vector and every field of the item but the two border vectors are unchanged,
and the borders are unchanged once their `x`, `y`, width and height are set aside. -/
theorem layoutTable_setters_frame (s : TableGroupItem) :
    (layoutTable s).cells = s.cells ∧
    { layoutTable s with
      verticalBorders := s.verticalBorders, horizontalBorders := s.horizontalBorders } = s ∧
    (layoutTable s).verticalBorders.map TableBorder.forgetGeometry =
      s.verticalBorders.map TableBorder.forgetGeometry ∧
    (layoutTable s).horizontalBorders.map TableBorder.forgetGeometry =
      s.horizontalBorders.map TableBorder.forgetGeometry := by
  rcases layoutTable_cases s with h | ⟨tg, _, _, h⟩
  · rw [h]
    exact ⟨rfl, rfl, rfl, rfl⟩
  · rw [h]
    refine ⟨rfl, rfl, ?_, ?_⟩
    · simp only [laidOut]
      split
      · exact forEachBorder_map_forgetGeometry (layoutVerticalBorder _ _ _ _)
          (fun _ _ => rfl) _ _ _
      · rfl
    · simp only [laidOut]
      split
      · exact forEachBorder_map_forgetGeometry (layoutHorizontalBorder _ _ _ _)
          (fun _ _ => rfl) _ _ _
      · rfl

/-- Claim C16. For every node item (null included) and both values of `transform`,
`ungroupNodeItem` on a table that has no graph, or whose graph has no top-level container
item, is a no-op: the scene (the node's parent, position, `z`, flags and cell back-reference,
and every cell's attached item) is unchanged. -/
theorem ungroupNodeItem_no_container_noop (sc : Scene) (nodeItem : Option Nat)
    (transform : Bool) (nodeGlobalPos : QPointF)
    (h : sc.table.graph = none ∨ sc.table.graph = some { containerItem := none }) :
    ungroupNodeItem nodeItem transform nodeGlobalPos sc = sc := by
  cases nodeItem with
  | none => rfl
  | some n =>
    rcases h with h | h
    · simp [ungroupNodeItem, h]
    · simp [ungroupNodeItem, h]

theorem ungroupNodeItem_no_container_noop_witness :
    (∀ transform : Bool,
      ungroupNodeItem (some 7) transform ⟨200, 50⟩ noGraphScene = noGraphScene) ∧
    (∀ transform : Bool,
      ungroupNodeItem (some 7) transform ⟨200, 50⟩ noContainerItemScene =
        noContainerItemScene) :=
  ⟨fun transform =>
      ungroupNodeItem_no_container_noop noGraphScene (some 7) transform ⟨200, 50⟩ (Or.inl rfl),
    fun transform =>
      ungroupNodeItem_no_container_noop noContainerItemScene (some 7) transform ⟨200, 50⟩
        (Or.inr rfl)⟩

/-! ## Closed form of the border creation loops -/

theorem borderChain_succ (o : Orientation) (parent f k : Nat) :
    (match prevOf f k with
      | some p => setNextBorderAt p (f + k)
          (borderChain o parent f k ++ [newBorder (f + k) o parent (prevOf f k)])
      | none => borderChain o parent f k ++ [newBorder (f + k) o parent (prevOf f k)]) =
    borderChain o parent f (k + 1) := by
  cases k with
  | zero => simp [prevOf, borderChain, chainBorder, newBorder, List.range_succ]
  | succ k =>
    have hp : prevOf f (k + 1) = some (f + k) := by simp [prevOf]
    rw [hp]
    simp only [borderChain, setNextBorderAt, List.map_append, List.map_map, List.map_cons,
      List.map_nil]
    rw [List.range_succ (n := k + 1), List.map_append, List.map_cons, List.map_nil]
    congr 1
    · apply List.map_congr_left
      intro i hi
      have hi1 : i < k + 1 := List.mem_range.1 hi
      by_cases hik : i = k
      · subst hik
        simp [chainBorder, newBorder, Nat.add_assoc]
      · have h1 : i + 1 < k + 1 := by omega
        have h2 : i + 1 < k + 1 + 1 := by omega
        have h3 : f + i ≠ f + k := by omega
        simp [chainBorder, newBorder, h1, h2, h3]
    · have h3 : f + (k + 1) ≠ f + k := by omega
      simp [chainBorder, newBorder, h3, hp]

theorem createBordersLoop_chain (env : QmlEnv) (o : Orientation) (parent : Nat)
    (hctx : env.context = true) (hready : env.borderComponent.isReady = true)
    (hinst : ∀ n, env.borderComponent.instantiate n = true) (f : Nat) :
    ∀ (n k : Nat),
      createBordersLoop env o parent n (prevOf f k) (borderChain o parent f k, f + k) =
        (borderChain o parent f (k + n), f + (k + n)) := by
  intro n
  induction n with
  | zero => intro k; rfl
  | succ n ih =>
    intro k
    rw [createBordersLoop, createFromComponent_ok env _ _ hctx hready hinst]
    simp only []
    rw [borderChain_succ]
    have hprev : some (f + k) = prevOf f (k + 1) := by simp [prevOf]
    rw [hprev, show f + k + 1 = f + (k + 1) from rfl, ih (k + 1)]
    congr 2 <;> omega

/-! ## Closed form of the rebuild -/

theorem createBordersLoop_chain_from_empty (env : QmlEnv) (o : Orientation) (parent : Nat)
    (hctx : env.context = true) (hready : env.borderComponent.isReady = true)
    (hinst : ∀ n, env.borderComponent.instantiate n = true) (f n : Nat) :
    createBordersLoop env o parent n none ([], f) = (borderChain o parent f n, f + n) := by
  have h := createBordersLoop_chain env o parent hctx hready hinst f n 0
  simpa [prevOf, borderChain] using h

theorem borderChain_zero (o : Orientation) (parent f : Nat) : borderChain o parent f 0 = [] :=
  rfl

theorem borderChain_length (o : Orientation) (parent f n : Nat) :
    (borderChain o parent f n).length = n := by
  simp [borderChain]

theorem createBorders_chain (env : QmlEnv) (henv : env.allSucceed) (v h : Int) (hv : 0 ≤ v)
    (hh : 0 ≤ h) (s : TableGroupItem) (hsv : s.verticalBorders = [])
    (hsh : s.horizontalBorders = []) :
    createBorders env v h s =
      { s with
        verticalBorders :=
          borderChain Orientation.Vertical s.parentForChildren s.fresh v.toNat
        horizontalBorders :=
          borderChain Orientation.Horizontal s.parentForChildren (s.fresh + v.toNat) h.toNat
        fresh := s.fresh + v.toNat + h.toNat } := by
  obtain ⟨heng, hctx, _, hready, _, hinst⟩ := henv
  obtain ⟨self, z, width, height, container, tableGroup, graph, cells, vb, hb, fresh⟩ := s
  simp only at hsv hsh
  subst hsv hsh
  have hneg : ¬ (v < 0 ∨ h < 0) := by omega
  unfold createBorders
  rw [if_neg hneg]
  simp only [heng, Bool.not_true, Bool.false_eq_true, if_false, List.length_nil, Nat.cast_zero,
    ne_eq, createBordersLoop_chain_from_empty env _ _ hctx hready hinst,
    TableGroupItem.parentForChildren]
  by_cases hv0 : v = 0 <;> by_cases hh0 : h = 0
  · subst hv0 hh0
    simp [borderChain_zero]
  · subst hv0
    simp [hh0, borderChain_zero, createBordersLoop_chain_from_empty env _ _ hctx hready hinst]
  · subst hh0
    simp [hv0, borderChain_zero, createBordersLoop_chain_from_empty env _ _ hctx hready hinst]
  · simp [hv0, hh0, createBordersLoop_chain_from_empty env _ _ hctx hready hinst]

theorem wireVerticalBorders_eq (cells : List TableCell) (rows cols : Int)
    (hlen : (cells.length : Int) ≤ 2147483648) :
    ∀ (bs : List TableBorder) (c : Int), 1 ≤ c →
      (∀ j : Nat, j < bs.length → ∀ i : Nat, i < rows.toNat →
        0 ≤ (0 + i) * cols ∧ (0 + i) * cols + (c + j) < (cells.length : Int)) →
      wireVerticalBorders cells rows cols c bs = some (wiredVerticalAll cells rows cols c bs) := by
  intro bs
  induction bs with
  | nil => intro c _ _; rfl
  | cons b bs ih =>
    intro c hc h
    have hb := wireVerticalBorder_ok cells cols c hlen hc rows.toNat 0 b (by
      intro i hi
      simpa using h 0 (by simp) i hi)
    have hrest := ih (c + 1) (by omega) (by
      intro j hj i hi
      have := h (j + 1) (by simpa using hj) i hi
      push_cast at this
      rw [add_assoc, add_comm (1 : Int)]
      exact this)
    rw [wireVerticalBorders, hb]
    simp only [hrest, wiredVerticalAll]

theorem wireHorizontalBorders_eq (cells : List TableCell) (cols r : Int)
    (hlen : (cells.length : Int) ≤ 2147483648) (hr : 1 ≤ r) (hr2 : r ≤ 2147483648) :
    ∀ (bs : List TableBorder),
      (bs ≠ [] → ∀ i : Nat, i < cols.toNat →
        0 ≤ (r - 1) * cols ∧ 0 ≤ r * cols ∧ (0 : Int) ≤ 0 + i ∧
        r * cols + (0 + i) < (cells.length : Int) ∧
        (r - 1) * cols + (0 + i) < (cells.length : Int)) →
      wireHorizontalBorders cells cols r bs = some (wiredHorizontalAll cells cols r bs) := by
  intro bs
  induction bs with
  | nil => intro _; rfl
  | cons b bs ih =>
    intro h
    have h1 := h (by simp)
    have hb := wireHorizontalBorder_ok cells cols r hlen hr hr2 cols.toNat 0 b h1
    have hrest := ih (fun _ => h1)
    rw [wireHorizontalBorders, hb]
    simp only [hrest, wiredHorizontalAll, List.map_cons]

theorem builtCells_length (f parent n : Nat) : (builtCells f parent n).length = n := by
  simp [builtCells]

theorem initializeTable_eq_built (env : QmlEnv) (henv : env.allSucceed) (R C : Int)
    (hR : 0 < R) (hC : 0 < C) (hRC : R * C ≤ INT_MAX) (s : TableGroupItem) :
    initializeTable env R C s = some (builtTable s R C) := by
  have hpos : 0 < R * C := mul_pos hR hC
  have hmax := le_INT_MAX_of_mul R C hR hC hRC
  unfold INT_MAX at hRC hmax
  have hw1 : wrapInt (R * C) = R * C := wrapInt_eq _ (by omega) hRC
  have hw2 : wrapInt (C - 1) = C - 1 := wrapInt_eq _ (by omega) (by omega)
  have hw3 : wrapInt (R - 1) = R - 1 := wrapInt_eq _ (by omega) (by omega)
  have hguard : ¬ (R ≤ 0 ∨ C ≤ 0) := by omega
  have hcells := createCells_ok env henv.1 henv.2.1 henv.2.2.1 henv.2.2.2.2.1 (R * C) hpos
    (clearLayout s) rfl
  have hborders := createBorders_chain env henv (C - 1) (R - 1) (by omega) (by omega)
    (createCells env (R * C) (clearLayout s)) (by rw [hcells]; rfl) (by rw [hcells]; rfl)
  rw [hcells] at hborders
  rw [initializeTable, if_neg hguard]
  simp only [henv.1, Bool.not_true, Bool.false_eq_true, if_false, hw1, hw2, hw3]
  rw [hcells, hborders]
  simp only [clearLayout, TableGroupItem.parentForChildren]
  have hlen : ((builtCells s.fresh s.parentForChildren (R * C).toNat).length : Int) = R * C := by
    rw [builtCells_length]; omega
  rw [show (List.map (fun i => newCell (s.fresh + i)
      (match s.container with
        | some c => c
        | none => s.self)) (List.range (R * C).toNat)) =
      builtCells s.fresh s.parentForChildren (R * C).toNat from rfl]
  rw [wireVerticalBorders_eq (builtCells s.fresh s.parentForChildren (R * C).toNat) R C
    (by rw [hlen]; omega) _ 1 (le_refl 1) (by
    intro j hj i hi
    rw [borderChain_length] at hj
    rw [hlen]
    have hj1 : (j : Int) + 1 < C := by omega
    have hi1 : (i : Int) + 1 ≤ R := by omega
    have hi0 : (0 : Int) ≤ i := Int.ofNat_nonneg i
    have hj0 : (0 : Int) ≤ j := Int.ofNat_nonneg j
    constructor
    · nlinarith
    · nlinarith)]
  simp only []
  rw [wireHorizontalBorders_eq (builtCells s.fresh s.parentForChildren (R * C).toNat) C 1
    (by rw [hlen]; omega) (le_refl 1) (by norm_num) _ (by
    intro hne i hi
    have hpos2 := List.length_pos.2 hne
    rw [borderChain_length] at hpos2
    rw [hlen]
    have hR2 : 2 ≤ R := by omega
    have hi1 : (i : Int) < C := by omega
    have hi0 : (0 : Int) ≤ i := Int.ofNat_nonneg i
    refine ⟨by nlinarith, by nlinarith, by omega, by nlinarith, by nlinarith⟩)]
  rfl

/-! ## Border chains of a rebuilt table -/

theorem borderChain_links (o : Orientation) (parent f n : Nat) :
    (borderChain o parent f n).map TableBorder.links = chainLinks f n := by
  simp only [borderChain, chainLinks, List.map_map]
  apply List.map_congr_left
  intro i _
  simp [TableBorder.links, chainBorder, newBorder]

theorem wiredVerticalAll_links (cells : List TableCell) (rows cols : Int) :
    ∀ (bs : List TableBorder) (c : Int),
      (wiredVerticalAll cells rows cols c bs).map TableBorder.links =
        bs.map TableBorder.links := by
  intro bs
  induction bs with
  | nil => intro c; rfl
  | cons b bs ih =>
    intro c
    simp only [wiredVerticalAll, List.map_cons, ih]
    rfl

theorem wiredHorizontalAll_links (cells : List TableCell) (cols r : Int)
    (bs : List TableBorder) :
    (wiredHorizontalAll cells cols r bs).map TableBorder.links = bs.map TableBorder.links := by
  simp only [wiredHorizontalAll, List.map_map]
  apply List.map_congr_left
  intro b _
  rfl

theorem chainLinks_getElem? (f n k : Nat) :
    (chainLinks f n)[k]? =
      if k < n then some (f + k, prevOf f k, if k + 1 < n then some (f + k + 1) else none)
      else none := by
  unfold chainLinks
  by_cases hk : k < n
  · rw [if_pos hk, getElem?_range_map _ _ _ hk]
  · rw [if_neg hk]
    apply List.getElem?_eq_none
    simp only [List.length_map, List.length_range]
    omega

theorem links_getElem? (L : List TableBorder) (f n : Nat)
    (hL : L.map TableBorder.links = chainLinks f n) (k : Nat) :
    (L[k]?).map TableBorder.links =
      if k < n then some (f + k, prevOf f k, if k + 1 < n then some (f + k + 1) else none)
      else none := by
  rw [← chainLinks_getElem?, ← hL, List.getElem?_map]

theorem ref_getElem? (L : List TableBorder) (f n : Nat)
    (hL : L.map TableBorder.links = chainLinks f n) (k : Nat) :
    (L[k]?).map TableBorder.ref = if k < n then some (f + k) else none := by
  have h := links_getElem? L f n hL k
  cases hk : L[k]? with
  | none =>
    rw [hk] at h
    by_cases hkn : k < n
    · rw [if_pos hkn] at h; cases h
    · rw [if_neg hkn]; rfl
  | some b =>
    rw [hk] at h
    by_cases hkn : k < n
    · rw [if_pos hkn] at h
      rw [if_pos hkn]
      simp only [Option.map_some', Option.some.injEq, TableBorder.links, Prod.mk.injEq] at h
      simp [h.1]
    · rw [if_neg hkn] at h; cases h

theorem chain_of_links (L : List TableBorder) (f n : Nat)
    (hL : L.map TableBorder.links = chainLinks f n) (i : Nat) (b : TableBorder)
    (hb : L[i]? = some b) :
    i < n ∧ b.ref = f + i ∧
    b.prevBorder = (if i = 0 then none else (L[i - 1]?).map TableBorder.ref) ∧
    b.nextBorder = (L[i + 1]?).map TableBorder.ref := by
  have h := links_getElem? L f n hL i
  rw [hb] at h
  by_cases hin : i < n
  · rw [if_pos hin] at h
    simp only [Option.map_some', Option.some.injEq, TableBorder.links, Prod.mk.injEq] at h
    obtain ⟨h1, h2, h3⟩ := h
    refine ⟨hin, h1, ?_, ?_⟩
    · rw [h2]
      by_cases hi0 : i = 0
      · simp [prevOf, hi0]
      · have hlt : i - 1 < n := by omega
        rw [ref_getElem? L f n hL (i - 1), if_pos hlt, if_neg hi0]
        simp only [prevOf, if_neg hi0]
        congr 1
        omega
    · rw [h3, ref_getElem? L f n hL (i + 1)]
      by_cases hlt : i + 1 < n
      · rw [if_pos hlt, if_pos hlt]; rfl
      · rw [if_neg hlt, if_neg hlt]
  · rw [if_neg hin] at h; cases h

theorem builtTable_vertical_links (s : TableGroupItem) (R C : Int) :
    (builtTable s R C).verticalBorders.map TableBorder.links =
      chainLinks (s.fresh + (R * C).toNat) (C - 1).toNat := by
  simp only [builtTable]
  rw [wiredVerticalAll_links, borderChain_links]

theorem builtTable_horizontal_links (s : TableGroupItem) (R C : Int) :
    (builtTable s R C).horizontalBorders.map TableBorder.links =
      chainLinks (s.fresh + (R * C).toNat + (C - 1).toNat) (R - 1).toNat := by
  simp only [builtTable]
  rw [wiredHorizontalAll_links, borderChain_links]

theorem chainLinks_refs (f n : Nat) :
    (chainLinks f n).map Prod.fst = (List.range n).map fun i => f + i := by
  simp [chainLinks, List.map_map, Function.comp_def]

theorem refs_of_links (L : List TableBorder) (f n : Nat)
    (hL : L.map TableBorder.links = chainLinks f n) :
    L.map TableBorder.ref = (List.range n).map fun i => f + i := by
  rw [← chainLinks_refs, ← hL, List.map_map]
  rfl

theorem mem_of_links (L : List TableBorder) (f n : Nat)
    (hL : L.map TableBorder.links = chainLinks f n) (b : TableBorder) (hb : b ∈ L) :
    ∃ i, i < n ∧ b.ref = f + i ∧ b.prevBorder = prevOf f i ∧
      b.nextBorder = (if i + 1 < n then some (f + i + 1) else none) := by
  obtain ⟨i, hi⟩ := List.mem_iff_getElem?.1 hb
  have h := links_getElem? L f n hL i
  rw [hi] at h
  by_cases hin : i < n
  · rw [if_pos hin] at h
    simp only [Option.map_some', Option.some.injEq, TableBorder.links, Prod.mk.injEq] at h
    exact ⟨i, hin, h.1, h.2.1, h.2.2⟩
  · rw [if_neg hin] at h; cases h

theorem builtTable_border_refs_nodup (s : TableGroupItem) (R C : Int) :
    (((builtTable s R C).verticalBorders ++
      (builtTable s R C).horizontalBorders).map TableBorder.ref).Nodup := by
  rw [List.map_append, refs_of_links _ _ _ (builtTable_vertical_links s R C),
    refs_of_links _ _ _ (builtTable_horizontal_links s R C)]
  have e : ((List.range (C - 1).toNat).map fun i => s.fresh + (R * C).toNat + i) ++
      ((List.range (R - 1).toNat).map fun i => s.fresh + (R * C).toNat + (C - 1).toNat + i) =
      (List.range ((C - 1).toNat + (R - 1).toNat)).map fun i => s.fresh + (R * C).toNat + i := by
    rw [List.range_add, List.map_append, List.map_map]
    congr 1
    apply List.map_congr_left
    intro i _
    simp [Nat.add_assoc]
  rw [e]
  exact (List.nodup_range _).map (fun a b hab => by simpa using hab)

/-- Claim C12. After a successful `initialize(R, C)` the borders of each orientation form
one chain in creation order: in the vector of vertical borders (and likewise in the vector of
horizontal borders) the `prevBorder` of the first border is null, the `prevBorder` of border
`i` is the border before it, the `nextBorder` of border `i` is the border after it and the
`nextBorder` of the last border is null.  All borders have distinct addresses, and no
vertical border is linked to a horizontal border or vice versa.
A successful `initialize` is a call that returns, every instantiation succeeding: the second
part holds for every state `t` such a call returns, for all positive `int` arguments `R` and
`C`; the first part says that the call returns exactly when `R * C` fits an `int`. -/
theorem initialize_border_chains (env : QmlEnv) (henv : env.allSucceed) (R C : Int)
    (hR : 0 < R) (hC : 0 < C) (hRmax : R ≤ INT_MAX) (hCmax : C ≤ INT_MAX)
    (s : TableGroupItem) :
    ((∃ t, initializeTable env R C s = some t) ↔ R * C ≤ INT_MAX) ∧
    ∀ t, initializeTable env R C s = some t →
      (∀ (i : Nat) (b : TableBorder), t.verticalBorders[i]? = some b →
        b.prevBorder =
          (if i = 0 then none else (t.verticalBorders[i - 1]?).map TableBorder.ref) ∧
        b.nextBorder = (t.verticalBorders[i + 1]?).map TableBorder.ref) ∧
      (∀ (i : Nat) (b : TableBorder), t.horizontalBorders[i]? = some b →
        b.prevBorder =
          (if i = 0 then none else (t.horizontalBorders[i - 1]?).map TableBorder.ref) ∧
        b.nextBorder = (t.horizontalBorders[i + 1]?).map TableBorder.ref) ∧
      ((t.verticalBorders ++ t.horizontalBorders).map TableBorder.ref).Nodup ∧
      (∀ v ∈ t.verticalBorders, ∀ h ∈ t.horizontalBorders,
        v.prevBorder ≠ some h.ref ∧ v.nextBorder ≠ some h.ref ∧
        h.prevBorder ≠ some v.ref ∧ h.nextBorder ≠ some v.ref) := by
  refine ⟨initializeTable_returns_iff env henv R C hR hC hRmax hCmax s, ?_⟩
  intro t ht
  have hRC := initializeTable_some_range env henv R C hR hC hRmax hCmax s t ht
  have htt : builtTable s R C = t := by
    rw [initializeTable_eq_built env henv R C hR hC hRC s] at ht
    exact Option.some.inj ht
  subst htt
  refine ⟨?_, ?_, builtTable_border_refs_nodup s R C, ?_⟩
  · intro i b hb
    exact (chain_of_links _ _ _ (builtTable_vertical_links s R C) i b hb).2.2
  · intro i b hb
    exact (chain_of_links _ _ _ (builtTable_horizontal_links s R C) i b hb).2.2
  · intro v hv h hh
    obtain ⟨i, hi, hvr, hvp, hvn⟩ := mem_of_links _ _ _ (builtTable_vertical_links s R C) v hv
    obtain ⟨j, hj, hhr, hhp, hhn⟩ :=
      mem_of_links _ _ _ (builtTable_horizontal_links s R C) h hh
    rw [hvr, hvp, hvn, hhr, hhp, hhn]
    refine ⟨?_, ?_, ?_, ?_⟩
    · unfold prevOf
      split
      · simp
      · simp only [ne_eq, Option.some.injEq]; omega
    · split
      · simp only [ne_eq, Option.some.injEq]; omega
      · simp
    · unfold prevOf
      split
      · simp
      · simp only [ne_eq, Option.some.injEq]; omega
    · split
      · simp only [ne_eq, Option.some.injEq]; omega
      · simp

theorem initialize_border_chains_witness :
    (initializeTable readyEnv 2 3 priorTable).map (fun t =>
      (t.verticalBorders.map TableBorder.links, t.horizontalBorders.map TableBorder.links)) =
      some ([(9, none, some 10), (10, some 9, none)], [(11, none, none)]) ∧
    ∃ t, initializeTable readyEnv 2 3 priorTable = some t ∧
      (∀ (i : Nat) (b : TableBorder), t.verticalBorders[i]? = some b →
        b.prevBorder =
          (if i = 0 then none else (t.verticalBorders[i - 1]?).map TableBorder.ref) ∧
        b.nextBorder = (t.verticalBorders[i + 1]?).map TableBorder.ref) ∧
      (∀ (i : Nat) (b : TableBorder), t.horizontalBorders[i]? = some b →
        b.prevBorder =
          (if i = 0 then none else (t.horizontalBorders[i - 1]?).map TableBorder.ref) ∧
        b.nextBorder = (t.horizontalBorders[i + 1]?).map TableBorder.ref) ∧
      ((t.verticalBorders ++ t.horizontalBorders).map TableBorder.ref).Nodup ∧
      (∀ v ∈ t.verticalBorders, ∀ h ∈ t.horizontalBorders,
        v.prevBorder ≠ some h.ref ∧ v.nextBorder ≠ some h.ref ∧
        h.prevBorder ≠ some v.ref ∧ h.nextBorder ≠ some v.ref) := by
  have h := initialize_border_chains readyEnv readyEnv_allSucceed 2 3 (by decide)
    (by decide) (by decide) (by decide) priorTable
  obtain ⟨t, ht⟩ := h.1.2 (by decide)
  exact ⟨by decide, t, ht, h.2 t ht⟩

/-! ## The layout pass, border by border -/

theorem layoutTable_eq_laidOut (s : TableGroupItem) (tg : TableGroup)
    (hg : s.tableGroup = some tg) (hne : ¬ returnsEarly s tg) :
    layoutTable s = laidOut s tg := by
  obtain ⟨self, z, width, height, container, tableGroup, graph, cells, vb, hb, fresh⟩ := s
  simp only at hg
  subst hg
  simp only [returnsEarly, not_or] at hne
  obtain ⟨h1, h2, h3⟩ := hne
  have g1 : ¬ (tg.cols ≤ 0 ∨ tg.rows ≤ 0) := fun h => h.elim h1.1 h1.2
  have g2 : ¬ (tg.cellSpacing < 0 ∨ tg.tablePadding < 0) := fun h => h.elim h2.1 h2.2
  have g3 : ¬ (cellWidth width tg.tablePadding tg.cellSpacing tg.cols < 0 ∨
      cellHeight height tg.tablePadding tg.cellSpacing tg.cols tg.rows < 0) :=
    fun h => h.elim h3.1 h3.2
  simp only [layoutTable, if_neg g1, if_neg g2, if_neg g3, laidOut]
  by_cases hv : (vb.length : Int) = tg.cols - 1 <;>
    by_cases hh : (hb.length : Int) = tg.rows - 1 <;>
    simp [hv, hh]

theorem cellWidth_of_pos (W P S : qreal) (C : Int) (hW : 0 < W) :
    cellWidth W P S C = (W - 2 * P - ((C : qreal) - 1) * S) / (C : qreal) := by
  simp [cellWidth, hW]

theorem cellHeight_of_pos (H P S : qreal) (C R : Int) (hH : 0 < H) :
    cellHeight H P S C R = (H - 2 * P - ((C : qreal) - 1) * S) / (R : qreal) := by
  simp [cellHeight, hH]

theorem not_returnsEarly_of_valid (s : TableGroupItem) (R C : Int) (P S : qreal)
    (hR : 0 < R) (hC : 0 < C) (hP : 0 ≤ P) (hS : 0 ≤ S) (hW : 0 < s.width) (hH : 0 < s.height)
    (hcw : 0 ≤ (s.width - 2 * P - ((C : qreal) - 1) * S) / (C : qreal))
    (hch : 0 ≤ (s.height - 2 * P - ((C : qreal) - 1) * S) / (R : qreal)) :
    ¬ returnsEarly s { rows := R, cols := C, cellSpacing := S, tablePadding := P } := by
  simp only [returnsEarly, cellWidth_of_pos _ _ _ _ hW, cellHeight_of_pos _ _ _ _ _ hH]
  rintro ((h | h) | (h | h) | (h | h))
  · omega
  · omega
  · exact absurd hS (not_le.2 h)
  · exact absurd hP (not_le.2 h)
  · exact absurd hcw (not_le.2 h)
  · exact absurd hch (not_le.2 h)

theorem laidOut_vertical_getElem? (s : TableGroupItem) (tg : TableGroup)
    (hn : (s.verticalBorders.length : Int) = tg.cols - 1) (c : Int) (hc1 : 1 ≤ c)
    (hc2 : c ≤ tg.cols - 1) :
    ∃ b0, s.verticalBorders[(c - 1).toNat]? = some b0 ∧
      (laidOut s tg).verticalBorders[(c - 1).toNat]? =
        some (layoutVerticalBorder tg.tablePadding tg.cellSpacing
          (cellWidth s.width tg.tablePadding tg.cellSpacing tg.cols) s.height c b0) := by
  have hk : (c - 1).toNat < s.verticalBorders.length := by omega
  have hin : ((1 : Int) - 1).toNat ≤ (c - 1).toNat ∧
      (c - 1).toNat < ((1 : Int) - 1).toNat + (tg.cols - 1).toNat := by
    constructor <;> omega
  have hck : (((c - 1).toNat : Nat) : Int) + 1 = c := by omega
  refine ⟨s.verticalBorders[(c - 1).toNat], List.getElem?_eq_getElem hk, ?_⟩
  simp only [laidOut, if_pos hn]
  rw [forEachBorder_getElem? _ _ _ _ _ (le_refl 1), if_pos hin, List.getElem?_eq_getElem hk,
    hck]
  rfl

theorem laidOut_horizontal_getElem? (s : TableGroupItem) (tg : TableGroup)
    (hn : (s.horizontalBorders.length : Int) = tg.rows - 1) (r : Int) (hr1 : 1 ≤ r)
    (hr2 : r ≤ tg.rows - 1) :
    ∃ b0, s.horizontalBorders[(r - 1).toNat]? = some b0 ∧
      (laidOut s tg).horizontalBorders[(r - 1).toNat]? =
        some (layoutHorizontalBorder tg.tablePadding tg.cellSpacing
          (cellHeight s.height tg.tablePadding tg.cellSpacing tg.cols tg.rows) s.width r b0) := by
  have hk : (r - 1).toNat < s.horizontalBorders.length := by omega
  have hin : ((1 : Int) - 1).toNat ≤ (r - 1).toNat ∧
      (r - 1).toNat < ((1 : Int) - 1).toNat + (tg.rows - 1).toNat := by
    constructor <;> omega
  have hrk : (((r - 1).toNat : Nat) : Int) + 1 = r := by omega
  refine ⟨s.horizontalBorders[(r - 1).toNat], List.getElem?_eq_getElem hk, ?_⟩
  simp only [laidOut, if_pos hn]
  rw [forEachBorder_getElem? _ _ _ _ _ (le_refl 1), if_pos hin, List.getElem?_eq_getElem hk,
    hrk]
  rfl

theorem layoutVerticalBorder_centre (P S cw H : qreal) (c : Int) (b : TableBorder) :
    (layoutVerticalBorder P S cw H c b).x + (layoutVerticalBorder P S cw H c b).width / 2 =
      P + ((c : qreal) - 1) * S + (c : qreal) * cw + S / 2 := by
  simp only [layoutVerticalBorder]
  push_cast
  ring

theorem layoutHorizontalBorder_centre (P S ch W : qreal) (r : Int) (b : TableBorder) :
    (layoutHorizontalBorder P S ch W r b).y + (layoutHorizontalBorder P S ch W r b).height / 2 =
      P + ((r : qreal) - 1) * S + (r : qreal) * ch + S / 2 := by
  simp only [layoutHorizontalBorder]
  push_cast
  ring

/-- Claim C14. In `layoutTable()` with otherwise valid inputs, if the number of vertical
borders differs from `cols - 1` the vertical borders are left unchanged while the horizontal
borders are still laid out by the normal formula when their count is `rows - 1`;
symmetrically, if the number of horizontal borders differs from `rows - 1` the horizontal
borders are left unchanged while the vertical borders are still laid out when their count is
`cols - 1`. -/
theorem layoutTable_border_count_mismatch (s : TableGroupItem) (R C : Int) (P S : qreal)
    (hg : s.tableGroup = some { rows := R, cols := C, cellSpacing := S, tablePadding := P })
    (hR : 0 < R) (hC : 0 < C) (hP : 0 ≤ P) (hS : 0 ≤ S) (hW : 0 < s.width) (hH : 0 < s.height)
    (hcw : 0 ≤ (s.width - 2 * P - ((C : qreal) - 1) * S) / (C : qreal))
    (hch : 0 ≤ (s.height - 2 * P - ((C : qreal) - 1) * S) / (R : qreal)) :
    ((s.verticalBorders.length : Int) ≠ C - 1 →
      (layoutTable s).verticalBorders = s.verticalBorders ∧
      ((s.horizontalBorders.length : Int) = R - 1 → ∀ r : Int, 1 ≤ r → r ≤ R - 1 →
        ∃ b, (layoutTable s).horizontalBorders[(r - 1).toNat]? = some b ∧
          b.height = 3 ∧
          b.y + b.height / 2 = P + ((r : qreal) - 1) * S +
            (r : qreal) * ((s.height - 2 * P - ((C : qreal) - 1) * S) / (R : qreal)) + S / 2 ∧
          b.x = 0 ∧ b.width = s.width)) ∧
    ((s.horizontalBorders.length : Int) ≠ R - 1 →
      (layoutTable s).horizontalBorders = s.horizontalBorders ∧
      ((s.verticalBorders.length : Int) = C - 1 → ∀ c : Int, 1 ≤ c → c ≤ C - 1 →
        ∃ b, (layoutTable s).verticalBorders[(c - 1).toNat]? = some b ∧
          b.width = 3 ∧
          b.x + b.width / 2 = P + ((c : qreal) - 1) * S +
            (c : qreal) * ((s.width - 2 * P - ((C : qreal) - 1) * S) / (C : qreal)) + S / 2 ∧
          b.y = 0 ∧ b.height = s.height)) := by
  have hlay := layoutTable_eq_laidOut s _ hg
    (not_returnsEarly_of_valid s R C P S hR hC hP hS hW hH hcw hch)
  rw [hlay]
  constructor
  · intro hv
    refine ⟨by simp only [laidOut, if_neg hv], ?_⟩
    intro hn r hr1 hr2
    obtain ⟨b0, _, hb⟩ := laidOut_horizontal_getElem? s ⟨R, C, S, P⟩ hn r hr1 hr2
    refine ⟨_, hb, rfl, ?_, rfl, rfl⟩
    rw [layoutHorizontalBorder_centre, cellHeight_of_pos _ _ _ _ _ hH]
  · intro hh
    refine ⟨by simp only [laidOut, if_neg hh], ?_⟩
    intro hn c hc1 hc2
    obtain ⟨b0, _, hb⟩ := laidOut_vertical_getElem? s ⟨R, C, S, P⟩ hn c hc1 hc2
    refine ⟨_, hb, rfl, ?_, rfl, rfl⟩
    rw [layoutVerticalBorder_centre, cellWidth_of_pos _ _ _ _ hW]

theorem layoutTable_border_count_mismatch_witness :
    ((layoutTable missingVerticalTable).verticalBorders =
        missingVerticalTable.verticalBorders ∧
      ∃ b, (layoutTable missingVerticalTable).horizontalBorders[0]? = some b ∧
        b.height = 3 ∧ b.y + b.height / 2 = 195 / 2 ∧ b.x = 0 ∧ b.width = 300) ∧
    ((layoutTable missingHorizontalTable).horizontalBorders = [] ∧
      ∃ b, (layoutTable missingHorizontalTable).verticalBorders[0]? = some b ∧
        b.width = 3 ∧ b.x + b.width / 2 = 599 / 6 ∧ b.y = 0 ∧ b.height = 200) := by
  have h1 := (layoutTable_border_count_mismatch missingVerticalTable 2 3 2 5 rfl (by decide)
    (by decide) (by norm_num) (by norm_num) (by norm_num [missingVerticalTable, sampleTable])
    (by norm_num [missingVerticalTable, sampleTable])
    (by norm_num [missingVerticalTable, sampleTable])
    (by norm_num [missingVerticalTable, sampleTable])).1 (by decide)
  have h2 := (layoutTable_border_count_mismatch missingHorizontalTable 2 3 2 5 rfl (by decide)
    (by decide) (by norm_num) (by norm_num) (by norm_num [missingHorizontalTable, sampleTable])
    (by norm_num [missingHorizontalTable, sampleTable])
    (by norm_num [missingHorizontalTable, sampleTable])
    (by norm_num [missingHorizontalTable, sampleTable])).2 (by decide)
  obtain ⟨b, hb1, hb2, hb3, hb4, hb5⟩ := h1.2 (by decide) 1 (by decide) (by decide)
  obtain ⟨b', hc1, hc2, hc3, hc4, hc5⟩ := h2.2 (by decide) 1 (by decide) (by decide)
  refine ⟨⟨h1.1, b, hb1, hb2, ?_, hb4, hb5⟩, ⟨h2.1, b', hc1, hc2, ?_, hc4, hc5⟩⟩
  · rw [hb3]; norm_num [missingVerticalTable, sampleTable]
  · rw [hc3]; norm_num [missingHorizontalTable, sampleTable]

/-- Claim C13, as the code has it.  With valid inputs (`R > 0`, `C > 0`, `P >= 0`, `S >= 0`,
`W > 0`, `H > 0`, computed cell width and height non-negative), when `layoutTable()` lays out
an axis the centre of border `c + 1` is the centre of border `c` plus `S + cellWidth` (plus
`S + cellHeight` for the horizontal borders): consecutive centres are ordered, and strictly so
exactly when the spacing or the cell size is positive. -/
theorem layoutTable_borders_ordered (s : TableGroupItem) (R C : Int) (P S : qreal)
    (hg : s.tableGroup = some { rows := R, cols := C, cellSpacing := S, tablePadding := P })
    (hR : 0 < R) (hC : 0 < C) (hP : 0 ≤ P) (hS : 0 ≤ S) (hW : 0 < s.width) (hH : 0 < s.height)
    (hcw : 0 ≤ (s.width - 2 * P - ((C : qreal) - 1) * S) / (C : qreal))
    (hch : 0 ≤ (s.height - 2 * P - ((C : qreal) - 1) * S) / (R : qreal)) :
    ((s.verticalBorders.length : Int) = C - 1 → ∀ c : Int, 1 ≤ c → c ≤ C - 2 →
      ∃ b1 b2, (layoutTable s).verticalBorders[(c - 1).toNat]? = some b1 ∧
        (layoutTable s).verticalBorders[c.toNat]? = some b2 ∧
        b2.x + b2.width / 2 = b1.x + b1.width / 2 +
          (S + (s.width - 2 * P - ((C : qreal) - 1) * S) / (C : qreal)) ∧
        b1.x + b1.width / 2 ≤ b2.x + b2.width / 2 ∧
        (b1.x + b1.width / 2 < b2.x + b2.width / 2 ↔
          0 < S ∨ 0 < (s.width - 2 * P - ((C : qreal) - 1) * S) / (C : qreal))) ∧
    ((s.horizontalBorders.length : Int) = R - 1 → ∀ r : Int, 1 ≤ r → r ≤ R - 2 →
      ∃ b1 b2, (layoutTable s).horizontalBorders[(r - 1).toNat]? = some b1 ∧
        (layoutTable s).horizontalBorders[r.toNat]? = some b2 ∧
        b2.y + b2.height / 2 = b1.y + b1.height / 2 +
          (S + (s.height - 2 * P - ((C : qreal) - 1) * S) / (R : qreal)) ∧
        b1.y + b1.height / 2 ≤ b2.y + b2.height / 2 ∧
        (b1.y + b1.height / 2 < b2.y + b2.height / 2 ↔
          0 < S ∨ 0 < (s.height - 2 * P - ((C : qreal) - 1) * S) / (R : qreal))) := by
  have hlay := layoutTable_eq_laidOut s _ hg
    (not_returnsEarly_of_valid s R C P S hR hC hP hS hW hH hcw hch)
  have key : ∀ a d : qreal, 0 ≤ d → (a ≤ a + (S + d) ∧ (a < a + (S + d) ↔ 0 < S ∨ 0 < d)) := by
    intro a d hd
    refine ⟨by linarith, ?_⟩
    constructor
    · intro h
      by_contra hcon
      simp only [not_or, not_lt] at hcon
      linarith [hcon.1, hcon.2]
    · rintro (h | h) <;> linarith
  rw [hlay]
  constructor
  · intro hn c hc1 hc2
    obtain ⟨b0, _, hb1⟩ := laidOut_vertical_getElem? s ⟨R, C, S, P⟩ hn c hc1 (by show _ ≤ C - 1; omega)
    obtain ⟨b0', _, hb2⟩ := laidOut_vertical_getElem? s ⟨R, C, S, P⟩ hn (c + 1) (by omega)
      (by show _ ≤ C - 1; omega)
    have e : (c + 1 - 1).toNat = c.toNat := by omega
    rw [e] at hb2
    have hstep : (layoutVerticalBorder P S (cellWidth s.width P S C) s.height (c + 1) b0').x +
        (layoutVerticalBorder P S (cellWidth s.width P S C) s.height (c + 1) b0').width / 2 =
        (layoutVerticalBorder P S (cellWidth s.width P S C) s.height c b0).x +
        (layoutVerticalBorder P S (cellWidth s.width P S C) s.height c b0).width / 2 +
          (S + (s.width - 2 * P - ((C : qreal) - 1) * S) / (C : qreal)) := by
      rw [layoutVerticalBorder_centre, layoutVerticalBorder_centre,
        cellWidth_of_pos _ _ _ _ hW]
      push_cast
      ring
    refine ⟨_, _, hb1, hb2, hstep, ?_, ?_⟩
    · rw [hstep]; exact (key _ _ hcw).1
    · rw [hstep]; exact (key _ _ hcw).2
  · intro hn r hr1 hr2
    obtain ⟨b0, _, hb1⟩ := laidOut_horizontal_getElem? s ⟨R, C, S, P⟩ hn r hr1
      (by show _ ≤ R - 1; omega)
    obtain ⟨b0', _, hb2⟩ := laidOut_horizontal_getElem? s ⟨R, C, S, P⟩ hn (r + 1) (by omega)
      (by show _ ≤ R - 1; omega)
    have e : (r + 1 - 1).toNat = r.toNat := by omega
    rw [e] at hb2
    have hstep :
        (layoutHorizontalBorder P S (cellHeight s.height P S C R) s.width (r + 1) b0').y +
        (layoutHorizontalBorder P S (cellHeight s.height P S C R) s.width (r + 1) b0').height / 2 =
        (layoutHorizontalBorder P S (cellHeight s.height P S C R) s.width r b0).y +
        (layoutHorizontalBorder P S (cellHeight s.height P S C R) s.width r b0).height / 2 +
          (S + (s.height - 2 * P - ((C : qreal) - 1) * S) / (R : qreal)) := by
      rw [layoutHorizontalBorder_centre, layoutHorizontalBorder_centre,
        cellHeight_of_pos _ _ _ _ _ hH]
      push_cast
      ring
    refine ⟨_, _, hb1, hb2, hstep, ?_, ?_⟩
    · rw [hstep]; exact (key _ _ hch).1
    · rw [hstep]; exact (key _ _ hch).2

theorem layoutTable_borders_ordered_witness :
    ∃ b1 b2, (layoutTable sampleTable).verticalBorders[0]? = some b1 ∧
      (layoutTable sampleTable).verticalBorders[1]? = some b2 ∧
      b2.x + b2.width / 2 = b1.x + b1.width / 2 + (5 + 286 / 3) ∧
      b1.x + b1.width / 2 < b2.x + b2.width / 2 := by
  obtain ⟨b1, b2, h1, h2, h3, _, h5⟩ := (layoutTable_borders_ordered sampleTable 2 3 2 5 rfl
    (by decide) (by decide) (by norm_num) (by norm_num) (by norm_num [sampleTable])
    (by norm_num [sampleTable]) (by norm_num [sampleTable]) (by norm_num [sampleTable])).1
    (by decide) 1 (by decide) (by decide)
  refine ⟨b1, b2, h1, h2, ?_, h5.2 (Or.inl (by norm_num))⟩
  rw [h3]; norm_num [sampleTable]

theorem wiredVerticalAll_length (cells : List TableCell) (rows cols : Int) :
    ∀ (bs : List TableBorder) (c : Int),
      (wiredVerticalAll cells rows cols c bs).length = bs.length := by
  intro bs
  induction bs with
  | nil => intro c; rfl
  | cons b bs ih => intro c; simp [wiredVerticalAll, ih]

theorem builtTable_vertical_length (s : TableGroupItem) (R C : Int) :
    (builtTable s R C).verticalBorders.length = (C - 1).toNat := by
  simp only [builtTable]
  rw [wiredVerticalAll_length, borderChain_length]

theorem builtTable_horizontal_length (s : TableGroupItem) (R C : Int) :
    (builtTable s R C).horizontalBorders.length = (R - 1).toNat := by
  simp only [builtTable, wiredHorizontalAll, List.length_map]
  rw [borderChain_length]

/-- Claim C13, counterexample: `initialize(1, 3)` on a table item of width 4 and height 200
with padding 2 and no spacing.  The parameters are valid, the cell width is
`(4 - 4 - 0) / 3 = 0`, `layoutTable()` lays the vertical axis out (both borders get the width
3) and puts vertical borders 1 and 2 on the same centre `x = 2`: border 1 is not strictly
before border 2. -/
theorem layoutTable_borders_ordered_counterexample :
    ∃ t b1 b2, initializeTable readyEnv 1 3 flatTable = some t ∧
      (layoutTable t).verticalBorders[0]? = some b1 ∧
      (layoutTable t).verticalBorders[1]? = some b2 ∧
      b1.width = 3 ∧ b2.width = 3 ∧
      b1.x + b1.width / 2 = 2 ∧ b2.x + b2.width / 2 = 2 ∧
      ¬ (b1.x + b1.width / 2 < b2.x + b2.width / 2) := by
  have hg : (builtTable flatTable 1 3).tableGroup =
      some { rows := 1, cols := 3, cellSpacing := 0, tablePadding := 2 } := rfl
  have hW : (builtTable flatTable 1 3).width = 4 := rfl
  have hH : (builtTable flatTable 1 3).height = 200 := rfl
  have hlay := layoutTable_eq_laidOut (builtTable flatTable 1 3) _ hg
    (not_returnsEarly_of_valid _ 1 3 2 0 (by decide) (by decide) (by norm_num) (by norm_num)
      (by rw [hW]; norm_num) (by rw [hH]; norm_num) (by rw [hW]; norm_num)
      (by rw [hH]; norm_num))
  have hn : ((builtTable flatTable 1 3).verticalBorders.length : Int) = 3 - 1 := by
    rw [builtTable_vertical_length]; decide
  obtain ⟨b0, _, hb1⟩ := laidOut_vertical_getElem? (builtTable flatTable 1 3) ⟨1, 3, 0, 2⟩ hn 1
    (by decide) (by decide)
  obtain ⟨b0', _, hb2⟩ := laidOut_vertical_getElem? (builtTable flatTable 1 3) ⟨1, 3, 0, 2⟩ hn 2
    (by decide) (by decide)
  have hc1 : ∀ (c : Int) (b : TableBorder),
      (layoutVerticalBorder 2 0 (cellWidth (builtTable flatTable 1 3).width 2 0 3)
        (builtTable flatTable 1 3).height c b).x +
      (layoutVerticalBorder 2 0 (cellWidth (builtTable flatTable 1 3).width 2 0 3)
        (builtTable flatTable 1 3).height c b).width / 2 = 2 := by
    intro c b
    rw [layoutVerticalBorder_centre, hW, cellWidth_of_pos _ _ _ _ (by norm_num)]
    norm_num
  refine ⟨builtTable flatTable 1 3, _, _,
    initializeTable_eq_built readyEnv readyEnv_allSucceed 1 3 (by decide) (by decide) (by decide)
      flatTable,
    by rw [hlay]; exact hb1, by rw [hlay]; exact hb2, rfl, rfl, hc1 1 b0, hc1 2 b0', ?_⟩
  rw [hc1 1 b0, hc1 2 b0']
  exact lt_irrefl 2

/-! ## A table without borders -/

theorem forEachBorder_nil (body : Int → TableBorder → TableBorder) (n : Nat) (i : Int) :
    forEachBorder body n i [] = [] :=
  List.eq_nil_of_length_eq_zero (by rw [forEachBorder_length]; rfl)

theorem layoutTable_no_borders (s : TableGroupItem) (hv : s.verticalBorders = [])
    (hh : s.horizontalBorders = []) : layoutTable s = s := by
  rcases layoutTable_cases s with h | ⟨tg, _, _, h⟩
  · exact h
  · rw [h]
    obtain ⟨self, z, width, height, container, tableGroup, graph, cells, vb, hb, fresh⟩ := s
    simp only at hv hh
    subst hv hh
    simp [laidOut, forEachBorder_nil]

/-- Claim C17, as the code has it.  After a successful `initialize(1, 1)` there are zero
vertical and zero horizontal borders and one cell, with the geometry it was created with;
`layoutTable()` then changes nothing, whatever the container size, padding and spacing: it
never sets cell geometry, and there is no border to lay the single cell out. -/
theorem initialize_1x1_then_layoutTable (env : QmlEnv) (henv : env.allSucceed)
    (s : TableGroupItem) :
    ∃ t, initializeTable env 1 1 s = some t ∧
      t.verticalBorders = [] ∧ t.horizontalBorders = [] ∧
      t.cells = [newCell s.fresh s.parentForChildren] ∧
      layoutTable t = t := by
  refine ⟨builtTable s 1 1,
    initializeTable_eq_built env henv 1 1 (by decide) (by decide) (by decide) s, rfl, rfl, ?_,
    layoutTable_no_borders _ rfl rfl⟩
  simp [builtTable, builtCells, List.range_succ]

theorem initialize_1x1_then_layoutTable_witness :
    ∃ t, initializeTable readyEnv 1 1 singleTable = some t ∧
      t.verticalBorders = [] ∧ t.horizontalBorders = [] ∧
      t.cells = [newCell 0 100] ∧
      layoutTable t = t :=
  initialize_1x1_then_layoutTable readyEnv readyEnv_allSucceed singleTable

/-- Claim C17, counterexample: `initialize(1, 1)` then `layoutTable()` on a table item of
width 300 and height 200 with padding 2 and spacing 5.  There is no border, and the rectangle
of the single cell is the one it was created with, `(0, 0, 0, 0)`, not `(0, 0, 300, 200)`. -/
theorem initialize_1x1_then_layoutTable_counterexample :
    ∃ t, initializeTable readyEnv 1 1 singleTable = some t ∧
      t.width = 300 ∧ t.height = 200 ∧
      (layoutTable t).verticalBorders = [] ∧ (layoutTable t).horizontalBorders = [] ∧
      (layoutTable t).cells.map (fun c => (c.x, c.y, c.width, c.height)) = [(0, 0, 0, 0)] ∧
      (layoutTable t).cells.map (fun c => (c.x, c.y, c.width, c.height)) ≠
        [(0, 0, 300, 200)] := by
  have hlay : layoutTable (builtTable singleTable 1 1) = builtTable singleTable 1 1 :=
    layoutTable_no_borders _ rfl rfl
  have hcells : (builtTable singleTable 1 1).cells.map
      (fun c => (c.x, c.y, c.width, c.height)) = [(0, 0, 0, 0)] := by
    simp [builtTable, builtCells, List.range_succ, newCell]
  refine ⟨builtTable singleTable 1 1,
    initializeTable_eq_built readyEnv readyEnv_allSucceed 1 1 (by decide) (by decide)
      (by decide) singleTable, rfl, rfl, by rw [hlay]; rfl, by rw [hlay]; rfl, by rw [hlay]; exact hcells,
    ?_⟩
  rw [hlay, hcells]
  intro h
  have h2 := congrArg (fun l => l.map fun p : qreal × qreal × qreal × qreal => p.2.2.1) h
  norm_num at h2

/-! ## Detaching a node -/

theorem ungroupNodeItem_table (sc : Scene) (nodeItem : Option Nat) (transform : Bool)
    (nodeGlobalPos : QPointF) :
    (ungroupNodeItem nodeItem transform nodeGlobalPos sc).table = sc.table := by
  unfold ungroupNodeItem
  cases nodeItem with
  | none => rfl
  | some n =>
    simp only []
    cases sc.table.graph with
    | none => rfl
    | some graph =>
      simp only []
      cases graph.containerItem with
      | none => rfl
      | some containerItem => rfl

theorem dropScene_grouped :
    groupNodeItem (some 7) true ⟨200, 50⟩ dropScene =
      { table := { dropScene.table with cells := [dropCell0, dropCell1.setItem (some 7)] },
        nodeItems := setCell dropScene.nodeItems 7 (some 1) } := by
  have hc : dropScene.table.container ≠ none := by decide
  simp only [groupNodeItem, if_neg hc, if_true]
  rw [groupNodeItemLoop_hit 7 ⟨200, 50⟩ dropScene.nodeItems dropScene.table.cells 1 dropCell1
    rfl dropCell1_contains_200_50 dropScene_first_hit_200_50]
  rfl

/-- Claim C11 at the scene `dropScene`: node 7 is dropped at `(200, 50)` and bound to cell 1
by the hit-test of `groupNodeItem`, then `ungroupNodeItem` runs with a reachable top-level
container.  The node's cell back-reference is null afterwards, but cell 1 still holds node 7
as its attached item, for both values of `transform`. -/
theorem ungroupNodeItem_keeps_cell_item :
    (groupNodeItem (some 7) true ⟨200, 50⟩ dropScene).table.cells.map TableCell.item =
      [none, some 7] ∧
    ((groupNodeItem (some 7) true ⟨200, 50⟩ dropScene).nodeItems 7).cell = some 1 ∧
    (∀ transform : Bool,
      (ungroupNodeItem (some 7) transform ⟨200, 50⟩
        (groupNodeItem (some 7) true ⟨200, 50⟩ dropScene)).table.cells.map TableCell.item =
        [none, some 7] ∧
      ((ungroupNodeItem (some 7) transform ⟨200, 50⟩
        (groupNodeItem (some 7) true ⟨200, 50⟩ dropScene)).nodeItems 7).cell = none) := by
  refine ⟨by rw [dropScene_grouped]; rfl, by rw [dropScene_grouped]; rfl, ?_⟩
  intro transform
  refine ⟨by rw [ungroupNodeItem_table, dropScene_grouped]; rfl, ?_⟩
  rw [dropScene_grouped]
  simp [ungroupNodeItem, dropScene]

/-! ## Range of the cell indices used by the wiring: the claim -/

/-- Claim C20, as the code has it.  For every `R > 0` and `C > 0` (two `int`s): when every
dependency is available and `R * C` fits an `int`, so that all `R * C` cells and the borders
are created, `initialize(R, C)` returns (no out-of-range access to `_cells`), the cell vector
holds `R * C` cells, and every index the claim lists (`r*C + c - 1` and `r*C + c` for the
vertical borders, `(r-1)*C + c` and `r*C + c` for the horizontal borders) is within
`0..R*C-1` and names a cell.  Conversely, when the engine is there, `C >= 2` and every border
instantiation succeeds (so that the `C - 1` vertical borders exist), the call returns only if
the cell vector holds exactly `R * C` cells. -/
theorem initialize_wiring_in_range (env : QmlEnv) (R C : Int) (hR : 0 < R) (hC : 0 < C)
    (hRmax : R ≤ INT_MAX) (hCmax : C ≤ INT_MAX) (s : TableGroupItem) :
    (env.allSucceed → R * C ≤ INT_MAX →
      ∃ t, initializeTable env R C s = some t ∧ (t.cells.length : Int) = R * C ∧
        (∀ c r : Int, 1 ≤ c → c ≤ C - 1 → 0 ≤ r → r < R →
          (0 ≤ r * C + c - 1 ∧ r * C + c ≤ R * C - 1) ∧
          (cellAt t.cells (r * C + c - 1)).isSome = true ∧
          (cellAt t.cells (r * C + c)).isSome = true) ∧
        (∀ r c : Int, 1 ≤ r → r ≤ R - 1 → 0 ≤ c → c < C →
          (0 ≤ (r - 1) * C + c ∧ r * C + c ≤ R * C - 1) ∧
          (cellAt t.cells ((r - 1) * C + c)).isSome = true ∧
          (cellAt t.cells (r * C + c)).isSome = true)) ∧
    (env.engine = true → env.context = true → env.borderComponent.isReady = true →
      (∀ n, env.borderComponent.instantiate n = true) → 2 ≤ C →
      ∀ t, initializeTable env R C s = some t → (t.cells.length : Int) = R * C) := by
  have hpos : 0 < R * C := mul_pos hR hC
  constructor
  · intro henv hRC
    have hlen : ((builtTable s R C).cells.length : Int) = R * C := by
      simp only [builtTable]
      rw [builtCells_length]
      omega
    refine ⟨builtTable s R C, initializeTable_eq_built env henv R C hR hC hRC s, hlen, ?_, ?_⟩
    · intro c r hc1 hc2 hr0 hr
      have h1 : r * C + C ≤ R * C := by nlinarith
      have h2 : 0 ≤ r * C := mul_nonneg hr0 (by omega)
      have hp := cellAt_getD (builtTable s R C).cells (r * C + c - 1) (by omega) (by omega)
      have hq := cellAt_getD (builtTable s R C).cells (r * C + c) (by omega) (by omega)
      refine ⟨⟨by omega, by omega⟩, ?_, ?_⟩
      · rw [hp]; rfl
      · rw [hq]; rfl
    · intro r c hr1 hr2 hc0 hc
      have h1 : r * C + C ≤ R * C := by nlinarith
      have h2 : 0 ≤ (r - 1) * C := mul_nonneg (by omega) (by omega)
      have h3 : (r - 1) * C + C = r * C := by ring
      have hp := cellAt_getD (builtTable s R C).cells ((r - 1) * C + c) (by omega) (by omega)
      have hq := cellAt_getD (builtTable s R C).cells (r * C + c) (by omega) (by omega)
      refine ⟨⟨by omega, by omega⟩, ?_, ?_⟩
      · rw [hp]; rfl
      · rw [hq]; rfl
  · intro heng hctx hready hinst hC2 t ht
    exact (initializeTable_some_cells env heng hctx hready hinst R C hR hC2 hRmax hCmax s t
      ht).1

theorem initialize_wiring_in_range_witness :
    (∃ t, initializeTable readyEnv 2 3 priorTable = some t ∧ (t.cells.length : Int) = 2 * 3 ∧
      (cellAt t.cells (1 * 3 + 2 - 1)).isSome = true ∧
      (cellAt t.cells (1 * 3 + 2)).isSome = true) ∧
    (∀ t, initializeTable readyEnv 2 3 priorTable = some t → (t.cells.length : Int) = 2 * 3) ∧
    (∀ t, initializeTable noCellEnv 2 3 priorTable = some t → (t.cells.length : Int) = 2 * 3) ∧
    initializeTable noCellEnv 2 3 priorTable = none := by
  obtain ⟨t, ht, hlen, hv, _⟩ :=
    (initialize_wiring_in_range readyEnv 2 3 (by decide) (by decide) (by decide) (by decide)
      priorTable).1 readyEnv_allSucceed (by decide)
  exact ⟨⟨t, ht, hlen, (hv 2 1 (by decide) (by decide) (by decide) (by decide)).2⟩,
    (initialize_wiring_in_range readyEnv 2 3 (by decide) (by decide) (by decide) (by decide)
      priorTable).2 rfl rfl rfl (fun _ => rfl) (by decide),
    (initialize_wiring_in_range noCellEnv 2 3 (by decide) (by decide) (by decide) (by decide)
      priorTable).2 rfl rfl rfl (fun _ => rfl) (by decide),
    by decide⟩

/-- Claim C20, counterexample: `initialize(1, 1)` with a cell component that is not ready.
There is no border, so the wiring loops access no cell and the call returns, yet the cell
vector holds 0 cells, not `1 * 1`. -/
theorem initialize_wiring_in_range_counterexample :
    noCellEnv.engine = true ∧
    (initializeTable noCellEnv 1 1 priorTable).map (fun t =>
      (t.cells.length, t.verticalBorders.length, t.horizontalBorders.length)) =
      some (0, 0, 0) := by
  refine ⟨rfl, ?_⟩
  decide

/-- Range of the wiring at `initialize(3, 1)` when the third cell instantiation fails: the
vector holds 2 cells instead of 3, and the call still returns, because the horizontal wiring
(whose row counter stays at 1, see claim C3) only reads the cells of index 0 and 1. -/
theorem initialize_3x1_two_cells_returns :
    (initializeTable thirdFailsEnv 3 1 {}).map (fun t =>
      (t.cells.map TableCell.ref,
        t.horizontalBorders.map fun b => (b.ref, b.prevCells, b.nextCells))) =
    some ([0, 1], [(3, [0], [1]), (4, [0], [1])]) := by
  decide

/-! ## Topology of a rebuilt table -/

theorem indexOf_shift (f n k : Nat) (hk : k < n) :
    List.indexOf (f + k) ((List.range n).map fun i => f + i) = k := by
  have hnodup : ((List.range n).map fun i => f + i).Nodup :=
    (List.nodup_range n).map (fun a b hab => by simpa using hab)
  have hlen : k < ((List.range n).map fun i => f + i).length := by simpa using hk
  have hget : ((List.range n).map fun i => f + i)[k] = f + k := by simp
  rw [← hget]
  exact List.indexOf_getElem hnodup k hlen

theorem builtCells_refs (f parent n : Nat) :
    (builtCells f parent n).map TableCell.ref = (List.range n).map fun i => f + i := by
  simp only [builtCells, List.map_map]
  apply List.map_congr_left
  intro i _
  rfl

theorem cellAt_builtCells (f parent n : Nat) (i : Int) (h0 : 0 ≤ i) (h1 : i < (n : Int)) :
    cellAt (builtCells f parent n) i = some (f + i.toNat) := by
  have hlt : i.toNat < n := by omega
  simp only [cellAt, if_pos h0, builtCells]
  rw [getElem?_range_map _ _ _ hlt]
  rfl

theorem wiredVerticalAll_getElem? (cells : List TableCell) (rows cols : Int) :
    ∀ (bs : List TableBorder) (c : Int) (j : Nat),
      (wiredVerticalAll cells rows cols c bs)[j]? =
        (bs[j]?).map (wiredVertical cells cols (c + j) rows.toNat 0) := by
  intro bs
  induction bs with
  | nil => intro c j; rfl
  | cons b bs ih =>
    intro c j
    cases j with
    | zero => simp [wiredVerticalAll]
    | succ j =>
      simp only [wiredVerticalAll, List.getElem?_cons_succ]
      rw [ih]
      push_cast
      rw [add_assoc, add_comm (1 : Int)]

theorem borderChain_getElem? (o : Orientation) (parent f n j : Nat) :
    (borderChain o parent f n)[j]? = if j < n then some (chainBorder o parent f n j) else none := by
  unfold borderChain
  by_cases hj : j < n
  · rw [if_pos hj, getElem?_range_map _ _ _ hj]
  · rw [if_neg hj]
    apply List.getElem?_eq_none
    simp only [List.length_map, List.length_range]
    omega

theorem indexOf_cellAt_builtCells (f parent n : Nat) (idx : Int) (k : Nat) (hk : k < n)
    (hidx : idx = (k : Int)) :
    List.indexOf ((cellAt (builtCells f parent n) idx).getD 0)
      ((builtCells f parent n).map TableCell.ref) = k := by
  subst hidx
  rw [cellAt_builtCells f parent n (k : Int) (Int.ofNat_nonneg k) (by exact_mod_cast hk),
    builtCells_refs]
  simp only [Option.getD_some, Int.toNat_ofNat]
  exact indexOf_shift f n k hk

theorem map_indexOf_chain (f n : Nat) (o : Option Nat) (k : Option Nat)
    (h : o = k.map fun i => f + i) (hk : ∀ i, k = some i → i < n) :
    o.map (fun ref => List.indexOf ref ((List.range n).map fun i => f + i)) = k := by
  subst h
  cases k with
  | none => rfl
  | some i =>
    simp only [Option.map_some']
    rw [indexOf_shift f n i (hk i rfl)]

theorem borderAdjacency_chain_links (cellRefs : List Nat) (f n j : Nat) (b : TableBorder)
    (hp : b.prevBorder = prevOf f j)
    (hn : b.nextBorder = (if j + 1 < n then some (f + j + 1) else none)) (hj : j < n) :
    (borderAdjacency cellRefs ((List.range n).map fun i => f + i) b).prevBorder =
      (if j = 0 then none else some (j - 1)) ∧
    (borderAdjacency cellRefs ((List.range n).map fun i => f + i) b).nextBorder =
      (if j + 1 < n then some (j + 1) else none) := by
  constructor
  · apply map_indexOf_chain f n
    · rw [hp]
      unfold prevOf
      by_cases h0 : j = 0
      · simp [h0]
      · simp only [if_neg h0, Option.map_some', Option.some.injEq]
        omega
    · intro i hi
      by_cases h0 : j = 0
      · simp [h0] at hi
      · simp only [if_neg h0, Option.some.injEq] at hi
        omega
  · apply map_indexOf_chain f n
    · rw [hn]
      by_cases h1 : j + 1 < n
      · simp only [if_pos h1, Option.map_some', Option.some.injEq]
        omega
      · simp [h1]
    · intro i hi
      by_cases h1 : j + 1 < n
      · simp only [if_pos h1, Option.some.injEq] at hi
        omega
      · simp [h1] at hi

theorem borderAdjacency_eq (a : BorderAdjacency) (p n : List Nat) (pb nb : Option Nat)
    (h1 : a.prevCells = p) (h2 : a.nextCells = n) (h3 : a.prevBorder = pb)
    (h4 : a.nextBorder = nb) :
    a = { prevCells := p, nextCells := n, prevBorder := pb, nextBorder := nb } := by
  cases a
  simp_all

theorem builtTable_vertical_adjacency (s : TableGroupItem) (R C : Int) (hR : 0 < R)
    (hC : 0 < C) (j : Nat) (hj : j < (C - 1).toNat) :
    borderAdjacency ((builtTable s R C).cells.map TableCell.ref)
        ((builtTable s R C).verticalBorders.map TableBorder.ref)
        (wiredVertical (builtCells s.fresh s.parentForChildren (R * C).toNat) C (1 + j)
          R.toNat 0
          (chainBorder Orientation.Vertical s.parentForChildren (s.fresh + (R * C).toNat)
            (C - 1).toNat j)) =
      { prevCells := (List.range R.toNat).map fun r => r * C.toNat + j
        nextCells := (List.range R.toNat).map fun r => r * C.toNat + j + 1
        prevBorder := if j = 0 then none else some (j - 1)
        nextBorder := if j + 1 < (C - 1).toNat then some (j + 1) else none } := by
  have hRC : 0 < R * C := mul_pos hR hC
  have hn : (((R * C).toNat : Nat) : Int) = R * C := by omega
  have hCn : ((C.toNat : Nat) : Int) = C := by omega
  have hRn : ((R.toNat : Nat) : Int) = R := by omega
  have hj1 : (j : Int) + 1 < C := by omega
  have hrefs := refs_of_links _ _ _ (builtTable_vertical_links s R C)
  have hlinks := borderAdjacency_chain_links
    ((builtTable s R C).cells.map TableCell.ref) (s.fresh + (R * C).toNat) (C - 1).toNat j
    (wiredVertical (builtCells s.fresh s.parentForChildren (R * C).toNat) C (1 + j) R.toNat 0
      (chainBorder Orientation.Vertical s.parentForChildren (s.fresh + (R * C).toNat)
        (C - 1).toNat j)) rfl rfl hj
  rw [← hrefs] at hlinks
  have hbound : ∀ i : Nat, i < R.toNat → i * C.toNat + j + 1 < (R * C).toNat := by
    intro i hi
    have hi1 : (i : Int) + 1 ≤ R := by omega
    have hi0 : (0 : Int) ≤ i := Int.ofNat_nonneg i
    have : ((i * C.toNat + j + 1 : Nat) : Int) < ((R * C).toNat : Int) := by
      push_cast
      rw [hn, hCn]
      nlinarith
    exact_mod_cast this
  have hcells : (builtTable s R C).cells =
      builtCells s.fresh s.parentForChildren (R * C).toNat := rfl
  have hprev : (borderAdjacency ((builtTable s R C).cells.map TableCell.ref)
        ((builtTable s R C).verticalBorders.map TableBorder.ref)
        (wiredVertical (builtCells s.fresh s.parentForChildren (R * C).toNat) C (1 + j)
          R.toNat 0
          (chainBorder Orientation.Vertical s.parentForChildren (s.fresh + (R * C).toNat)
            (C - 1).toNat j))).prevCells = (List.range R.toNat).map fun r => r * C.toNat + j := by
    simp only [borderAdjacency, wiredVertical, chainBorder, newBorder, List.nil_append,
      List.map_map, hcells]
    apply List.map_congr_left
    intro i hi
    have hi' := List.mem_range.1 hi
    simp only [Function.comp_apply]
    apply indexOf_cellAt_builtCells
    · have := hbound i hi'; omega
    · push_cast
      rw [hCn]
      ring
  have hnext : (borderAdjacency ((builtTable s R C).cells.map TableCell.ref)
        ((builtTable s R C).verticalBorders.map TableBorder.ref)
        (wiredVertical (builtCells s.fresh s.parentForChildren (R * C).toNat) C (1 + j)
          R.toNat 0
          (chainBorder Orientation.Vertical s.parentForChildren (s.fresh + (R * C).toNat)
            (C - 1).toNat j))).nextCells =
      (List.range R.toNat).map fun r => r * C.toNat + j + 1 := by
    simp only [borderAdjacency, wiredVertical, chainBorder, newBorder, List.nil_append,
      List.map_map, hcells]
    apply List.map_congr_left
    intro i hi
    have hi' := List.mem_range.1 hi
    simp only [Function.comp_apply]
    apply indexOf_cellAt_builtCells
    · exact hbound i hi'
    · push_cast
      rw [hCn]
      ring
  exact borderAdjacency_eq _ _ _ _ _ hprev hnext hlinks.1 hlinks.2

theorem builtTable_horizontal_adjacency (s : TableGroupItem) (R C : Int) (hR : 0 < R)
    (hC : 0 < C) (j : Nat) (hj : j < (R - 1).toNat) :
    borderAdjacency ((builtTable s R C).cells.map TableCell.ref)
        ((builtTable s R C).horizontalBorders.map TableBorder.ref)
        (wiredHorizontal (builtCells s.fresh s.parentForChildren (R * C).toNat) C 1
          C.toNat 0
          (chainBorder Orientation.Horizontal s.parentForChildren
            (s.fresh + (R * C).toNat + (C - 1).toNat) (R - 1).toNat j)) =
      { prevCells := (List.range C.toNat).map fun c => c
        nextCells := (List.range C.toNat).map fun c => C.toNat + c
        prevBorder := if j = 0 then none else some (j - 1)
        nextBorder := if j + 1 < (R - 1).toNat then some (j + 1) else none } := by
  have hRC : 0 < R * C := mul_pos hR hC
  have hn : (((R * C).toNat : Nat) : Int) = R * C := by omega
  have hCn : ((C.toNat : Nat) : Int) = C := by omega
  have hR2 : 2 ≤ R := by omega
  have hrefs := refs_of_links _ _ _ (builtTable_horizontal_links s R C)
  have hlinks := borderAdjacency_chain_links
    ((builtTable s R C).cells.map TableCell.ref) (s.fresh + (R * C).toNat + (C - 1).toNat)
    (R - 1).toNat j
    (wiredHorizontal (builtCells s.fresh s.parentForChildren (R * C).toNat) C 1 C.toNat 0
      (chainBorder Orientation.Horizontal s.parentForChildren
        (s.fresh + (R * C).toNat + (C - 1).toNat) (R - 1).toNat j)) rfl rfl hj
  rw [← hrefs] at hlinks
  have hbound : ∀ i : Nat, i < C.toNat → C.toNat + i < (R * C).toNat := by
    intro i hi
    have hi1 : (i : Int) < C := by omega
    have : ((C.toNat + i : Nat) : Int) < ((R * C).toNat : Int) := by
      push_cast
      rw [hn, hCn]
      nlinarith
    exact_mod_cast this
  have hcells : (builtTable s R C).cells =
      builtCells s.fresh s.parentForChildren (R * C).toNat := rfl
  have hprev : (borderAdjacency ((builtTable s R C).cells.map TableCell.ref)
        ((builtTable s R C).horizontalBorders.map TableBorder.ref)
        (wiredHorizontal (builtCells s.fresh s.parentForChildren (R * C).toNat) C 1
          C.toNat 0
          (chainBorder Orientation.Horizontal s.parentForChildren
            (s.fresh + (R * C).toNat + (C - 1).toNat) (R - 1).toNat j))).prevCells =
      (List.range C.toNat).map fun c => c := by
    simp only [borderAdjacency, wiredHorizontal, chainBorder, newBorder, List.nil_append,
      List.map_map, hcells]
    apply List.map_congr_left
    intro i hi
    have hi' := List.mem_range.1 hi
    simp only [Function.comp_apply]
    apply indexOf_cellAt_builtCells
    · have := hbound i hi'; omega
    · ring
  have hnext : (borderAdjacency ((builtTable s R C).cells.map TableCell.ref)
        ((builtTable s R C).horizontalBorders.map TableBorder.ref)
        (wiredHorizontal (builtCells s.fresh s.parentForChildren (R * C).toNat) C 1
          C.toNat 0
          (chainBorder Orientation.Horizontal s.parentForChildren
            (s.fresh + (R * C).toNat + (C - 1).toNat) (R - 1).toNat j))).nextCells =
      (List.range C.toNat).map fun c => C.toNat + c := by
    simp only [borderAdjacency, wiredHorizontal, chainBorder, newBorder, List.nil_append,
      List.map_map, hcells]
    apply List.map_congr_left
    intro i hi
    have hi' := List.mem_range.1 hi
    simp only [Function.comp_apply]
    apply indexOf_cellAt_builtCells
    · exact hbound i hi'
    · push_cast
      rw [hCn]
      ring
  exact borderAdjacency_eq _ _ _ _ _ hprev hnext hlinks.1 hlinks.2

theorem topologyOf_builtTable (s : TableGroupItem) (R C : Int) (hR : 0 < R) (hC : 0 < C) :
    topologyOf (builtTable s R C) = gridTopology R C := by
  have hv : (builtTable s R C).verticalBorders.map
      (borderAdjacency ((builtTable s R C).cells.map TableCell.ref)
        ((builtTable s R C).verticalBorders.map TableBorder.ref)) =
      (gridTopology R C).vertical := by
    apply List.ext_getElem?
    intro j
    rw [List.getElem?_map]
    have hget : (builtTable s R C).verticalBorders[j]? =
        ((borderChain Orientation.Vertical s.parentForChildren (s.fresh + (R * C).toNat)
          (C - 1).toNat)[j]?).map
          (wiredVertical (builtCells s.fresh s.parentForChildren (R * C).toNat) C (1 + j)
            R.toNat 0) := wiredVerticalAll_getElem? _ R C _ 1 j
    rw [hget, borderChain_getElem?]
    by_cases hj : j < (C - 1).toNat
    · rw [if_pos hj]
      simp only [Option.map_some', gridTopology]
      rw [getElem?_range_map _ _ _ hj, builtTable_vertical_adjacency s R C hR hC j hj]
    · rw [if_neg hj]
      simp only [Option.map_none', gridTopology]
      symm
      apply List.getElem?_eq_none
      simp only [List.length_map, List.length_range]
      omega
  have hh : (builtTable s R C).horizontalBorders.map
      (borderAdjacency ((builtTable s R C).cells.map TableCell.ref)
        ((builtTable s R C).horizontalBorders.map TableBorder.ref)) =
      (gridTopology R C).horizontal := by
    apply List.ext_getElem?
    intro j
    rw [List.getElem?_map]
    have hget : (builtTable s R C).horizontalBorders[j]? =
        ((borderChain Orientation.Horizontal s.parentForChildren
          (s.fresh + (R * C).toNat + (C - 1).toNat) (R - 1).toNat)[j]?).map
          (wiredHorizontal (builtCells s.fresh s.parentForChildren (R * C).toNat) C 1
            C.toNat 0) := by
      simp only [builtTable, wiredHorizontalAll, List.getElem?_map]
    rw [hget, borderChain_getElem?]
    by_cases hj : j < (R - 1).toNat
    · rw [if_pos hj]
      simp only [Option.map_some', gridTopology]
      rw [getElem?_range_map _ _ _ hj, builtTable_horizontal_adjacency s R C hR hC j hj]
    · rw [if_neg hj]
      simp only [Option.map_none', gridTopology]
      symm
      apply List.getElem?_eq_none
      simp only [List.length_map, List.length_range]
      omega
  have hc : (builtTable s R C).cells.length = (gridTopology R C).cellCount := by
    simp only [builtTable, gridTopology]
    rw [builtCells_length]
  unfold topologyOf
  rw [hv, hh, hc]

theorem builtTable_cells_fresh (s : TableGroupItem) (R C : Int) :
    ∀ c ∈ (builtTable s R C).cells, s.fresh ≤ c.ref := by
  intro c hc
  simp only [builtTable, builtCells, List.mem_map, List.mem_range] at hc
  obtain ⟨i, _, rfl⟩ := hc
  exact Nat.le_add_right _ _

theorem builtTable_borders_fresh (s : TableGroupItem) (R C : Int) :
    ∀ b ∈ (builtTable s R C).verticalBorders ++ (builtTable s R C).horizontalBorders,
      s.fresh ≤ b.ref := by
  intro b hb
  rcases List.mem_append.1 hb with hb | hb
  · obtain ⟨i, _, hr, _, _⟩ := mem_of_links _ _ _ (builtTable_vertical_links s R C) b hb
    omega
  · obtain ⟨i, _, hr, _, _⟩ := mem_of_links _ _ _ (builtTable_horizontal_links s R C) b hb
    omega

/-- Claim C15, as the code has it.  For every `R > 0` and `C > 0` whose product fits an `int`
(`R * C ≤ INT_MAX`), every prior state `T` and every state `E` with an
empty topology (with working instantiation): `clearLayout()` then `initialize(R, C)` on `T`
and `initialize(R, C)` on `E` both return, and the two results have the same cell count, the
same border counts, the same border-to-cell adjacency (`prevCells`/`nextCells` as lists of
cell positions) and the same border chaining (`prevBorder`/`nextBorder` as border positions).
No cell or border of `T` survives: every cell and border of the result has an address
allocated by the call (not below `T.fresh`), hence different from every address of `T`. -/
theorem clearLayout_initialize_same_topology (env : QmlEnv) (henv : env.allSucceed)
    (R C : Int) (hR : 0 < R) (hC : 0 < C) (hRC : R * C ≤ INT_MAX) (T E : TableGroupItem)
    (_hEc : E.cells = []) (_hEv : E.verticalBorders = []) (_hEh : E.horizontalBorders = []) :
    ∃ t1 t2, initializeTable env R C (clearLayout T) = some t1 ∧
      initializeTable env R C E = some t2 ∧
      topologyOf t1 = topologyOf t2 ∧
      (∀ c ∈ t1.cells, T.fresh ≤ c.ref) ∧
      (∀ b ∈ t1.verticalBorders ++ t1.horizontalBorders, T.fresh ≤ b.ref) ∧
      ((∀ c0 ∈ T.cells, c0.ref < T.fresh) →
        ∀ c ∈ t1.cells, ∀ c0 ∈ T.cells, c.ref ≠ c0.ref) ∧
      ((∀ b0 ∈ T.verticalBorders ++ T.horizontalBorders, b0.ref < T.fresh) →
        ∀ b ∈ t1.verticalBorders ++ t1.horizontalBorders,
          ∀ b0 ∈ T.verticalBorders ++ T.horizontalBorders, b.ref ≠ b0.ref) := by
  have hc := builtTable_cells_fresh (clearLayout T) R C
  have hb := builtTable_borders_fresh (clearLayout T) R C
  refine ⟨builtTable (clearLayout T) R C, builtTable E R C,
    initializeTable_eq_built env henv R C hR hC hRC (clearLayout T),
    initializeTable_eq_built env henv R C hR hC hRC E, ?_, hc, hb, ?_, ?_⟩
  · rw [topologyOf_builtTable _ R C hR hC, topologyOf_builtTable _ R C hR hC]
  · intro hT c hcm c0 hc0
    have h1 := hc c hcm
    have h2 := hT c0 hc0
    have h3 : (clearLayout T).fresh = T.fresh := rfl
    omega
  · intro hT b hbm b0 hb0
    have h1 := hb b hbm
    have h2 := hT b0 hb0
    have h3 : (clearLayout T).fresh = T.fresh := rfl
    omega

theorem clearLayout_initialize_same_topology_witness :
    ((initializeTable readyEnv 2 3 (clearLayout sampleTable)).map topologyOf =
      some { cellCount := 6
             vertical := [{ prevCells := [0, 3], nextCells := [1, 4],
                            prevBorder := none, nextBorder := some 1 },
                          { prevCells := [1, 4], nextCells := [2, 5],
                            prevBorder := some 0, nextBorder := none }]
             horizontal := [{ prevCells := [0, 1, 2], nextCells := [3, 4, 5],
                              prevBorder := none, nextBorder := none }] }) ∧
    ∃ t1 t2, initializeTable readyEnv 2 3 (clearLayout sampleTable) = some t1 ∧
      initializeTable readyEnv 2 3 {} = some t2 ∧
      topologyOf t1 = topologyOf t2 ∧
      (∀ c ∈ t1.cells, ∀ c0 ∈ sampleTable.cells, c.ref ≠ c0.ref) ∧
      (∀ b ∈ t1.verticalBorders ++ t1.horizontalBorders,
        ∀ b0 ∈ sampleTable.verticalBorders ++ sampleTable.horizontalBorders,
          b.ref ≠ b0.ref) := by
  refine ⟨by decide, ?_⟩
  obtain ⟨t1, t2, h1, h2, h3, _, _, h6, h7⟩ :=
    clearLayout_initialize_same_topology readyEnv readyEnv_allSucceed 2 3 (by decide)
      (by decide) (by decide) sampleTable {} rfl rfl rfl
  exact ⟨t1, t2, h1, h2, h3, h6 (by decide), h7 (by decide)⟩

/-- Claim C15, counterexample: `R = C = 65536` with every instantiation succeeding.  The
product `rows * cols` wraps around to 0, no cell is created, and the vertical wiring reads
`_cells[0]` of the empty vector: neither `clearLayout()` then `initialize(65536, 65536)` on the
sample table nor `initialize(65536, 65536)` on an empty table produces a topology. -/
theorem clearLayout_initialize_same_topology_counterexample :
    readyEnv.allSucceed ∧ wrapInt (65536 * 65536) = 0 ∧
    (initializeTable readyEnv 65536 65536 (clearLayout sampleTable)).map topologyOf = none ∧
    (initializeTable readyEnv 65536 65536 {}).map topologyOf = none := by
  refine ⟨readyEnv_allSucceed, by decide, ?_, ?_⟩
  · rw [initializeTable_65536 readyEnv readyEnv_allSucceed]; rfl
  · rw [initializeTable_65536 readyEnv readyEnv_allSucceed]; rfl

/-! ## Tiling of the container by the cells -/

/-- The columns tile the width: for valid inputs the cell width used by `layoutTable()`
satisfies `2P + C*cellWidth + (C-1)*S = W`, and the centre of every vertical border it lays
out is inside the container, `0 <= x <= W`. -/
theorem layoutTable_columns_tile (s : TableGroupItem) (R C : Int) (P S : qreal)
    (hg : s.tableGroup = some { rows := R, cols := C, cellSpacing := S, tablePadding := P })
    (hR : 0 < R) (hC : 0 < C) (hP : 0 ≤ P) (hS : 0 ≤ S) (hW : 0 < s.width) (hH : 0 < s.height)
    (hcw : 0 ≤ (s.width - 2 * P - ((C : qreal) - 1) * S) / (C : qreal))
    (hch : 0 ≤ (s.height - 2 * P - ((C : qreal) - 1) * S) / (R : qreal))
    (hn : (s.verticalBorders.length : Int) = C - 1) :
    2 * P + (C : qreal) * cellWidth s.width P S C + ((C : qreal) - 1) * S = s.width ∧
    ∀ c : Int, 1 ≤ c → c ≤ C - 1 →
      ∃ b, (layoutTable s).verticalBorders[(c - 1).toNat]? = some b ∧
        0 ≤ b.x + b.width / 2 ∧ b.x + b.width / 2 ≤ s.width := by
  have hCq : (0 : qreal) < (C : qreal) := by exact_mod_cast hC
  have htile : 2 * P + (C : qreal) * cellWidth s.width P S C + ((C : qreal) - 1) * S =
      s.width := by
    rw [cellWidth_of_pos _ _ _ _ hW]
    field_simp
    ring
  refine ⟨htile, ?_⟩
  intro c hc1 hc2
  have hlay := layoutTable_eq_laidOut s _ hg
    (not_returnsEarly_of_valid s R C P S hR hC hP hS hW hH hcw hch)
  obtain ⟨b0, _, hb⟩ := laidOut_vertical_getElem? s ⟨R, C, S, P⟩ hn c hc1 hc2
  have hcw' : 0 ≤ cellWidth s.width P S C := by
    rw [cellWidth_of_pos _ _ _ _ hW]; exact hcw
  have hc1q : (1 : qreal) ≤ (c : qreal) := by exact_mod_cast hc1
  have hc2q : (c : qreal) ≤ (C : qreal) - 1 := by exact_mod_cast hc2
  refine ⟨_, by rw [hlay]; exact hb, ?_, ?_⟩
  · rw [layoutVerticalBorder_centre]
    have h1 : 0 ≤ ((c : qreal) - 1) * S := mul_nonneg (by linarith) hS
    have h2 : 0 ≤ (c : qreal) * cellWidth s.width P S C := mul_nonneg (by linarith) hcw'
    show 0 ≤ P + ((c : qreal) - 1) * S + (c : qreal) * cellWidth s.width P S C + S / 2
    linarith
  · rw [layoutVerticalBorder_centre]
    have h1 : 0 ≤ ((C : qreal) - 1 - (c : qreal)) * S := mul_nonneg (by linarith) hS
    have h2 : 0 ≤ ((C : qreal) - (c : qreal)) * cellWidth s.width P S C :=
      mul_nonneg (by linarith) hcw'
    show P + ((c : qreal) - 1) * S + (c : qreal) * cellWidth s.width P S C + S / 2 ≤ s.width
    nlinarith

/-- The rows and the height: for valid inputs the cell height used by `layoutTable()`
satisfies `2P + R*cellHeight + (R-1)*S = H + (R - C)*S`, because `cellHeight` subtracts
`(cols-1)*spacing`; the rows tile the height only when `(R - C)*S = 0`. -/
theorem layoutTable_rows_offset (H P S : qreal) (R C : Int) (hR : 0 < R) (hH : 0 < H) :
    2 * P + (R : qreal) * cellHeight H P S C R + ((R : qreal) - 1) * S =
      H + ((R : qreal) - (C : qreal)) * S := by
  have hRq : (0 : qreal) < (R : qreal) := by exact_mod_cast hR
  rw [cellHeight_of_pos _ _ _ _ _ hH]
  field_simp
  ring

/-- Claim C22 at two valid inputs.  For `W = 300`, `H = 200`, `P = 2`, `S = 5`, `C = 3`,
`R = 2` the cell height is 93 and `2P + R*cellHeight + (R-1)*S = 195`, not `H = 200`.  For
`W = 300`, `H = 200`, `P = 0`, `S = 100`, `C = 1`, `R = 3` the cell height is `200/3` and
`layoutTable()` centres horizontal border 2 on `y = 850/3`, below the container bottom
`H = 200`. -/
theorem layoutTable_rows_do_not_tile :
    (cellHeight sampleTable.height 2 5 3 2 = 93 ∧
      2 * 2 + 2 * cellHeight sampleTable.height 2 5 3 2 + (2 - 1) * 5 = 195 ∧
      (195 : qreal) ≠ sampleTable.height) ∧
    (cellHeight tallTable.height 0 100 1 3 = 200 / 3 ∧
      ∃ b, (layoutTable tallTable).horizontalBorders[1]? = some b ∧
        b.height = 3 ∧ b.y + b.height / 2 = 850 / 3 ∧
        tallTable.height < b.y + b.height / 2) := by
  have hs : sampleTable.height = 200 := rfl
  have ht : tallTable.height = 200 := rfl
  have hw : tallTable.width = 300 := rfl
  have hch1 : cellHeight sampleTable.height 2 5 3 2 = 93 := by
    rw [hs, cellHeight_of_pos _ _ _ _ _ (by norm_num)]; norm_num
  have hch2 : cellHeight tallTable.height 0 100 1 3 = 200 / 3 := by
    rw [ht, cellHeight_of_pos _ _ _ _ _ (by norm_num)]; norm_num
  refine ⟨⟨hch1, by rw [hch1]; norm_num, by rw [hs]; norm_num⟩, hch2, ?_⟩
  have hlay := layoutTable_eq_laidOut tallTable _ rfl
    (not_returnsEarly_of_valid tallTable 3 1 0 100 (by decide) (by decide) (by norm_num)
      (by norm_num) (by rw [hw]; norm_num) (by rw [ht]; norm_num) (by rw [hw]; norm_num)
      (by rw [ht]; norm_num))
  obtain ⟨b0, _, hb⟩ := laidOut_horizontal_getElem? tallTable ⟨3, 1, 100, 0⟩ (by decide) 2
    (by decide) (by decide)
  have hcentre : ∀ b : TableBorder,
      (layoutHorizontalBorder 0 100 (cellHeight tallTable.height 0 100 1 3) tallTable.width 2
        b).y +
      (layoutHorizontalBorder 0 100 (cellHeight tallTable.height 0 100 1 3) tallTable.width 2
        b).height / 2 = 850 / 3 := by
    intro b
    rw [layoutHorizontalBorder_centre, hch2]
    norm_num
  refine ⟨_, by rw [hlay]; exact hb, rfl, hcentre b0, ?_⟩
  rw [hcentre b0, ht]
  norm_num

/-! ## Consistency of the cell and node references -/

theorem groupNodeItemLoop_append (n : Nat) (p : QPointF) (nodeItems : Nat → NodeItem)
    (c : TableCell) (bs : List TableCell) (hc : c.cellBr.contains p = true) :
    ∀ (as : List TableCell), (∀ a ∈ as, a.cellBr.contains p = false) →
      groupNodeItemLoop n p (as ++ c :: bs) nodeItems =
        (as ++ c.setItem (some n) :: bs, setCell nodeItems n (some c.ref)) := by
  intro as
  induction as with
  | nil => intro _; simp [groupNodeItemLoop, hc]
  | cons a as ih =>
    intro h
    have ha : a.cellBr.contains p = false := h a (List.mem_cons_self a as)
    have hrest := ih (fun x hx => h x (List.mem_cons_of_mem a hx))
    simp [groupNodeItemLoop, ha, hrest]

theorem groupNodeItem_cases (sc : Scene) (n : Nat) (p : QPointF) :
    groupNodeItem (some n) true p sc = sc ∨
    ∃ as c bs, sc.table.cells = as ++ c :: bs ∧
      sc.table.cells.find? (fun c => c.cellBr.contains p) = some c ∧
      groupNodeItem (some n) true p sc =
        { table := { sc.table with cells := as ++ c.setItem (some n) :: bs },
          nodeItems := setCell sc.nodeItems n (some c.ref) } := by
  by_cases hcont : sc.table.container = none
  · left
    simp [groupNodeItem, hcont]
  · cases hfind : sc.table.cells.find? (fun c => c.cellBr.contains p) with
    | none =>
      left
      have hmiss : ∀ c ∈ sc.table.cells, c.cellBr.contains p = false := by
        intro c hc
        have := List.find?_eq_none.1 hfind c hc
        simpa using this
      simp only [groupNodeItem, if_neg hcont, if_true]
      rw [groupNodeItemLoop_miss n p sc.nodeItems sc.table.cells hmiss]
    | some c =>
      right
      obtain ⟨hc, as, bs, hsplit, hbefore⟩ := List.find?_eq_some.1 hfind
      refine ⟨as, c, bs, hsplit, rfl, ?_⟩
      simp only [groupNodeItem, if_neg hcont, if_true]
      rw [hsplit, groupNodeItemLoop_append n p sc.nodeItems c bs hc as
        (fun a ha => by simpa using hbefore a ha)]

theorem groupNodeItem_consistent (sc : Scene) (n : Nat) (p : QPointF) (hsc : Consistent sc)
    (hdrop : freshDrop sc n p) : Consistent (groupNodeItem (some n) true p sc) := by
  rcases groupNodeItem_cases sc n p with h | ⟨as, c, bs, hsplit, hfind, h⟩
  · rw [h]; exact hsc
  · obtain ⟨hnodup, hiff⟩ := hsc
    unfold freshDrop at hdrop
    rw [hfind] at hdrop
    obtain ⟨hcitem, hncell⟩ := hdrop
    have hcmem : c ∈ sc.table.cells := by rw [hsplit]; simp
    have hrefs : (as ++ c.setItem (some n) :: bs).map TableCell.ref =
        sc.table.cells.map TableCell.ref := by
      rw [hsplit]
      simp [TableCell.setItem]
    have hother : ∀ x ∈ as ++ bs, x ∈ sc.table.cells ∧ x.ref ≠ c.ref := by
      intro x hx
      have hxmem : x ∈ sc.table.cells := by
        rw [hsplit]
        rcases List.mem_append.1 hx with hx | hx
        · exact List.mem_append_left _ hx
        · exact List.mem_append_right _ (List.mem_cons_of_mem _ hx)
      refine ⟨hxmem, ?_⟩
      intro href
      rw [hsplit, List.map_append, List.map_cons] at hnodup
      have hx' : x.ref ∈ as.map TableCell.ref ∨ x.ref ∈ bs.map TableCell.ref := by
        rcases List.mem_append.1 hx with hx | hx
        · exact Or.inl (List.mem_map_of_mem _ hx)
        · exact Or.inr (List.mem_map_of_mem _ hx)
      rw [href] at hx'
      have hd := List.nodup_append.1 hnodup
      rcases hx' with hx' | hx'
      · exact hd.2.2 hx' (List.mem_cons_self _ _)
      · exact (List.nodup_cons.1 hd.2.1).1 hx'
    rw [h]
    refine ⟨by simpa only [hrefs] using hnodup, ?_⟩
    intro x hx m
    simp only [List.mem_append, List.mem_cons] at hx
    have hxcase : x = c.setItem (some n) ∨ x ∈ as ++ bs := by
      rcases hx with hx | hx | hx
      · exact Or.inr (List.mem_append_left _ hx)
      · exact Or.inl hx
      · exact Or.inr (List.mem_append_right _ hx)
    rcases hxcase with hx | hx
    · subst hx
      by_cases hmn : m = n
      · subst hmn
        simp [TableCell.setItem, setCell]
      · have hold := hiff c hcmem m
        rw [hcitem] at hold
        have hne : ¬ (sc.nodeItems m).cell = some c.ref := fun hh => by
          have := hold.2 hh
          cases this
        simp only [TableCell.setItem, setCell, if_neg hmn, Option.some.injEq]
        constructor
        · intro hh; exact absurd hh.symm hmn
        · intro hh; exact absurd hh hne
    · obtain ⟨hxmem, hxref⟩ := hother x hx
      by_cases hmn : m = n
      · subst hmn
        have hold := hiff x hxmem m
        rw [hncell] at hold
        simp only [setCell, if_true, Option.some.injEq]
        constructor
        · intro hh
          have := hold.1 hh
          cases this
        · intro hh; exact absurd hh.symm hxref
      · simp only [setCell, if_neg hmn]
        exact hiff x hxmem m

theorem groupAll_consistent :
    ∀ (drops : List (Nat × QPointF)) (sc : Scene), Consistent sc → freshDrops drops sc →
      Consistent (groupAll drops sc) := by
  intro drops
  induction drops with
  | nil => intro sc hsc _; exact hsc
  | cons d rest ih =>
    intro sc hsc hdrops
    obtain ⟨n, p⟩ := d
    exact ih _ (groupNodeItem_consistent sc n p hsc hdrops.1) hdrops.2

theorem consistent_of_empty (sc : Scene)
    (hrefs : (sc.table.cells.map TableCell.ref).Nodup)
    (hcells : ∀ c ∈ sc.table.cells, c.item = none)
    (hnodes : ∀ n : Nat, (sc.nodeItems n).cell = none) : Consistent sc := by
  refine ⟨hrefs, ?_⟩
  intro c hc n
  rw [hcells c hc, hnodes n]
  constructor <;> intro h <;> cases h

/-! ## Drops on the sample scene -/

theorem cellBr_setItem (c : TableCell) (item : Option Nat) :
    (c.setItem item).cellBr = c.cellBr := rfl

theorem dropCell0_contains_50_50 : dropCell0.cellBr.contains ⟨50, 50⟩ = true := by
  norm_num [dropCell0, newCell, TableCell.cellBr, QRectF.contains, QRectF.l, QRectF.r,
    QRectF.t, QRectF.b]

theorem dropCell0_misses_400_50 : dropCell0.cellBr.contains ⟨400, 50⟩ = false := by
  norm_num [dropCell0, newCell, TableCell.cellBr, QRectF.contains, QRectF.l, QRectF.r,
    QRectF.t, QRectF.b]

theorem dropCell1_misses_400_50 : dropCell1.cellBr.contains ⟨400, 50⟩ = false := by
  norm_num [dropCell1, newCell, TableCell.cellBr, QRectF.contains, QRectF.l, QRectF.r,
    QRectF.t, QRectF.b]

theorem groupNodeItem_two_cells_first (t : TableGroupItem) (nodeItems : Nat → NodeItem)
    (c0 c1 : TableCell) (n : Nat) (p : QPointF) (hcont : t.container ≠ none)
    (hcells : t.cells = [c0, c1]) (h0 : c0.cellBr.contains p = true) :
    groupNodeItem (some n) true p { table := t, nodeItems := nodeItems } =
      { table := { t with cells := [c0.setItem (some n), c1] },
        nodeItems := setCell nodeItems n (some c0.ref) } := by
  simp [groupNodeItem, hcont, hcells, groupNodeItemLoop, h0]

theorem groupNodeItem_two_cells_second (t : TableGroupItem) (nodeItems : Nat → NodeItem)
    (c0 c1 : TableCell) (n : Nat) (p : QPointF) (hcont : t.container ≠ none)
    (hcells : t.cells = [c0, c1]) (h0 : c0.cellBr.contains p = false)
    (h1 : c1.cellBr.contains p = true) :
    groupNodeItem (some n) true p { table := t, nodeItems := nodeItems } =
      { table := { t with cells := [c0, c1.setItem (some n)] },
        nodeItems := setCell nodeItems n (some c1.ref) } := by
  simp [groupNodeItem, hcont, hcells, groupNodeItemLoop, h0, h1]

theorem groupNodeItem_two_cells_miss (t : TableGroupItem) (nodeItems : Nat → NodeItem)
    (c0 c1 : TableCell) (n : Nat) (p : QPointF) (hcells : t.cells = [c0, c1])
    (h0 : c0.cellBr.contains p = false) (h1 : c1.cellBr.contains p = false) :
    groupNodeItem (some n) true p { table := t, nodeItems := nodeItems } =
      { table := t, nodeItems := nodeItems } := by
  have hmiss : ∀ c ∈ t.cells, c.cellBr.contains p = false := by
    intro c hc
    rw [hcells] at hc
    simp only [List.mem_cons, List.mem_singleton, List.not_mem_nil, or_false] at hc
    rcases hc with rfl | rfl
    · exact h0
    · exact h1
  by_cases hcont : t.container = none
  · simp [groupNodeItem, hcont]
  · simp only [groupNodeItem, if_neg hcont, if_true]
    rw [groupNodeItemLoop_miss n p nodeItems t.cells hmiss]

/-- Claim C21, counterexample: in `dropScene` no cell holds an attached item and no node has
a cell back-reference.  Node 7 dropped at `(200, 50)` (cell 1) and then at `(50, 50)`
(cell 0) ends as the attached item of both cells, its back-reference being cell 0: it was not
removed from cell 1.  Node 7 dropped at `(200, 50)` and then node 8 at the same point end
with cell 1 holding node 8 while the back-reference of node 7 is still cell 1. -/
theorem groupNodeItem_sequence_counterexample :
    dropScene.table.cells.map TableCell.item = [none, none] ∧
    (∀ n : Nat, (dropScene.nodeItems n).cell = none) ∧
    ((groupAll [(7, ⟨200, 50⟩), (7, ⟨50, 50⟩)] dropScene).table.cells.map
        (fun c => (c.ref, c.item)) = [(0, some 7), (1, some 7)] ∧
      ((groupAll [(7, ⟨200, 50⟩), (7, ⟨50, 50⟩)] dropScene).nodeItems 7).cell = some 0) ∧
    ((groupAll [(7, ⟨200, 50⟩), (8, ⟨200, 50⟩)] dropScene).table.cells.map
        (fun c => (c.ref, c.item)) = [(0, none), (1, some 8)] ∧
      ((groupAll [(7, ⟨200, 50⟩), (8, ⟨200, 50⟩)] dropScene).nodeItems 7).cell = some 1 ∧
      ((groupAll [(7, ⟨200, 50⟩), (8, ⟨200, 50⟩)] dropScene).nodeItems 8).cell = some 1) := by
  have hc : ({ dropScene.table with
      cells := [dropCell0, dropCell1.setItem (some 7)] } : TableGroupItem).container ≠ none := by
    decide
  have ha : groupAll [(7, ⟨200, 50⟩), (7, ⟨50, 50⟩)] dropScene =
      { table := { dropScene.table with
          cells := [dropCell0.setItem (some 7), dropCell1.setItem (some 7)] },
        nodeItems := setCell (setCell dropScene.nodeItems 7 (some 1)) 7 (some 0) } := by
    simp only [groupAll]
    rw [dropScene_grouped, groupNodeItem_two_cells_first _ _ dropCell0
      (dropCell1.setItem (some 7)) 7 ⟨50, 50⟩ hc rfl dropCell0_contains_50_50]
    rfl
  have hb : groupAll [(7, ⟨200, 50⟩), (8, ⟨200, 50⟩)] dropScene =
      { table := { dropScene.table with
          cells := [dropCell0, (dropCell1.setItem (some 7)).setItem (some 8)] },
        nodeItems := setCell (setCell dropScene.nodeItems 7 (some 1)) 8 (some 1) } := by
    simp only [groupAll]
    rw [dropScene_grouped, groupNodeItem_two_cells_second _ _ dropCell0
      (dropCell1.setItem (some 7)) 8 ⟨200, 50⟩ hc rfl dropCell0_misses_200_50
      (by rw [cellBr_setItem]; exact dropCell1_contains_200_50)]
    rfl
  refine ⟨rfl, fun _ => rfl, ⟨?_, ?_⟩, ?_, ?_, ?_⟩
  · rw [ha]; rfl
  · rw [ha]; rfl
  · rw [hb]; rfl
  · rw [hb]; rfl
  · rw [hb]; rfl

/-- Claim C21, as the code has it.  Start from a table whose cells have distinct addresses,
in which no cell holds an attached item and no node has a cell back-reference.  After any run
of `groupNodeItem(node, transform = true)` calls each of which either hits no cell or drops a
node without cell back-reference into a cell without attached item, cell `k` holds node `n`
as its attached item if and only if the cell back-reference of `n` is cell `k`, and every
node is the attached item of at most one cell.  (`groupNodeItem` itself detaches nothing: a
run that re-attaches a node, or drops a node into an occupied cell, is not covered.) -/
theorem groupNodeItem_sequence_consistent (sc : Scene) (drops : List (Nat × QPointF))
    (hrefs : (sc.table.cells.map TableCell.ref).Nodup)
    (hcells : ∀ c ∈ sc.table.cells, c.item = none)
    (hnodes : ∀ n : Nat, (sc.nodeItems n).cell = none)
    (hdrops : freshDrops drops sc) :
    (∀ c ∈ (groupAll drops sc).table.cells, ∀ n : Nat,
      c.item = some n ↔ ((groupAll drops sc).nodeItems n).cell = some c.ref) ∧
    (∀ c1 ∈ (groupAll drops sc).table.cells, ∀ c2 ∈ (groupAll drops sc).table.cells,
      ∀ n : Nat, c1.item = some n → c2.item = some n → c1 = c2) := by
  obtain ⟨hnodup, hiff⟩ :=
    groupAll_consistent drops sc (consistent_of_empty sc hrefs hcells hnodes) hdrops
  refine ⟨hiff, ?_⟩
  intro c1 h1 c2 h2 n hn1 hn2
  have e1 := (hiff c1 h1 n).1 hn1
  have e2 := (hiff c2 h2 n).1 hn2
  rw [e1] at e2
  exact List.inj_on_of_nodup_map hnodup h1 h2 (Option.some.inj e2)

theorem groupNodeItem_sequence_consistent_witness :
    (groupAll [(7, ⟨200, 50⟩), (8, ⟨50, 50⟩), (9, ⟨400, 50⟩)] dropScene).table.cells.map
        (fun c => (c.ref, c.item)) = [(0, some 8), (1, some 7)] ∧
    ((groupAll [(7, ⟨200, 50⟩), (8, ⟨50, 50⟩), (9, ⟨400, 50⟩)] dropScene).nodeItems 7).cell =
      some 1 ∧
    ((groupAll [(7, ⟨200, 50⟩), (8, ⟨50, 50⟩), (9, ⟨400, 50⟩)] dropScene).nodeItems 8).cell =
      some 0 ∧
    ((groupAll [(7, ⟨200, 50⟩), (8, ⟨50, 50⟩), (9, ⟨400, 50⟩)] dropScene).nodeItems 9).cell =
      none ∧
    (∀ c ∈ (groupAll [(7, ⟨200, 50⟩), (8, ⟨50, 50⟩), (9, ⟨400, 50⟩)] dropScene).table.cells,
      ∀ n : Nat, c.item = some n ↔
        ((groupAll [(7, ⟨200, 50⟩), (8, ⟨50, 50⟩), (9, ⟨400, 50⟩)] dropScene).nodeItems
          n).cell = some c.ref) := by
  have hc : ({ dropScene.table with
      cells := [dropCell0, dropCell1.setItem (some 7)] } : TableGroupItem).container ≠ none := by
    decide
  have h1 := dropScene_grouped
  have h2 := groupNodeItem_two_cells_first
    { dropScene.table with cells := [dropCell0, dropCell1.setItem (some 7)] }
    (setCell dropScene.nodeItems 7 (some 1)) dropCell0 (dropCell1.setItem (some 7)) 8 ⟨50, 50⟩
    hc rfl dropCell0_contains_50_50
  have h3 := groupNodeItem_two_cells_miss
    { dropScene.table with
      cells := [dropCell0.setItem (some 8), dropCell1.setItem (some 7)] }
    (setCell (setCell dropScene.nodeItems 7 (some 1)) 8 (some 0))
    (dropCell0.setItem (some 8)) (dropCell1.setItem (some 7)) 9 ⟨400, 50⟩ rfl
    (by rw [cellBr_setItem]; exact dropCell0_misses_400_50)
    (by rw [cellBr_setItem]; exact dropCell1_misses_400_50)
  have hall : groupAll [(7, ⟨200, 50⟩), (8, ⟨50, 50⟩), (9, ⟨400, 50⟩)] dropScene =
      { table := { dropScene.table with
          cells := [dropCell0.setItem (some 8), dropCell1.setItem (some 7)] },
        nodeItems := setCell (setCell dropScene.nodeItems 7 (some 1)) 8 (some 0) } := by
    simp only [groupAll]
    rw [h1, h2]
    exact h3
  have hdrops : freshDrops [(7, ⟨200, 50⟩), (8, ⟨50, 50⟩), (9, ⟨400, 50⟩)] dropScene := by
    refine ⟨?_, ?_, ?_, trivial⟩
    · have hfind : dropScene.table.cells.find? (fun c => c.cellBr.contains ⟨200, 50⟩) =
          some dropCell1 := by
        show List.find? _ [dropCell0, dropCell1] = _
        simp [List.find?_cons, dropCell0_misses_200_50, dropCell1_contains_200_50]
      unfold freshDrop
      rw [hfind]
      exact ⟨rfl, rfl⟩
    · rw [h1]
      have hfind : List.find? (fun c => c.cellBr.contains ⟨50, 50⟩)
          [dropCell0, dropCell1.setItem (some 7)] = some dropCell0 := by
        simp [List.find?_cons, dropCell0_contains_50_50]
      unfold freshDrop
      show (match List.find? (fun c => c.cellBr.contains ⟨50, 50⟩)
          [dropCell0, dropCell1.setItem (some 7)] with
        | none => True
        | some c => c.item = none ∧
          ((setCell dropScene.nodeItems 7 (some 1)) 8).cell = none)
      rw [hfind]
      exact ⟨rfl, rfl⟩
    · rw [h1, h2]
      have hfind : List.find? (fun c => c.cellBr.contains ⟨400, 50⟩)
          [dropCell0.setItem (some 8), dropCell1.setItem (some 7)] = none := by
        simp [List.find?_cons, cellBr_setItem, dropCell0_misses_400_50,
          dropCell1_misses_400_50]
      unfold freshDrop
      show (match List.find? (fun c => c.cellBr.contains ⟨400, 50⟩)
          [dropCell0.setItem (some 8), dropCell1.setItem (some 7)] with
        | none => True
        | some c => c.item = none ∧
          ((setCell (setCell dropScene.nodeItems 7 (some 1)) 8 (some 0)) 9).cell = none)
      rw [hfind]
      trivial
  have hmain := (groupNodeItem_sequence_consistent dropScene
    [(7, ⟨200, 50⟩), (8, ⟨50, 50⟩), (9, ⟨400, 50⟩)] (by decide) (by
      intro c hc
      simp only [dropScene, List.mem_cons, List.mem_singleton, List.not_mem_nil,
        or_false] at hc
      rcases hc with rfl | rfl <;> rfl) (fun _ => rfl) hdrops).1
  refine ⟨by rw [hall]; rfl, by rw [hall]; rfl, by rw [hall]; rfl, by rw [hall]; rfl, hmain⟩

/-! ## Lemmas on the layout of the cells by their borders -/

end qan
